import Mathlib

/-! BCAT delivery cache: progress tracker, tree merge and cache service.

A shallow embedding of `core/hle/service/bcat/backend/backend.cpp`,
`core/hle/service/bcat/backend/boxcat.cpp` and `core/hle/service/bcat/module.cpp`.

Conventions of the embedding:

* unsigned 64-bit quantities (`u64`, `std::size_t`) are natural numbers; every
  arithmetic step that can leave the range is reduced modulo `2 ^ 64`;
* bytes and characters are natural numbers, strings are lists of them;
* C++ objects mutated in place are passed in and returned;
* a shared pointer that may be null is an `Option`.
-/

namespace Bcat

/-- The number of values of a `u64` / `std::size_t`. -/
def U64 : Nat := 2 ^ 64

/-- A byte string (`std::string`, `std::string_view`, `std::vector<u8>`). -/
abbrev Bytes := List Nat

/-! ## Result codes -/

/-- Modelled from the spec: the members of `ErrorModule` (`core/hle/result.h`) that the
BCAT service names; `Common` is the module of the code 0. -/
inductive ErrorModule where
  | Common
  | FS
  | BCAT
  deriving DecidableEq, Repr

/-- A `ResultCode`: an error module and a description number. -/
structure ResultCode where
  module : ErrorModule
  description : Nat
  deriving DecidableEq, Repr

namespace ResultCode

/-- `RESULT_SUCCESS`, the code 0. -/
def RESULT_SUCCESS : ResultCode := ⟨.Common, 0⟩

/-- `ERROR_GENERAL_BCAT_FAILURE{ErrorModule::BCAT, 1}` (`boxcat.cpp`). -/
def ERROR_GENERAL_BCAT_FAILURE : ResultCode := ⟨.BCAT, 1⟩

/-- `ERROR_INVALID_ARGUMENT{ErrorModule::BCAT, 1}` (`module.cpp`). -/
def ERROR_INVALID_ARGUMENT : ResultCode := ⟨.BCAT, 1⟩

/-- `ERROR_FAILED_OPEN_ENTITY{ErrorModule::BCAT, 2}`. -/
def ERROR_FAILED_OPEN_ENTITY : ResultCode := ⟨.BCAT, 2⟩

/-- `ERROR_ENTITY_ALREADY_OPEN{ErrorModule::BCAT, 6}`. -/
def ERROR_ENTITY_ALREADY_OPEN : ResultCode := ⟨.BCAT, 6⟩

/-- `ERROR_NO_OPEN_ENTITY{ErrorModule::BCAT, 7}`. -/
def ERROR_NO_OPEN_ENTITY : ResultCode := ⟨.BCAT, 7⟩

/-- `ERROR_FAILED_CLEAR_CACHE{ErrorModule::FS, 6400}`. -/
def ERROR_FAILED_CLEAR_CACHE : ResultCode := ⟨.FS, 6400⟩

end ResultCode

/-! ## The progress record (`DeliveryCacheProgressImpl`) -/

/-- Modelled from the spec: the `Status` enumeration of `DeliveryCacheProgressImpl`
(declared in `backend.h`), in the order the spec gives. -/
inductive Status where
  | Connecting
  | ProcessingDataList
  | Downloading
  | Committing
  | Done
  deriving DecidableEq, Repr

/-- Position of a status in the order
`Connecting < ProcessingDataList < Downloading < Committing < Done`. -/
def Status.rank : Status → Nat
  | .Connecting => 0
  | .ProcessingDataList => 1
  | .Downloading => 2
  | .Committing => 3
  | .Done => 4

/-- Modelled from the spec: the record `DeliveryCacheProgressImpl` (declared in
`backend.h`); the two name fields are character arrays of capacity `0x31`. -/
structure DeliveryCacheProgressImpl where
  status : Status
  result : ResultCode
  current_directory : Bytes
  current_file : Bytes
  current_downloaded_bytes : Nat
  current_total_bytes : Nat
  total_downloaded_bytes : Nat
  total_bytes : Nat
  deriving DecidableEq, Repr

/-- One `Signal()` of the update event: whether the HLE lock was held, and the
record an observer woken by it reads. -/
structure Signalled where
  locked : Bool
  seen : DeliveryCacheProgressImpl
  deriving DecidableEq, Repr

/-- The class `ProgressServiceBackend`: the record, the lock flag, and the
signals its update event has received so far (oldest first). -/
structure ProgressServiceBackend where
  impl : DeliveryCacheProgressImpl
  need_hle_lock : Bool
  event : List Signalled
  deriving DecidableEq, Repr

/-- The effect of `std::memcpy(dst.data(), src.data(), n)`: the first `n` bytes of
`dst` are replaced by the first `n` bytes of `src`, the rest of `dst` stays. -/
def memcpy (dst src : Bytes) (n : Nat) : Bytes :=
  src.take n ++ dst.drop n

/-- The effect of `std::array::fill(0)`. -/
def fill0 (dst : Bytes) : Bytes :=
  List.replicate dst.length 0

namespace ProgressServiceBackend

/-- `ProgressServiceBackend::SetNeedHLELock`. -/
def SetNeedHLELock (p : ProgressServiceBackend) (need : Bool) : ProgressServiceBackend :=
  { p with need_hle_lock := need }

/-- `ProgressServiceBackend::SignalUpdate`: both branches signal the event once,
the first one under the HLE lock. -/
def SignalUpdate (p : ProgressServiceBackend) : ProgressServiceBackend :=
  if p.need_hle_lock then
    { p with event := p.event ++ [⟨true, p.impl⟩] }
  else
    { p with event := p.event ++ [⟨false, p.impl⟩] }

/-- `ProgressServiceBackend::SetTotalSize`. -/
def SetTotalSize (p : ProgressServiceBackend) (size : Nat) : ProgressServiceBackend :=
  SignalUpdate { p with impl := { p.impl with total_bytes := size } }

/-- `ProgressServiceBackend::StartConnecting`. -/
def StartConnecting (p : ProgressServiceBackend) : ProgressServiceBackend :=
  SignalUpdate { p with impl := { p.impl with status := .Connecting } }

/-- `ProgressServiceBackend::StartProcessingDataList`. -/
def StartProcessingDataList (p : ProgressServiceBackend) : ProgressServiceBackend :=
  SignalUpdate { p with impl := { p.impl with status := .ProcessingDataList } }

/-- `ProgressServiceBackend::StartDownloadingFile`. -/
def StartDownloadingFile (p : ProgressServiceBackend) (dir_name file_name : Bytes)
    (file_size : Nat) : ProgressServiceBackend :=
  SignalUpdate { p with impl := { p.impl with
    status := .Downloading
    current_downloaded_bytes := 0
    current_total_bytes := file_size
    current_directory := memcpy p.impl.current_directory dir_name (min dir_name.length 0x31)
    current_file := memcpy p.impl.current_file file_name (min file_name.length 0x31) } }

/-- `ProgressServiceBackend::UpdateFileProgress`. -/
def UpdateFileProgress (p : ProgressServiceBackend) (downloaded : Nat) :
    ProgressServiceBackend :=
  SignalUpdate { p with impl := { p.impl with current_downloaded_bytes := downloaded } }

/-- `ProgressServiceBackend::FinishDownloadingFile`. -/
def FinishDownloadingFile (p : ProgressServiceBackend) : ProgressServiceBackend :=
  SignalUpdate { p with impl := { p.impl with
    total_downloaded_bytes :=
      (p.impl.total_downloaded_bytes + p.impl.current_total_bytes) % U64 } }

/-- `ProgressServiceBackend::CommitDirectory`. -/
def CommitDirectory (p : ProgressServiceBackend) (dir_name : Bytes) :
    ProgressServiceBackend :=
  SignalUpdate { p with impl := { p.impl with
    status := .Committing
    current_file := fill0 p.impl.current_file
    current_downloaded_bytes := 0
    current_total_bytes := 0
    current_directory := memcpy p.impl.current_directory dir_name (min dir_name.length 0x31) } }

/-- `ProgressServiceBackend::FinishDownload`. -/
def FinishDownload (p : ProgressServiceBackend) (result : ResultCode) :
    ProgressServiceBackend :=
  SignalUpdate { p with impl := { p.impl with
    total_downloaded_bytes := p.impl.total_bytes
    status := .Done
    result := result } }

end ProgressServiceBackend

/-! ## The virtual-storage collaborator (`core/file_sys/vfs.h`) -/

/-- Modelled from the spec: a file node of the virtual-storage collaborator
(`FileSys::VfsFile`, declared in `core/file_sys/vfs.h`). `resizable` and `io_limit`
stand for the backing store: `Resize` fails on a file that is not resizable, and no
byte at or beyond offset `io_limit` is transferred by `Read` or `Write`. -/
structure VfsFile where
  name : Bytes
  data : Bytes
  readable : Bool
  writable : Bool
  resizable : Bool
  io_limit : Nat
  deriving DecidableEq, Repr

namespace VfsFile

/-- Modelled from the spec (`vfs.h`): `VfsFile::GetName`. -/
def GetName (f : VfsFile) : Bytes := f.name

/-- Modelled from the spec (`vfs.h`): `VfsFile::GetSize`. -/
def GetSize (f : VfsFile) : Nat := f.data.length

/-- Modelled from the spec (`vfs.h`): `VfsFile::IsReadable`. -/
def IsReadable (f : VfsFile) : Bool := f.readable

/-- Modelled from the spec (`vfs.h`): `VfsFile::IsWritable`. -/
def IsWritable (f : VfsFile) : Bool := f.writable

/-- Modelled from the spec (`vfs.h`): `VfsFile::Resize`: the success flag and the file
afterwards; a file that grows is filled with zero bytes. -/
def Resize (f : VfsFile) (new_size : Nat) : Bool × VfsFile :=
  if f.writable && f.resizable then
    (true, { f with data := (f.data ++ List.replicate (new_size - f.data.length) 0).take new_size })
  else
    (false, f)

/-- Modelled from the spec (`vfs.h`): `VfsFile::Read(data, length, offset)`: the bytes
transferred; their number is the return value of the C++ call. -/
def Read (f : VfsFile) (length offset : Nat) : Bytes :=
  if f.readable then ((f.data.take f.io_limit).drop offset).take length else []

/-- Modelled from the spec (`vfs.h`): `VfsFile::ReadBytes(size, offset)`: a vector cut to
the number of bytes read. -/
def ReadBytes (f : VfsFile) (size offset : Nat) : Bytes :=
  f.Read size offset

/-- Modelled from the spec (`vfs.h`): `VfsFile::ReadAllBytes`. -/
def ReadAllBytes (f : VfsFile) : Bytes :=
  f.ReadBytes f.GetSize 0

/-- Modelled from the spec (`vfs.h`): `VfsFile::Write(data, length, offset)`: the file
afterwards and the number of bytes written. A gap between the old end and `offset` is filled
with zero bytes. -/
def Write (f : VfsFile) (bytes : Bytes) (offset : Nat) : VfsFile × Nat :=
  if f.writable then
    let w := bytes.take (f.io_limit - offset)
    if w.length = 0 then (f, 0)
    else
      ({ f with data :=
          (f.data ++ List.replicate (offset - f.data.length) 0).take offset ++ w ++
            f.data.drop (offset + w.length) }, w.length)
  else
    (f, 0)

/-- Modelled from the spec (`vfs.h`): The file `CreateFile` makes when the name is new:
empty, readable, writable, resizable, with no transfer limit below `2 ^ 64`. -/
def fresh (name : Bytes) : VfsFile :=
  { name := name, data := [], readable := true, writable := true, resizable := true,
    io_limit := U64 }

end VfsFile

/-- Modelled from the spec: a directory node of the virtual-storage collaborator
(`FileSys::VfsDirectory`, declared in `core/file_sys/vfs.h`): a name, the files
directly under it, its subdirectories, and the two access flags. -/
inductive VfsDir where
  | mk (name : Bytes) (files : List VfsFile) (subdirs : List VfsDir)
      (readable writable : Bool)
  deriving Repr

namespace VfsDir

/-- Modelled from the spec (`vfs.h`): `VfsDirectory::GetName`. -/
def GetName : VfsDir → Bytes
  | .mk name _ _ _ _ => name

/-- Modelled from the spec (`vfs.h`): `VfsDirectory::GetFiles`. -/
def GetFiles : VfsDir → List VfsFile
  | .mk _ files _ _ _ => files

/-- Modelled from the spec (`vfs.h`): `VfsDirectory::GetSubdirectories`. -/
def GetSubdirectories : VfsDir → List VfsDir
  | .mk _ _ subdirs _ _ => subdirs

/-- Modelled from the spec (`vfs.h`): `VfsDirectory::IsReadable`. -/
def IsReadable : VfsDir → Bool
  | .mk _ _ _ readable _ => readable

/-- Modelled from the spec (`vfs.h`): `VfsDirectory::IsWritable`. -/
def IsWritable : VfsDir → Bool
  | .mk _ _ _ _ writable => writable

/-- Modelled from the spec (`vfs.h`): The directory with another list of files. -/
def setFiles : VfsDir → List VfsFile → VfsDir
  | .mk name _ subdirs r w, files => .mk name files subdirs r w

/-- Modelled from the spec (`vfs.h`): The directory with another list of subdirectories. -/
def setSubdirs : VfsDir → List VfsDir → VfsDir
  | .mk name files _ r w, subdirs => .mk name files subdirs r w

/-- Modelled from the spec (`vfs.h`): The empty directory `CreateSubdirectory` makes when
the name is new. -/
def fresh (name : Bytes) : VfsDir := .mk name [] [] true true

mutual
/-- Modelled from the spec (`vfs.h`): Sum of the sizes of all files below the directory. -/
def totalSize : VfsDir → Nat
  | .mk _ files subdirs _ _ => (files.map VfsFile.GetSize).sum + totalSizes subdirs
/-- Modelled from the spec (`vfs.h`): Sum of `totalSize` over a list of directories. -/
def totalSizes : List VfsDir → Nat
  | [] => 0
  | d :: ds => d.totalSize + totalSizes ds
end

/-- Modelled from the spec (`vfs.h`): `VfsDirectory::GetSize`, a `std::size_t`. -/
def GetSize (d : VfsDir) : Nat := d.totalSize % U64

/-- Modelled from the spec (`vfs.h`): `VfsDirectory::GetFile`: the first file of that name,
or null. -/
def GetFile (d : VfsDir) (name : Bytes) : Option VfsFile :=
  d.GetFiles.find? (fun f => f.name == name)

/-- Modelled from the spec (`vfs.h`): `VfsDirectory::GetSubdirectory`: the first
subdirectory of that name, or null. -/
def GetSubdirectory (d : VfsDir) (name : Bytes) : Option VfsDir :=
  d.GetSubdirectories.find? (fun s => s.GetName == name)

/-- Modelled from the spec (`vfs.h`): Replaces the first file that has the name of `f` by `f`. -/
def putFileIn (f : VfsFile) : List VfsFile → List VfsFile
  | [] => []
  | g :: gs => if g.name == f.name then f :: gs else g :: putFileIn f gs

/-- Modelled from the spec (`vfs.h`): Replaces the first directory that has the name of `s`
by `s`. -/
def putDirIn (s : VfsDir) : List VfsDir → List VfsDir
  | [] => []
  | g :: gs => if g.GetName == s.GetName then s :: gs else g :: putDirIn s gs

/-- Modelled from the spec (`vfs.h`): A file handle obtained from the directory refers to
the file inside it: what was done through the handle is stored back under the file's name. A
null handle stores nothing. -/
def PutFile (d : VfsDir) : Option VfsFile → VfsDir
  | none => d
  | some f => d.setFiles (putFileIn f d.GetFiles)

/-- Modelled from the spec (`vfs.h`): A subdirectory handle obtained from the directory
refers to the subdirectory inside it. A null handle stores nothing. -/
def PutSubdirectory (d : VfsDir) : Option VfsDir → VfsDir
  | none => d
  | some s => d.setSubdirs (putDirIn s d.GetSubdirectories)

/-- Modelled from the spec (`vfs.h`): `VfsDirectory::CreateFile`: the directory afterwards
and the handle. An existing file of that name is opened; otherwise a writable directory gets
a new empty file at the end of its list and an unwritable one returns null. -/
def CreateFile (d : VfsDir) (name : Bytes) : VfsDir × Option VfsFile :=
  match d.GetFile name with
  | some f => (d, some f)
  | none =>
    if d.IsWritable then (d.setFiles (d.GetFiles ++ [VfsFile.fresh name]), some (VfsFile.fresh name))
    else (d, none)

/-- Modelled from the spec (`vfs.h`): `VfsDirectory::CreateSubdirectory`: as `CreateFile`,
for subdirectories. -/
def CreateSubdirectory (d : VfsDir) (name : Bytes) : VfsDir × Option VfsDir :=
  match d.GetSubdirectory name with
  | some s => (d, some s)
  | none =>
    if d.IsWritable then
      (d.setSubdirs (d.GetSubdirectories ++ [VfsDir.fresh name]), some (VfsDir.fresh name))
    else (d, none)

/-- Modelled from the spec (`vfs.h`): `VfsDirectory::DeleteFile`: the success flag and the
directory afterwards. The storage refuses the deletion, and changes nothing, when the
directory has no file of that name, when the directory is not writable, and when the file
is write-protected. -/
def DeleteFile (d : VfsDir) (name : Bytes) : Bool × VfsDir :=
  match d.GetFile name with
  | none => (false, d)
  | some f =>
    if d.IsWritable && f.IsWritable then
      (true, d.setFiles (d.GetFiles.eraseP (fun f => f.name == name)))
    else (false, d)

/-- Modelled from the spec (`vfs.h`): `VfsDirectory::DeleteSubdirectoryRecursive`: the
success flag and the directory afterwards; the subdirectory goes with everything below it.
The storage refuses the deletion, and changes nothing, when the directory has no
subdirectory of that name, when the directory is not writable, and when the subdirectory
is not writable, so that its entries cannot be removed. -/
def DeleteSubdirectoryRecursive (d : VfsDir) (name : Bytes) : Bool × VfsDir :=
  match d.GetSubdirectory name with
  | none => (false, d)
  | some s =>
    if d.IsWritable && s.IsWritable then
      (true, d.setSubdirs (d.GetSubdirectories.eraseP (fun s => s.GetName == name)))
    else (false, d)

end VfsDir

/-! ## Tree merge (`boxcat.cpp`, anonymous namespace) -/

/-- `VfsCreateFileWrap`. -/
def VfsCreateFileWrap (dir : VfsDir) (name : Bytes) : VfsDir × Option VfsFile :=
  dir.CreateFile name

/-- `VfsDeleteFileWrap`. -/
def VfsDeleteFileWrap (dir : VfsDir) (name : Bytes) : Bool × VfsDir :=
  dir.DeleteFile name

/-- The block loop of `VfsRawCopyProgress`,
`for (std::size_t i = 0; i < src->GetSize(); i += block_size)`, entered at index `i`
with at most `fuel` iterations left. `none`: the iterations are used up. The result
is the return flag of the enclosing function, the destination file and the tracker. -/
def VfsRawCopyProgress.loop (src : VfsFile) (block_size : Nat) :
    Nat → Nat → VfsFile → ProgressServiceBackend →
      Option (Bool × VfsFile × ProgressServiceBackend)
  | 0, _, _, _ => none
  | fuel + 1, i, dest, progress =>
    if i < src.GetSize then
      let read := min block_size (src.GetSize - i)
      let temp := src.Read read i
      if temp.length ≠ read then
        some (false, dest, progress)
      else
        let w := dest.Write temp i
        if w.2 ≠ read then
          some (false, w.1, progress)
        else
          VfsRawCopyProgress.loop src block_size fuel ((i + block_size) % U64) w.1
            (progress.UpdateFileProgress i)
    else
      some (true, dest, progress)

/-- `VfsRawCopyProgress`: the return flag, the destination file and the tracker
afterwards. The loop index takes `2 ^ 64` values and what one iteration does is fixed
by the index, so a run still in the loop after `2 ^ 64` iterations never leaves it:
`none` stands for that run. -/
def VfsRawCopyProgress (src dest : Option VfsFile) (dir_name : Bytes)
    (progress : ProgressServiceBackend) (block_size : Nat := 0x1000) :
    Option (Bool × Option VfsFile × ProgressServiceBackend) :=
  match src, dest with
  | some s, some d =>
    if !s.IsReadable || !d.IsWritable then
      some (false, some d, progress)
    else
      let r := d.Resize s.GetSize
      if !r.1 then
        some (false, some r.2, progress)
      else
        match VfsRawCopyProgress.loop s block_size U64 0 r.2
            (progress.StartDownloadingFile dir_name s.GetName s.GetSize) with
        | none => none
        | some (false, d2, p2) => some (false, some d2, p2)
        | some (true, d2, p2) => some (true, some d2, p2.FinishDownloadingFile)
  | _, _ => some (false, dest, progress)

/-- The file loop of `VfsRawCopyDProgressSingle`,
`for (const auto& file : src->GetFiles())`, over the files still to copy. -/
def VfsRawCopyDProgressSingle.loop (src_name : Bytes) (block_size : Nat) :
    List VfsFile → VfsDir → ProgressServiceBackend →
      Option (Bool × VfsDir × ProgressServiceBackend)
  | [], dest, progress => some (true, dest, progress)
  | file :: rest, dest, progress =>
    let c := VfsCreateFileWrap dest file.GetName
    match VfsRawCopyProgress (some file) c.2 src_name progress block_size with
    | none => none
    | some (false, out_file, p1) => some (false, c.1.PutFile out_file, p1)
    | some (true, out_file, p1) =>
      VfsRawCopyDProgressSingle.loop src_name block_size rest (c.1.PutFile out_file) p1

/-- `VfsRawCopyDProgressSingle`: the return flag, the destination directory and the
tracker afterwards. -/
def VfsRawCopyDProgressSingle (src dest : Option VfsDir)
    (progress : ProgressServiceBackend) (block_size : Nat := 0x1000) :
    Option (Bool × Option VfsDir × ProgressServiceBackend) :=
  match src, dest with
  | some s, some d =>
    if !s.IsReadable || !d.IsWritable then
      some (false, some d, progress)
    else
      match VfsRawCopyDProgressSingle.loop s.GetName block_size s.GetFiles d progress with
      | none => none
      | some (false, d1, p1) => some (false, some d1, p1)
      | some (true, d1, p1) => some (true, some d1, p1.CommitDirectory s.GetName)
  | _, _ => some (false, dest, progress)

/-- The subdirectory loop of `VfsRawCopyDProgress`,
`for (const auto& dir : src->GetSubdirectories())`. -/
def VfsRawCopyDProgress.loop (block_size : Nat) :
    List VfsDir → VfsDir → ProgressServiceBackend →
      Option (Bool × VfsDir × ProgressServiceBackend)
  | [], dest, progress => some (true, dest, progress)
  | dir :: rest, dest, progress =>
    let c := dest.CreateSubdirectory dir.GetName
    match VfsRawCopyDProgressSingle (some dir) c.2 progress block_size with
    | none => none
    | some (false, out, p1) => some (false, c.1.PutSubdirectory out, p1)
    | some (true, out, p1) =>
      VfsRawCopyDProgress.loop block_size rest (c.1.PutSubdirectory out) p1

/-- `VfsRawCopyDProgress`: the return flag, the destination root and the tracker
afterwards. -/
def VfsRawCopyDProgress (src dest : Option VfsDir)
    (progress : ProgressServiceBackend) (block_size : Nat := 0x1000) :
    Option (Bool × Option VfsDir × ProgressServiceBackend) :=
  match src, dest with
  | some s, some d =>
    if !s.IsReadable || !d.IsWritable then
      some (false, some d, progress)
    else
      match VfsRawCopyDProgress.loop block_size s.GetSubdirectories d progress with
      | none => none
      | some (ok, d1, p1) => some (ok, some d1, p1)
  | _, _ => some (false, dest, progress)

/-! ## The network client and the synchronization run (`boxcat.cpp`) -/

/-- `enum class DownloadResult`. -/
inductive DownloadResult where
  | Success
  | NoResponse
  | GeneralWebError
  | NoMatchTitleId
  | NoMatchBuildId
  | InvalidContentType
  | GeneralFSError
  | BadClientVersion
  deriving DecidableEq, Repr

/-- `enum class ResponseStatus`: the HTTP status code of each member. -/
inductive ResponseStatus where
  | Ok
  | BadClientVersion
  | NoUpdate
  | NoMatchTitleId
  | NoMatchBuildId
  deriving DecidableEq, Repr

/-- The value of `static_cast<int>(status)`. -/
def ResponseStatus.toInt : ResponseStatus → Int
  | .Ok => 200
  | .BadClientVersion => 301
  | .NoUpdate => 304
  | .NoMatchTitleId => 404
  | .NoMatchBuildId => 406

/-- The characters of a string literal as bytes. -/
def bytesOf (s : String) : Bytes := s.toList.map Char.toNat

/-- One hexadecimal digit of a value below 16. -/
def hexDigit (upper : Bool) (n : Nat) : Nat :=
  if n < 10 then 48 + n else if upper then 55 + n else 87 + n

/-- `Common::HexToString(bytes, upper)`: two digits for each byte. -/
def HexToString (bytes : Bytes) (upper : Bool) : Bytes :=
  bytes.flatMap (fun b => [hexDigit upper (b / 16 % 16), hexDigit upper (b % 16)])

/-- The text `fmt::format` gives for the pattern `:016X`: sixteen upper-case
hexadecimal digits of a `u64`. -/
def hex16 (n : Nat) : Bytes :=
  (List.range 16).reverse.map (fun k => hexDigit true (n / 16 ^ k % 16))

/-- `BOXCAT_API_VERSION`. -/
def BOXCAT_API_VERSION : Bytes := bytesOf "1"

/-- `BOXCAT_CLIENT_TYPE`. -/
def BOXCAT_CLIENT_TYPE : Bytes := bytesOf "yuzu"

/-- `TIMEOUT_SECONDS`. -/
def TIMEOUT_SECONDS : Nat := 30

/-- `VFS_COPY_BLOCK_SIZE`. -/
def VFS_COPY_BLOCK_SIZE : Nat := 2 ^ 24

/-- `fmt::format(BOXCAT_PATHNAME_DATA, title_id)`. -/
def BOXCAT_PATHNAME_DATA (title_id : Nat) : Bytes :=
  bytesOf "/boxcat/titles/" ++ hex16 title_id ++ bytesOf "/data"

/-- `fmt::format(BOXCAT_PATHNAME_LAUNCHPARAM, title_id)`. -/
def BOXCAT_PATHNAME_LAUNCHPARAM (title_id : Nat) : Bytes :=
  bytesOf "/boxcat/titles/" ++ hex16 title_id ++ bytesOf "/launchparam"

/-- The struct `httplib::Response`, as far as the client reads it. -/
structure HttpResponse where
  status : Int
  headers : List (Bytes × Bytes)
  body : Bytes
  deriving DecidableEq, Repr

/-- Modelled from the spec: one path of the host file system as `FileUtil` and
`FileUtil::IOFile` see it (`common/file_util.h`). `content` is `none` when no file
is there; opening for reading needs an existing readable file; opening for writing
needs `writable` and leaves an empty file; `quota` bounds the size the file may
take. -/
structure LocalFile where
  content : Option Bytes
  readable : Bool
  writable : Bool
  quota : Nat
  deriving DecidableEq, Repr

namespace LocalFile

/-- Modelled from the spec (`file_util.h`): `FileUtil::Exists(path)`. -/
def Exists (f : LocalFile) : Bool := f.content.isSome

/-- Modelled from the spec (`file_util.h`): `IOFile{path, "rb"}.IsOpen()`. -/
def IsOpenRead (f : LocalFile) : Bool := f.content.isSome && f.readable

/-- Modelled from the spec (`file_util.h`): `IOFile::GetSize` of the file opened for reading
(0 when it is not open). -/
def GetSize (f : LocalFile) : Nat :=
  if f.IsOpenRead then (f.content.getD []).length else 0

/-- Modelled from the spec (`file_util.h`): The bytes `IOFile::ReadBytes` delivers from the
file opened for reading. -/
def ReadAll (f : LocalFile) : Bytes :=
  if f.IsOpenRead then f.content.getD [] else []

/-- Modelled from the spec (`file_util.h`): `FileUtil::Delete(path)`. -/
def Delete (f : LocalFile) : LocalFile := { f with content := none }

/-- Modelled from the spec (`file_util.h`): `IOFile{path, "wb"}`: whether the file is open,
and the path afterwards. -/
def OpenWrite (f : LocalFile) : Bool × LocalFile :=
  if f.writable then (true, { f with content := some [] }) else (false, f)

/-- Modelled from the spec (`file_util.h`): `IOFile::Resize` on the file opened for writing. -/
def Resize (f : LocalFile) (size : Nat) : Bool × LocalFile :=
  if size ≤ f.quota then
    let old := f.content.getD []
    (true, { f with content := some ((old ++ List.replicate (size - old.length) 0).take size) })
  else (false, f)

/-- Modelled from the spec (`file_util.h`): `IOFile::WriteBytes` at position 0 of the file
opened for writing: the number of bytes written and the path afterwards. -/
def WriteBytes (f : LocalFile) (bytes : Bytes) : Nat × LocalFile :=
  let w := bytes.take f.quota
  (w.length, { f with content := some (w ++ (f.content.getD []).drop w.length) })

end LocalFile

/-- `TitleIDVersion`. -/
structure TitleIDVersion where
  title_id : Nat
  build_id : Nat
  deriving DecidableEq, Repr

/-- Lower-case form of an ASCII letter; other bytes stay. -/
def asciiLower (c : Nat) : Nat := if 65 ≤ c ∧ c ≤ 90 then c + 32 else c

/-- `headers.find(key)` on `httplib::Headers`, whose keys compare without regard
to case: the value of the first header with that key. -/
def findHeader (headers : List (Bytes × Bytes)) (key : Bytes) : Option Bytes :=
  (headers.find? (fun h => h.1.map asciiLower == key.map asciiLower)).map Prod.snd

/-- `haystack.find(needle) != std::string::npos`. -/
def containsSubstr (haystack needle : Bytes) : Bool :=
  haystack.tails.any (fun t => needle.isPrefixOf t)

/-- What one synchronization run can reach on the host: the settings switch, the
server as `client->Get` answers (no answer is `none`), the digest and archive
collaborators, the cached archive at `GetZIPFilePath(title_id)`, the directory
`dir_getter(title_id)` resolves to, and the errors shown to the user so far. -/
structure Host where
  bcat_boxcat_local : Bool
  Get : Bytes → List (Bytes × Bytes) → Option HttpResponse
  sha256 : Bytes → Bytes
  ExtractZIP : Bytes → Option VfsDir
  zip : LocalFile
  bcat_dir : Option VfsDir
  shown : List DownloadResult

/-- The request headers `DownloadInternal` builds: the three client headers and, when
the file at `path` exists and opens for reading, the digest of its bytes as
`If-None-Match`. -/
def DownloadInternal.headers (host : Host) (file : LocalFile) (build_id : Nat) :
    List (Bytes × Bytes) :=
  let headers : List (Bytes × Bytes) :=
    [(bytesOf "Boxcat-Client-Version", BOXCAT_API_VERSION),
     (bytesOf "Boxcat-Client-Type", BOXCAT_CLIENT_TYPE),
     (bytesOf "Boxcat-Build-Id", hex16 build_id)]
  if file.Exists && file.IsOpenRead then
    headers ++ [(bytesOf "If-None-Match", HexToString (host.sha256 file.ReadAll) false)]
  else headers

/-- `Boxcat::Client::DownloadInternal` for a client whose `path` holds `file`: the
outcome and the file at `path` afterwards. -/
def DownloadInternal (host : Host) (file : LocalFile) (build_id : Nat)
    (resolved_path : Bytes) (content_type_name : Bytes) : DownloadResult × LocalFile :=
  match host.Get resolved_path (DownloadInternal.headers host file build_id) with
  | none => (.NoResponse, file)
  | some response =>
    if response.status = ResponseStatus.NoUpdate.toInt then (.Success, file)
    else if response.status = ResponseStatus.BadClientVersion.toInt then (.BadClientVersion, file)
    else if response.status = ResponseStatus.NoMatchTitleId.toInt then (.NoMatchTitleId, file)
    else if response.status = ResponseStatus.NoMatchBuildId.toInt then (.NoMatchBuildId, file)
    else if response.status ≠ ResponseStatus.Ok.toInt then (.GeneralWebError, file)
    else
      match findHeader response.headers (bytesOf "content-type") with
      | none => (.InvalidContentType, file)
      | some content_type =>
        if !containsSubstr content_type content_type_name then (.InvalidContentType, file)
        else
          let o := file.OpenWrite
          if !o.1 then (.GeneralFSError, o.2)
          else
            let r := o.2.Resize response.body.length
            if !r.1 then (.GeneralFSError, r.2)
            else
              let w := r.2.WriteBytes response.body
              if w.1 ≠ response.body.length then (.GeneralFSError, w.2)
              else (.Success, w.2)

/-- `Boxcat::Client::DownloadDataZip`. -/
def DownloadDataZip (host : Host) (title : TitleIDVersion) : DownloadResult × LocalFile :=
  DownloadInternal host host.zip title.build_id (BOXCAT_PATHNAME_DATA title.title_id)
    (bytesOf "application/zip")

/-- `HandleDownloadDisplayResult`: the outcomes in the list return at once, the
others are shown through `frontend.error->ShowCustomErrorText`. -/
def HandleDownloadDisplayResult (host : Host) (res : DownloadResult) : Host :=
  if res = .Success || res = .NoResponse || res = .GeneralWebError || res = .GeneralFSError ||
      res = .NoMatchTitleId || res = .InvalidContentType then
    host
  else
    { host with shown := host.shown ++ [res] }

/-- How a run of a procedure ends: it returns in a state, it dereferences a null
pointer in a state, or it never returns. -/
inductive Run (σ : Type) where
  | returned (s : σ)
  | null_deref (s : σ)
  | diverged

/-- The state a run ends in, when it ends in one. -/
def Run.state {σ : Type} : Run σ → Option σ
  | .returned s => some s
  | .null_deref s => some s
  | .diverged => none

/-- The loop `for (const auto& filename : filenames) VfsDeleteFileWrap(target_sub, filename)`
of `SynchronizeInternal`. -/
def deleteFiles (target_sub : VfsDir) (filenames : List Bytes) : VfsDir :=
  filenames.foldl (fun d filename => (VfsDeleteFileWrap d filename).2) target_sub

/-- `SynchronizeInternal`: the host and the tracker when the run ends. -/
def SynchronizeInternal (host : Host) (title : TitleIDVersion)
    (progress : ProgressServiceBackend) (dir_name : Option Bytes := none) :
    Run (Host × ProgressServiceBackend) :=
  let progress := progress.SetNeedHLELock true
  if host.bcat_boxcat_local then
    let progress :=
      match host.bcat_dir with
      | some dir => progress.SetTotalSize dir.GetSize
      | none => progress
    .returned (host, progress.FinishDownload .RESULT_SUCCESS)
  else
    let progress := progress.StartConnecting
    let dl := DownloadDataZip host title
    let res := dl.1
    let host := { host with zip := dl.2 }
    if res ≠ .Success then
      let host :=
        if res = .NoMatchBuildId || res = .NoMatchTitleId then
          { host with zip := host.zip.Delete }
        else host
      let host := HandleDownloadDisplayResult host res
      .returned (host, progress.FinishDownload .ERROR_GENERAL_BCAT_FAILURE)
    else
      let progress := progress.StartProcessingDataList
      let size := host.zip.GetSize
      let bytes := host.zip.ReadAll
      if !host.zip.IsOpenRead || size = 0 || bytes.length ≠ size then
        .returned (host, progress.FinishDownload .ERROR_GENERAL_BCAT_FAILURE)
      else
        match host.ExtractZIP bytes with
        | none => .returned (host, progress.FinishDownload .ERROR_GENERAL_BCAT_FAILURE)
        | some extracted =>
          match dir_name with
          | none =>
            let progress := progress.SetTotalSize extracted.GetSize
            match host.bcat_dir with
            | none => .returned (host, progress.FinishDownload .ERROR_GENERAL_BCAT_FAILURE)
            | some target_dir =>
              match VfsRawCopyDProgress (some extracted) (some target_dir) progress with
              | none => .diverged
              | some (false, t1, p1) =>
                .returned ({ host with bcat_dir := t1 },
                  p1.FinishDownload .ERROR_GENERAL_BCAT_FAILURE)
              | some (true, t1, p1) =>
                .returned ({ host with bcat_dir := t1 }, p1.FinishDownload .RESULT_SUCCESS)
          | some name =>
            match host.bcat_dir with
            | none => .returned (host, progress.FinishDownload .ERROR_GENERAL_BCAT_FAILURE)
            | some target_dir =>
              let target_sub := target_dir.GetSubdirectory name
              let source_sub := extracted.GetSubdirectory name
              match source_sub with
              | none => .null_deref (host, progress)
              | some ssub =>
                let progress := progress.SetTotalSize ssub.GetSize
                match target_sub with
                | none => .null_deref (host, progress)
                | some tsub =>
                  let filenames := tsub.GetFiles.map VfsFile.GetName
                  let tsub := deleteFiles tsub filenames
                  match VfsRawCopyDProgressSingle (some ssub) (some tsub) progress with
                  | none => .diverged
                  | some (false, t1, p1) =>
                    .returned ({ host with bcat_dir := some (target_dir.PutSubdirectory t1) },
                      p1.FinishDownload .ERROR_GENERAL_BCAT_FAILURE)
                  | some (true, t1, p1) =>
                    .returned ({ host with bcat_dir := some (target_dir.PutSubdirectory t1) },
                      p1.FinishDownload .RESULT_SUCCESS)

/-! ## The cache service (`module.cpp`) -/

/-- One `IPC::ResponseBuilder`: the result code pushed first and the values pushed
after it. -/
structure Response where
  result : ResultCode
  values : List Nat
  deriving DecidableEq, Repr

/-- The part of `Kernel::HLERequestContext` a handler uses besides its raw
arguments: the size of the caller's write buffer, the caller's read buffer, the
buffers written with `WriteBuffer` and the responses built, each oldest first. The
response the caller receives is the last one built. -/
structure HLERequestContext where
  write_buffer_size : Nat
  read_buffer : Bytes
  written : List Bytes
  responses : List Response
  deriving DecidableEq, Repr

namespace HLERequestContext

/-- `IPC::ResponseBuilder rb{ctx, n}; rb.Push(result); rb.Push(values)...`. -/
def respond (ctx : HLERequestContext) (result : ResultCode) (values : List Nat := []) :
    HLERequestContext :=
  { ctx with responses := ctx.responses ++ [⟨result, values⟩] }

/-- `ctx.WriteBuffer(buffer)`. -/
def WriteBuffer (ctx : HLERequestContext) (buffer : Bytes) : HLERequestContext :=
  { ctx with written := ctx.written ++ [buffer] }

/-- `ctx.GetWriteBufferSize()`. -/
def GetWriteBufferSize (ctx : HLERequestContext) : Nat := ctx.write_buffer_size

end HLERequestContext

/-- How a request handler ends: it returns, or it dereferences a null pointer; both
with the session state and the context reached. -/
inductive Handled (σ : Type) where
  | returned (state : σ) (ctx : HLERequestContext)
  | null_deref (state : σ) (ctx : HLERequestContext)
  deriving DecidableEq, Repr

/-- `std::isalnum` on an unsigned character, in the default "C" locale. -/
def isalnum (c : Nat) : Bool :=
  (48 ≤ c && c ≤ 57) || (65 ≤ c && c ≤ 90) || (97 ≤ c && c ≤ 122)

/-- Modelled from the spec: `Common::StringFromFixedZeroTerminatedBuffer`
(`common/string_util.cpp`): the characters of the buffer before its first null. -/
def StringFromFixedZeroTerminatedBuffer (buffer : Bytes) (max_len : Nat) : Bytes :=
  (buffer.take max_len).takeWhile (fun c => c != 0)

/-- `VerifyNameValidInternal`: the return flag and the context afterwards. `name` is
the `std::array<char, 0x20>`. -/
def VerifyNameValidInternal (ctx : HLERequestContext) (name : Bytes) (match_char : Nat) :
    Bool × HLERequestContext :=
  let null_chars := name.count 0
  let bad_chars := name.countP
    (fun c => !isalnum c && c != 95 && c != match_char && c != 0)
  if null_chars = 0x20 || null_chars = 0 || bad_chars ≠ 0 || name.getD 0x1F 0 ≠ 0 then
    (false, ctx.respond .ERROR_INVALID_ARGUMENT)
  else
    (true, ctx)

/-- `VerifyNameValidDir`: the extra character is the hyphen. -/
def VerifyNameValidDir (ctx : HLERequestContext) (name : Bytes) : Bool × HLERequestContext :=
  VerifyNameValidInternal ctx name 45

/-- `VerifyNameValidFile`: the extra character is the period. -/
def VerifyNameValidFile (ctx : HLERequestContext) (name : Bytes) : Bool × HLERequestContext :=
  VerifyNameValidInternal ctx name 46

/-- `DigestFile` of `module.cpp`, over the digest collaborator `md5`
(`mbedtls_md5`). -/
def DigestFile (md5 : Bytes → Bytes) (file : VfsFile) : Bytes :=
  md5 file.ReadAllBytes

/-- The members of `IDeliveryCacheFileService`. -/
structure IDeliveryCacheFileService where
  root : Option VfsDir
  current_file : Option VfsFile

namespace IDeliveryCacheFileService

/-- `IDeliveryCacheFileService::Open`. -/
def Open (s : IDeliveryCacheFileService) (ctx : HLERequestContext)
    (dir_name_raw file_name_raw : Bytes) : Handled IDeliveryCacheFileService :=
  let dir_name := StringFromFixedZeroTerminatedBuffer dir_name_raw dir_name_raw.length
  let file_name := StringFromFixedZeroTerminatedBuffer file_name_raw file_name_raw.length
  let vd := VerifyNameValidDir ctx dir_name_raw
  if !vd.1 then .returned s vd.2
  else
    let vf := VerifyNameValidFile vd.2 file_name_raw
    if !vf.1 then .returned s vf.2
    else
      let ctx := vf.2
      if s.current_file.isSome then
        .returned s (ctx.respond .ERROR_ENTITY_ALREADY_OPEN)
      else
        match s.root with
        | none => .null_deref s ctx
        | some root =>
          match root.GetSubdirectory dir_name with
          | none => .returned s (ctx.respond .ERROR_FAILED_OPEN_ENTITY)
          | some dir =>
            let s := { s with current_file := dir.GetFile file_name }
            if s.current_file.isNone then
              .returned s (ctx.respond .ERROR_FAILED_OPEN_ENTITY)
            else
              .returned s (ctx.respond .RESULT_SUCCESS)

/-- The `u64` value `std::min<u64>(current_file->GetSize() - offset, size)` of
`Read`: the byte count asked of the file. -/
def ReadSize (file_size offset size : Nat) : Nat :=
  min ((file_size + U64 - offset) % U64) size

/-- `IDeliveryCacheFileService::Read`. After the error response for a null
`current_file` the handler goes on to `current_file->GetSize()`. -/
def Read (s : IDeliveryCacheFileService) (ctx : HLERequestContext) (offset : Nat) :
    Handled IDeliveryCacheFileService :=
  let size := ctx.GetWriteBufferSize
  let ctx := if s.current_file.isNone then ctx.respond .ERROR_NO_OPEN_ENTITY else ctx
  match s.current_file with
  | none => .null_deref s ctx
  | some current_file =>
    let size := ReadSize current_file.GetSize offset size
    let buffer := current_file.ReadBytes size offset
    let ctx := ctx.WriteBuffer buffer
    .returned s (ctx.respond .RESULT_SUCCESS [buffer.length])

/-- `IDeliveryCacheFileService::GetSize`. After the error response for a null
`current_file` the handler goes on to `current_file->GetSize()`. -/
def GetSize (s : IDeliveryCacheFileService) (ctx : HLERequestContext) :
    Handled IDeliveryCacheFileService :=
  let ctx := if s.current_file.isNone then ctx.respond .ERROR_NO_OPEN_ENTITY else ctx
  match s.current_file with
  | none => .null_deref s ctx
  | some current_file => .returned s (ctx.respond .RESULT_SUCCESS [current_file.GetSize])

/-- `IDeliveryCacheFileService::GetDigest`. After the error response for a null
`current_file` the handler goes on to `DigestFile(current_file)`, which reads
through the pointer. -/
def GetDigest (md5 : Bytes → Bytes) (s : IDeliveryCacheFileService)
    (ctx : HLERequestContext) : Handled IDeliveryCacheFileService :=
  let ctx := if s.current_file.isNone then ctx.respond .ERROR_NO_OPEN_ENTITY else ctx
  match s.current_file with
  | none => .null_deref s ctx
  | some current_file => .returned s (ctx.respond .RESULT_SUCCESS (DigestFile md5 current_file))

end IDeliveryCacheFileService

/-- The number of values of a `u32`. -/
def U32 : Nat := 2 ^ 32

/-- The eight bytes of a `u64` in memory, least significant first. -/
def u64le (n : Nat) : Bytes :=
  (List.range 8).map (fun k => n / 256 ^ k % 256)

/-- `struct DeliveryCacheDirectoryEntry`: a `FileName` of 0x20 bytes, a `u64` and a
`BCATDigest` of 0x10 bytes. -/
structure DeliveryCacheDirectoryEntry where
  name : Bytes
  size : Nat
  digest : Bytes
  deriving DecidableEq, Repr

/-- `sizeof(DeliveryCacheDirectoryEntry)`. -/
def DeliveryCacheDirectoryEntry.sizeof : Nat := 0x38

/-- The bytes of a `DeliveryCacheDirectoryEntry` as `WriteBuffer` copies them. -/
def DeliveryCacheDirectoryEntry.bytes (e : DeliveryCacheDirectoryEntry) : Bytes :=
  e.name ++ u64le e.size ++ e.digest

/-- The members of `IDeliveryCacheDirectoryService`. -/
structure IDeliveryCacheDirectoryService where
  root : Option VfsDir
  current_dir : Option VfsDir

namespace IDeliveryCacheDirectoryService

/-- `IDeliveryCacheDirectoryService::Open`. -/
def Open (s : IDeliveryCacheDirectoryService) (ctx : HLERequestContext)
    (name_raw : Bytes) : Handled IDeliveryCacheDirectoryService :=
  let name := StringFromFixedZeroTerminatedBuffer name_raw name_raw.length
  let v := VerifyNameValidDir ctx name_raw
  if !v.1 then .returned s v.2
  else
    let ctx := v.2
    if s.current_dir.isSome then
      .returned s (ctx.respond .ERROR_ENTITY_ALREADY_OPEN)
    else
      match s.root with
      | none => .null_deref s ctx
      | some root =>
        let s := { s with current_dir := root.GetSubdirectory name }
        if s.current_dir.isNone then
          .returned s (ctx.respond .ERROR_FAILED_OPEN_ENTITY)
        else
          .returned s (ctx.respond .RESULT_SUCCESS)

/-- `IDeliveryCacheDirectoryService::Read`: the lambda that makes the row of one
file. -/
def Read.entry (md5 : Bytes → Bytes) (file : VfsFile) : DeliveryCacheDirectoryEntry :=
  { name := memcpy (List.replicate 0x20 0) file.GetName (min file.GetName.length 0x20)
    size := file.GetSize
    digest := DigestFile md5 file }

/-- `IDeliveryCacheDirectoryService::Read`. -/
def Read (md5 : Bytes → Bytes) (s : IDeliveryCacheDirectoryService)
    (ctx : HLERequestContext) : Handled IDeliveryCacheDirectoryService :=
  let write_size := ctx.GetWriteBufferSize / DeliveryCacheDirectoryEntry.sizeof
  match s.current_dir with
  | none => .returned s (ctx.respond .ERROR_NO_OPEN_ENTITY)
  | some current_dir =>
    let files := current_dir.GetFiles
    let write_size := min write_size files.length
    let entries := (files.take write_size).map (Read.entry md5)
    let ctx := ctx.WriteBuffer (entries.map DeliveryCacheDirectoryEntry.bytes).flatten
    .returned s (ctx.respond .RESULT_SUCCESS
      [write_size * DeliveryCacheDirectoryEntry.sizeof % U32])

/-- `IDeliveryCacheDirectoryService::GetCount`. -/
def GetCount (s : IDeliveryCacheDirectoryService) (ctx : HLERequestContext) :
    Handled IDeliveryCacheDirectoryService :=
  match s.current_dir with
  | none => .returned s (ctx.respond .ERROR_NO_OPEN_ENTITY)
  | some current_dir =>
    let files := current_dir.GetFiles
    .returned s (ctx.respond .RESULT_SUCCESS [files.length % U32])

end IDeliveryCacheDirectoryService

/-- The members of `IDeliveryCacheStorageService`; an element of `entries` is a
`DirectoryName`, 0x20 bytes. -/
structure IDeliveryCacheStorageService where
  root : Option VfsDir
  entries : List Bytes
  next_read_index : Nat

namespace IDeliveryCacheStorageService

/-- The constructor of `IDeliveryCacheStorageService`: the snapshot of the names of
the subdirectories of the root. `none`: the root is null and
`root->GetSubdirectories()` dereferences it. -/
def create (root_ : Option VfsDir) : Option IDeliveryCacheStorageService :=
  match root_ with
  | none => none
  | some root =>
    some { root := some root
           entries := root.GetSubdirectories.map (fun subdir =>
             memcpy (List.replicate 0x20 0) subdir.GetName (min (0x20 - 1) subdir.GetName.length))
           next_read_index := 0 }

/-- `IDeliveryCacheStorageService::EnumerateDeliveryCacheDirectory`. -/
def EnumerateDeliveryCacheDirectory (s : IDeliveryCacheStorageService)
    (ctx : HLERequestContext) : Handled IDeliveryCacheStorageService :=
  let size := ctx.GetWriteBufferSize / 0x20
  let size := min size ((s.entries.length + U64 - s.next_read_index) % U64)
  let ctx := ctx.WriteBuffer ((s.entries.drop s.next_read_index).take size).flatten
  let s := { s with next_read_index := (s.next_read_index + size) % U64 }
  .returned s (ctx.respond .RESULT_SUCCESS [size % U32])

end IDeliveryCacheStorageService

/-! ## The backends: `NullBackend` (`backend.cpp`) and `Boxcat::Clear` (`boxcat.cpp`) -/

namespace NullBackend

/-- `NullBackend::Synchronize`: the return value and the tracker afterwards. -/
def Synchronize (_title : TitleIDVersion) (progress : ProgressServiceBackend) :
    Bool × ProgressServiceBackend :=
  (true, progress.FinishDownload .RESULT_SUCCESS)

/-- `NullBackend::SynchronizeDirectory`: the return value and the tracker afterwards. -/
def SynchronizeDirectory (_title : TitleIDVersion) (_name : Bytes)
    (progress : ProgressServiceBackend) : Bool × ProgressServiceBackend :=
  (true, progress.FinishDownload .RESULT_SUCCESS)

/-- `NullBackend::Clear`. -/
def Clear (_title_id : Nat) : Bool := true

/-- `NullBackend::GetLaunchParameter`: `std::nullopt`. -/
def GetLaunchParameter (_title : TitleIDVersion) : Option Bytes := none

end NullBackend

/-- The second loop of `Boxcat::Clear`,
`for (const auto& subdir : dirnames) if (!dir->DeleteSubdirectoryRecursive(subdir)) return false;`:
the return value and the root afterwards. -/
def Boxcat.Clear.loop : List Bytes → VfsDir → Bool × VfsDir
  | [], dir => (true, dir)
  | subdir :: rest, dir =>
    let r := dir.DeleteSubdirectoryRecursive subdir
    if !r.1 then (false, r.2) else Boxcat.Clear.loop rest r.2

/-- `Boxcat::Clear` on the host of the title: the return value and the host
afterwards. `none`: `dir_getter(title_id)` is null and `dir->GetSubdirectories()`
dereferences it. -/
def Boxcat.Clear (host : Host) : Option (Bool × Host) :=
  if host.bcat_boxcat_local then
    some (true, host)
  else
    match host.bcat_dir with
    | none => none
    | some dir =>
      let dirnames := dir.GetSubdirectories.map VfsDir.GetName
      let r := Boxcat.Clear.loop dirnames dir
      some (r.1, { host with bcat_dir := some r.2 })

/-! ## The request interface `IBcatService` (`module.cpp`) -/

/-- `ctx.ReadBuffer()`. -/
def HLERequestContext.ReadBuffer (ctx : HLERequestContext) : Bytes := ctx.read_buffer

/-- `IBcatService::SyncType`, the index of a tracker in `progress`. -/
inductive SyncType where
  | Normal
  | Directory
  deriving DecidableEq, Repr

/-- A call the service makes on its `Backend&`, with the arguments passed; the
tracker argument is given by its index in `progress`. -/
inductive BackendCall where
  | Synchronize (title : TitleIDVersion) (progress : SyncType)
  | SynchronizeDirectory (title : TitleIDVersion) (name : Bytes) (progress : SyncType)
  | Clear (title_id : Nat)
  | SetPassphrase (title_id : Nat) (passphrase : Bytes)
  deriving DecidableEq, Repr

/-- The `Backend&` member of `IBcatService`, seen from the service: the calls made on
it so far, in order, and the answer it gives to `Clear`. -/
structure IBcatService where
  backend : List BackendCall
  Clear : Nat → Bool

namespace IBcatService

/-- `IBcatService::RequestSyncDeliveryCache`; `title` is
`{Core::CurrentProcess()->GetTitleID(), GetCurrentBuildID()}`. The response carries
the result code and the progress interface. -/
def RequestSyncDeliveryCache (s : IBcatService) (ctx : HLERequestContext)
    (title : TitleIDVersion) : Handled IBcatService :=
  let s := { s with backend := s.backend ++ [.Synchronize title .Normal] }
  .returned s (ctx.respond .RESULT_SUCCESS)

/-- `IBcatService::RequestSyncDeliveryCacheWithDirectoryName`; `name_raw` is the
`DirectoryName` popped from the request. -/
def RequestSyncDeliveryCacheWithDirectoryName (s : IBcatService) (ctx : HLERequestContext)
    (title : TitleIDVersion) (name_raw : Bytes) : Handled IBcatService :=
  let name := StringFromFixedZeroTerminatedBuffer name_raw name_raw.length
  let s := { s with backend := s.backend ++ [.SynchronizeDirectory title name .Directory] }
  .returned s (ctx.respond .RESULT_SUCCESS)

/-- `IBcatService::SetPassphrase`; `title_id` is the `u64` popped from the request and
`passphrase_size` is `sizeof(Passphrase)`, the array type declared in `backend.h`.
There is no `return` after the response for `title_id == 0`. -/
def SetPassphrase (passphrase_size : Nat) (s : IBcatService) (ctx : HLERequestContext)
    (title_id : Nat) : Handled IBcatService :=
  let passphrase_raw := ctx.ReadBuffer
  let ctx := if title_id = 0 then ctx.respond .ERROR_INVALID_ARGUMENT else ctx
  if passphrase_raw.length > 0x40 then
    .returned s (ctx.respond .ERROR_INVALID_ARGUMENT)
  else
    let passphrase := memcpy (List.replicate passphrase_size 0) passphrase_raw
      (min passphrase_size passphrase_raw.length)
    let s := { s with backend := s.backend ++ [.SetPassphrase title_id passphrase] }
    .returned s (ctx.respond .RESULT_SUCCESS)

/-- `IBcatService::ClearDeliveryCacheStorage`. -/
def ClearDeliveryCacheStorage (s : IBcatService) (ctx : HLERequestContext)
    (title_id : Nat) : Handled IBcatService :=
  if title_id = 0 then
    .returned s (ctx.respond .ERROR_INVALID_ARGUMENT)
  else
    let ok := s.Clear title_id
    let s := { s with backend := s.backend ++ [.Clear title_id] }
    if !ok then
      .returned s (ctx.respond .ERROR_FAILED_CLEAR_CACHE)
    else
      .returned s (ctx.respond .RESULT_SUCCESS)

end IBcatService

/-! ## `VirtualBinaryFile` (`common/virtual_file_util.h`, `virtual_file_util.cpp`) -/

/-- The members of `Common::VirtualFileUtil::VirtualBinaryFile`. -/
structure VirtualBinaryFile where
  m_file_storage : Bytes
  m_file_storage_current_position : Nat
  deriving DecidableEq, Repr

namespace VirtualBinaryFile

/-- The constructor `VirtualBinaryFile(std::size_t preallocated_size)`. -/
def create (preallocated_size : Nat) : VirtualBinaryFile :=
  { m_file_storage := List.replicate preallocated_size 0
    m_file_storage_current_position := 0 }

/-- `VirtualBinaryFile::ResetReadWritePosition`. -/
def ResetReadWritePosition (f : VirtualBinaryFile) : VirtualBinaryFile :=
  { f with m_file_storage_current_position := 0 }

/-- `VirtualBinaryFile::Data`: the bytes from the first byte of the storage on. -/
def Data (f : VirtualBinaryFile) : Bytes := f.m_file_storage

/-- `VirtualBinaryFile::Size`. -/
def Size (f : VirtualBinaryFile) : Nat := f.m_file_storage.length

/-- `VirtualBinaryFile::GetCurrentReadWritePosition`. -/
def GetCurrentReadWritePosition (f : VirtualBinaryFile) : Nat :=
  f.m_file_storage_current_position

/-- `VirtualBinaryFile::Resize`; `std::vector::resize` cuts the storage or appends
zero bytes. -/
def Resize (f : VirtualBinaryFile) (size : Nat) : VirtualBinaryFile :=
  let f := { f with m_file_storage :=
    (f.m_file_storage ++ List.replicate (size - f.m_file_storage.length) 0).take size }
  if size < f.m_file_storage_current_position then
    { f with m_file_storage_current_position := size }
  else f

/-- `VirtualBinaryFile::RequestExceedsFileSize`; the sum is a `std::size_t`. -/
def RequestExceedsFileSize (f : VirtualBinaryFile) (length_in_bytes : Nat) : Bool :=
  decide ((f.m_file_storage_current_position + length_in_bytes) % U64 > f.m_file_storage.length)

/-- `VirtualBinaryFile::ReadBytes<T>` with `sizeof_T = sizeof(T)`: the return value, the
bytes copied to `data` and the file afterwards. `none`: the request passed the size
test and `std::copy` reads outside the storage. -/
def ReadBytes (f : VirtualBinaryFile) (sizeof_T length : Nat) :
    Option (Nat × Bytes × VirtualBinaryFile) :=
  let length_in_bytes := sizeof_T * length % U64
  if f.RequestExceedsFileSize length_in_bytes then
    some (U64 - 1, [], f)
  else if f.m_file_storage_current_position + length_in_bytes ≤ f.m_file_storage.length then
    some (length,
      (f.m_file_storage.drop f.m_file_storage_current_position).take length_in_bytes,
      { f with m_file_storage_current_position :=
          (f.m_file_storage_current_position + length_in_bytes) % U64 })
  else
    none

/-- `VirtualBinaryFile::WriteBytes<T>` with `sizeof_T = sizeof(T)`; `data` holds the
bytes of the `length` objects. The return value and the file afterwards. `none`: the
position is beyond the end of the storage and `insert` gets an iterator outside it. -/
def WriteBytes (f : VirtualBinaryFile) (sizeof_T : Nat) (data : Bytes) (length : Nat) :
    Option (Nat × VirtualBinaryFile) :=
  let length_in_bytes := sizeof_T * length % U64
  if f.m_file_storage_current_position ≤ f.m_file_storage.length then
    some (length,
      { m_file_storage :=
          f.m_file_storage.take f.m_file_storage_current_position ++
            data.take length_in_bytes ++
            f.m_file_storage.drop f.m_file_storage_current_position
        m_file_storage_current_position :=
          (f.m_file_storage_current_position + length_in_bytes) % U64 })
  else
    none

/-- `VirtualBinaryFile::ReadArray<T>`. -/
def ReadArray (f : VirtualBinaryFile) (sizeof_T size : Nat) :
    Option (Nat × Bytes × VirtualBinaryFile) :=
  f.ReadBytes sizeof_T size

/-- `VirtualBinaryFile::WriteArray<T>`. -/
def WriteArray (f : VirtualBinaryFile) (sizeof_T : Nat) (data : Bytes) (size : Nat) :
    Option (Nat × VirtualBinaryFile) :=
  f.WriteBytes sizeof_T data size

end VirtualBinaryFile

/-! ## Notions used in the statements -/

/-- A tracker before any call: all counters zero, both name fields 0x31 null bytes,
no signal received. -/
def idleTracker : ProgressServiceBackend :=
  { impl := { status := .Connecting, result := .RESULT_SUCCESS,
              current_directory := List.replicate 0x31 0, current_file := List.replicate 0x31 0,
              current_downloaded_bytes := 0, current_total_bytes := 0,
              total_downloaded_bytes := 0, total_bytes := 0 },
    need_hle_lock := false, event := [] }

/-- The offsets the block loop visits from index `i` on, for a source of `n` bytes
and blocks of `b` bytes, when the index does not wrap. -/
def offsetsFrom (n b i : Nat) : List Nat :=
  (List.range ((n - i + b - 1) / b)).map (fun k => i + k * b)

/-- The statuses of the signals `p2` has received beyond those of `p`. -/
def statusesSince (p p2 : ProgressServiceBackend) : List Status :=
  (p2.event.drop p.event.length).map (fun e => e.seen.status)

/-- `p2` results from `p` by signals whose statuses are `l`, the lock flag kept. -/
def Emits (p p2 : ProgressServiceBackend) (l : List Status) : Prop :=
  p2.need_hle_lock = p.need_hle_lock ∧
    ∃ ev, p2.event = p.event ++ ev ∧ ev.map (fun e => e.seen.status) = l

/-- The file `file_name` in the subdirectory `dir_name` of a root, or null when
either is absent: `root->GetSubdirectory(dir_name)->GetFile(file_name)` with the
null checks. -/
def VfsDir.lookup (root : VfsDir) (dir_name file_name : Bytes) : Option VfsFile :=
  (root.GetSubdirectory dir_name).bind (fun s => s.GetFile file_name)

/-- A source root with the one subdirectory `d1` holding `a` (bytes 1, 2). -/
def sampleSource : VfsDir :=
  .mk [] [] [.mk (bytesOf "d1") [{ VfsFile.fresh (bytesOf "a") with data := [1, 2] }] [] true true]
    true true

/-- A destination root with `d1` holding `a` (byte 9) and `keep` (byte 7), and `d2`
holding `z` (byte 5). -/
def sampleDest : VfsDir :=
  .mk [] []
    [.mk (bytesOf "d1")
        [{ VfsFile.fresh (bytesOf "a") with data := [9] },
         { VfsFile.fresh (bytesOf "keep") with data := [7] }] [] true true,
     .mk (bytesOf "d2") [{ VfsFile.fresh (bytesOf "z") with data := [5] }] [] true true]
    true true

/-- A source directory `d1` with the files `a` (bytes 1, 2), `bad` (not readable) and
`c` (byte 3), in this order. -/
def sampleFailingDir : VfsDir :=
  .mk (bytesOf "d1")
    [{ VfsFile.fresh (bytesOf "a") with data := [1, 2] },
     { VfsFile.fresh (bytesOf "bad") with data := [8], readable := false },
     { VfsFile.fresh (bytesOf "c") with data := [3] }] [] true true

/-- An archive with the subdirectories `d1` (file `a`, bytes 1, 2) and `d2` (file
`b`, byte 3). -/
def sampleArchive : VfsDir :=
  .mk [] []
    [.mk (bytesOf "d1") [{ VfsFile.fresh (bytesOf "a") with data := [1, 2] }] [] true true,
     .mk (bytesOf "d2") [{ VfsFile.fresh (bytesOf "b") with data := [3] }] [] true true]
    true true

/-- A host on which the server answers 304 (no update), the cached archive is the
one byte 80 and extracts to `sampleArchive`, and the title's cache root is an empty
writable directory. -/
def sampleHost : Host :=
  { bcat_boxcat_local := false
    Get := fun _ _ => some ⟨304, [], []⟩
    sha256 := fun _ => []
    ExtractZIP := fun _ => some sampleArchive
    zip := ⟨some [80], true, true, U64⟩
    bcat_dir := some (VfsDir.fresh [])
    shown := [] }

/-- The step of the status order that a whole-title merge takes besides the forward
ones: from `Committing` back to `Downloading`. -/
def Status.step (a b : Status) : Prop :=
  a.rank ≤ b.rank ∨ (a = .Committing ∧ b = .Downloading)

instance (a b : Status) : Decidable (Status.step a b) :=
  inferInstanceAs (Decidable (a.rank ≤ b.rank ∨ (a = .Committing ∧ b = .Downloading)))

/-- The host `sampleHost` with a server that answers 406 (no data for the build) and
the cache root `sampleDest`. -/
def sampleHostNoBuild : Host :=
  { sampleHost with
    Get := fun _ _ => some ⟨406, [], []⟩
    bcat_dir := some sampleDest }

/-- The tracker `q` results from `p` by exactly one signal, sent under the HLE lock if
and only if `p` requires it, which shows the record of `q`; the lock flag is kept. -/
def SignalsOnce (p q : ProgressServiceBackend) : Prop :=
  q.event = p.event ++ [⟨p.need_hle_lock, q.impl⟩] ∧ q.need_hle_lock = p.need_hle_lock

/-- A cache root with the subdirectories `A` (holding the file `x`) and `B`. -/
def sampleRootAB : VfsDir :=
  .mk [] []
    [.mk (bytesOf "A") [{ VfsFile.fresh (bytesOf "x") with data := [1] }] [] true true,
     .mk (bytesOf "B") [] [] true true]
    true true

/-- The session state a handler ends in. -/
def Handled.state {σ : Type} : Handled σ → σ
  | .returned s _ => s
  | .null_deref s _ => s

/-- The request context a handler ends with. -/
def Handled.ctx {σ : Type} : Handled σ → HLERequestContext
  | .returned _ c => c
  | .null_deref _ c => c

/-- Successive calls of `EnumerateDeliveryCacheDirectory`, one for each write-buffer
size of the list: the session afterwards and the bytes each call wrote to its buffer. -/
def IDeliveryCacheStorageService.enumerateAll :
    IDeliveryCacheStorageService → List Nat → IDeliveryCacheStorageService × List Bytes
  | s, [] => (s, [])
  | s, w :: ws =>
    let h := s.EnumerateDeliveryCacheDirectory ⟨w, [], [], []⟩
    let r := IDeliveryCacheStorageService.enumerateAll h.state ws
    (r.1, h.ctx.written.flatten :: r.2)

/-- As `sampleHost`, with `sampleDest` as the title's cache root. -/
def sampleHostDest : Host :=
  { sampleHost with bcat_dir := some sampleDest }

/-- A cache root with the subdirectories `A` (holding the file `x`), `B`, which is
not writable, and `C`. -/
def sampleRootABC : VfsDir :=
  .mk [] []
    [.mk (bytesOf "A") [{ VfsFile.fresh (bytesOf "x") with data := [1] }] [] true true,
     .mk (bytesOf "B") [] [] true false,
     .mk (bytesOf "C") [] [] true true]
    true true

/-- As `sampleDest`, with the file `keep` of `d1` write-protected. -/
def sampleDestLocked : VfsDir :=
  .mk [] []
    [.mk (bytesOf "d1")
        [{ VfsFile.fresh (bytesOf "a") with data := [9] },
         { VfsFile.fresh (bytesOf "keep") with data := [7], writable := false }] [] true true,
     .mk (bytesOf "d2") [{ VfsFile.fresh (bytesOf "z") with data := [5] }] [] true true]
    true true

/-- As `sampleHost`, with `sampleDestLocked` as the title's cache root. -/
def sampleHostLocked : Host :=
  { sampleHost with bcat_dir := some sampleDestLocked }

/-- The tracker after a sequence of `NullBackend` synchronization calls, each given
by its title and, for `SynchronizeDirectory`, its directory name (`none` stands for
`Synchronize`). -/
def NullBackend.calls :
    ProgressServiceBackend → List (TitleIDVersion × Option Bytes) → ProgressServiceBackend
  | progress, [] => progress
  | progress, (title, none) :: rest =>
    NullBackend.calls (NullBackend.Synchronize title progress).2 rest
  | progress, (title, some name) :: rest =>
    NullBackend.calls (NullBackend.SynchronizeDirectory title name progress).2 rest

/-! # Properties -/

namespace ProgressServiceBackend

theorem SignalUpdate_impl (p : ProgressServiceBackend) : (SignalUpdate p).impl = p.impl := by
  unfold SignalUpdate; split <;> rfl

theorem SignalUpdate_event (p : ProgressServiceBackend) :
    (SignalUpdate p).event = p.event ++ [⟨p.need_hle_lock, p.impl⟩] := by
  unfold SignalUpdate; split <;> simp_all

theorem SignalUpdate_lock (p : ProgressServiceBackend) :
    (SignalUpdate p).need_hle_lock = p.need_hle_lock := by
  unfold SignalUpdate; split <;> rfl

end ProgressServiceBackend

/-- C1: for every tracker state and every result code, `FinishDownload` leaves
the status `Done`, the result equal to the code passed, `total_downloaded_bytes` equal
to `total_bytes`, and `total_bytes` as it was, for a success code as for a failure
code; after `SetTotalSize(1000)` and `FinishDownload(failure)` the record has
`total_downloaded_bytes = 1000`, status `Done` and the failure as result. -/
theorem C1_FinishDownload_marks_completion :
    (∀ (p : ProgressServiceBackend) (r : ResultCode),
      (p.FinishDownload r).impl.status = Status.Done ∧
      (p.FinishDownload r).impl.result = r ∧
      (p.FinishDownload r).impl.total_downloaded_bytes = (p.FinishDownload r).impl.total_bytes ∧
      (p.FinishDownload r).impl.total_bytes = p.impl.total_bytes) ∧
    (∀ (p : ProgressServiceBackend),
      ((p.SetTotalSize 1000).FinishDownload .ERROR_GENERAL_BCAT_FAILURE).impl.total_downloaded_bytes
        = 1000 ∧
      ((p.SetTotalSize 1000).FinishDownload .ERROR_GENERAL_BCAT_FAILURE).impl.status
        = Status.Done ∧
      ((p.SetTotalSize 1000).FinishDownload .ERROR_GENERAL_BCAT_FAILURE).impl.result
        = ResultCode.ERROR_GENERAL_BCAT_FAILURE) := by
  refine ⟨fun p r => ?_, fun p => ?_⟩
  · simp [ProgressServiceBackend.FinishDownload, ProgressServiceBackend.SignalUpdate_impl]
  · simp [ProgressServiceBackend.FinishDownload, ProgressServiceBackend.SetTotalSize,
      ProgressServiceBackend.SignalUpdate_impl]

/-! ## Name validation -/

theorem isalnum_iff (c : Nat) :
    isalnum c = true ↔ (65 ≤ c ∧ c ≤ 90) ∨ (97 ≤ c ∧ c ≤ 122) ∨ (48 ≤ c ∧ c ≤ 57) := by
  simp only [isalnum, Bool.or_eq_true, Bool.and_eq_true, decide_eq_true_eq]
  omega

theorem VerifyNameValidInternal_ctx (ctx : HLERequestContext) (name : Bytes) (m : Nat) :
    (VerifyNameValidInternal ctx name m).2 =
      if (VerifyNameValidInternal ctx name m).1 then ctx
      else ctx.respond .ERROR_INVALID_ARGUMENT := by
  unfold VerifyNameValidInternal
  simp only []
  split <;> simp

theorem VerifyNameValidInternal_flag (ctx ctx2 : HLERequestContext) (name : Bytes) (m : Nat) :
    (VerifyNameValidInternal ctx name m).1 = (VerifyNameValidInternal ctx2 name m).1 := by
  unfold VerifyNameValidInternal
  simp only []
  split <;> simp

theorem VerifyNameValidInternal_iff (ctx : HLERequestContext) (name : Bytes) (m : Nat)
    (h : name.length = 0x20) :
    (VerifyNameValidInternal ctx name m).1 = true ↔
      (∃ c ∈ name, c ≠ 0) ∧ name.getD 0x1F 0 = 0 ∧
        ∀ c ∈ name, c ≠ 0 → (isalnum c = true ∨ c = 95 ∨ c = m) := by
  have hlast : name.getD 0x1F 0 ∈ name := by
    rw [List.getD_eq_getElem name 0 (by omega)]
    exact List.getElem_mem _
  have hall : name.count 0 = 0x20 ↔ ∀ c ∈ name, c = 0 := by
    rw [← h, List.count_eq_length]
    constructor
    · intro hh c hc; exact (hh c hc).symm
    · intro hh c hc; exact (hh c hc).symm
  have hbad : name.countP (fun c => !isalnum c && c != 95 && c != m && c != 0) = 0 ↔
      ∀ c ∈ name, c ≠ 0 → (isalnum c = true ∨ c = 95 ∨ c = m) := by
    rw [List.countP_eq_zero]
    constructor
    · intro hh c hc h0
      have := hh c hc
      simp only [Bool.and_eq_true, Bool.not_eq_true', bne_iff_ne, ne_eq, not_and, not_not] at this
      by_cases h1 : isalnum c = true
      · exact Or.inl h1
      · by_cases h2 : c = 95
        · exact Or.inr (Or.inl h2)
        · by_cases h3 : c = m
          · exact Or.inr (Or.inr h3)
          · exact absurd (this ⟨⟨by simpa using h1, h2⟩, h3⟩) h0
    · intro hh c hc
      simp only [Bool.and_eq_true, Bool.not_eq_true', bne_iff_ne, ne_eq, not_and, not_not]
      rintro ⟨⟨h1, h2⟩, h3⟩
      by_contra h0
      rcases hh c hc h0 with h | h | h
      · simp [h] at h1
      · exact h2 h
      · exact h3 h
  unfold VerifyNameValidInternal
  simp only []
  split
  · rename_i hc
    simp only [Bool.or_eq_true, decide_eq_true_eq] at hc
    simp only [Bool.false_eq_true, false_iff, not_and]
    intro hne hl
    rcases hc with ((hc | hc) | hc) | hc
    · obtain ⟨c, hc1, hc2⟩ := hne
      exact absurd (hall.1 hc c hc1) hc2
    · rw [List.count_eq_zero] at hc
      exact absurd (hl ▸ hlast) hc
    · intro hh; exact hc (hbad.2 hh)
    · exact absurd hl hc
  · rename_i hc
    simp only [Bool.or_eq_true, decide_eq_true_eq, not_or, not_not] at hc
    obtain ⟨⟨⟨h1, h2⟩, h3⟩, h4⟩ := hc
    simp only [true_iff]
    refine ⟨?_, h4, hbad.1 h3⟩
    by_contra hne
    push_neg at hne
    exact h1 (hall.2 hne)

/-- C3: for every 0x20-byte name buffer, `VerifyNameValidDir` (extra character
`-`, 45) and `VerifyNameValidFile` (extra character `.`, 46) accept the name if and
only if some byte is not null, the byte at index 0x1F is null, and every byte that is
not null is an ASCII letter, a digit, the underscore (95) or the extra character. -/
theorem C3_name_valid_iff (ctx : HLERequestContext) (name : Bytes)
    (h : name.length = 0x20) :
    ((VerifyNameValidDir ctx name).1 = true ↔
      (∃ c ∈ name, c ≠ 0) ∧ name.getD 0x1F 0 = 0 ∧
        ∀ c ∈ name, c ≠ 0 →
          ((65 ≤ c ∧ c ≤ 90) ∨ (97 ≤ c ∧ c ≤ 122) ∨ (48 ≤ c ∧ c ≤ 57)) ∨ c = 95 ∨ c = 45) ∧
    ((VerifyNameValidFile ctx name).1 = true ↔
      (∃ c ∈ name, c ≠ 0) ∧ name.getD 0x1F 0 = 0 ∧
        ∀ c ∈ name, c ≠ 0 →
          ((65 ≤ c ∧ c ≤ 90) ∨ (97 ≤ c ∧ c ≤ 122) ∨ (48 ≤ c ∧ c ≤ 57)) ∨ c = 95 ∨ c = 46) := by
  constructor
  · rw [VerifyNameValidDir, VerifyNameValidInternal_iff ctx name 45 h]
    simp only [isalnum_iff]
  · rw [VerifyNameValidFile, VerifyNameValidInternal_iff ctx name 46 h]
    simp only [isalnum_iff]

/-- C3, at concrete buffers: `save-data` padded with nulls to 0x20 bytes is a
valid directory name (through the characterization), `has space` padded is not, the
all-null buffer is not, and a buffer of 0x20 letters, whose last byte is not null, is
not, as a directory name and as a file name. -/
theorem C3_name_valid_iff_witness :
    (bytesOf "save-data" ++ List.replicate 23 0).length = 0x20 ∧
    (VerifyNameValidDir ⟨0, [], [], []⟩ (bytesOf "save-data" ++ List.replicate 23 0)).1 = true ∧
    (VerifyNameValidDir ⟨0, [], [], []⟩ (bytesOf "has space" ++ List.replicate 23 0)).1 = false ∧
    (VerifyNameValidDir ⟨0, [], [], []⟩ (List.replicate 0x20 0)).1 = false ∧
    (VerifyNameValidFile ⟨0, [], [], []⟩ (List.replicate 0x20 0)).1 = false ∧
    (VerifyNameValidDir ⟨0, [], [], []⟩ (List.replicate 0x20 97)).1 = false ∧
    (VerifyNameValidFile ⟨0, [], [], []⟩ (List.replicate 0x20 97)).1 = false :=
  ⟨by decide,
   (C3_name_valid_iff ⟨0, [], [], []⟩ (bytesOf "save-data" ++ List.replicate 23 0)
      (by decide)).1.mpr (by decide),
   by decide, by decide, by decide, by decide, by decide⟩

/-! ## Single-slot sub-sessions -/

/-- C4: on a file sub-session that has a file open, `Open` with two valid names
ends with the already-open error as its response and the session, its open file
included, exactly as before; on a directory sub-session that has a directory open,
`Open` with a valid name does the same. -/
theorem C4_Open_when_occupied (s : IDeliveryCacheFileService)
    (d : IDeliveryCacheDirectoryService) (ctx : HLERequestContext)
    (dir_name file_name : Bytes)
    (hfile : s.current_file.isSome = true) (hdir : d.current_dir.isSome = true)
    (hvd : (VerifyNameValidDir ctx dir_name).1 = true)
    (hvf : (VerifyNameValidFile ctx file_name).1 = true) :
    s.Open ctx dir_name file_name =
      .returned s (ctx.respond .ERROR_ENTITY_ALREADY_OPEN) ∧
    d.Open ctx dir_name = .returned d (ctx.respond .ERROR_ENTITY_ALREADY_OPEN) := by
  have e1 : (VerifyNameValidDir ctx dir_name).2 = ctx := by
    have := VerifyNameValidInternal_ctx ctx dir_name 45
    unfold VerifyNameValidDir at hvd ⊢
    rw [this, hvd]; rfl
  have e2 : (VerifyNameValidFile ctx file_name).2 = ctx := by
    have := VerifyNameValidInternal_ctx ctx file_name 46
    unfold VerifyNameValidFile at hvf ⊢
    rw [this, hvf]; rfl
  constructor
  · unfold IDeliveryCacheFileService.Open
    simp only [hvd, e1, hvf, e2, hfile, Bool.not_true, Bool.false_eq_true, if_false, if_true]
  · unfold IDeliveryCacheDirectoryService.Open
    simp only [hvd, e1, hdir, Bool.not_true, Bool.false_eq_true, if_false, if_true]

/-- C4, at a concrete input: a file session holding `a.bin` and a directory
session holding `dir1`, asked to open `dir2` / `b.bin`. -/
theorem C4_Open_when_occupied_witness :
    IDeliveryCacheFileService.Open
        ⟨some (VfsDir.fresh []), some (VfsFile.fresh (bytesOf "a.bin"))⟩ ⟨0, [], [], []⟩
        (bytesOf "dir2" ++ List.replicate 28 0) (bytesOf "b.bin" ++ List.replicate 27 0) =
      .returned ⟨some (VfsDir.fresh []), some (VfsFile.fresh (bytesOf "a.bin"))⟩
        ((⟨0, [], [], []⟩ : HLERequestContext).respond .ERROR_ENTITY_ALREADY_OPEN) ∧
    IDeliveryCacheDirectoryService.Open
        ⟨some (VfsDir.fresh []), some (VfsDir.fresh (bytesOf "dir1"))⟩ ⟨0, [], [], []⟩
        (bytesOf "dir2" ++ List.replicate 28 0) =
      .returned ⟨some (VfsDir.fresh []), some (VfsDir.fresh (bytesOf "dir1"))⟩
        ((⟨0, [], [], []⟩ : HLERequestContext).respond .ERROR_ENTITY_ALREADY_OPEN) :=
  C4_Open_when_occupied _ _ _ _ _ (by decide) (by decide) (by decide) (by decide)

/-- C5: on a file sub-session with no file open, `Read`, `GetSize` and
`GetDigest` each build the no-open-entity response and then go on to dereference the
null `current_file`; none of them returns after the error. -/
theorem C5_no_open_file_falls_through :
    ∀ (root : Option VfsDir) (ctx : HLERequestContext) (offset : Nat) (md5 : Bytes → Bytes),
      IDeliveryCacheFileService.Read ⟨root, none⟩ ctx offset =
        .null_deref ⟨root, none⟩ (ctx.respond .ERROR_NO_OPEN_ENTITY) ∧
      IDeliveryCacheFileService.GetSize ⟨root, none⟩ ctx =
        .null_deref ⟨root, none⟩ (ctx.respond .ERROR_NO_OPEN_ENTITY) ∧
      IDeliveryCacheFileService.GetDigest md5 ⟨root, none⟩ ctx =
        .null_deref ⟨root, none⟩ (ctx.respond .ERROR_NO_OPEN_ENTITY) := by
  intro root ctx offset md5
  exact ⟨rfl, rfl, rfl⟩

/-- C6: the byte count `Read` asks of the file is `min(size, n - offset)`
whenever `offset ≤ n`, then `offset + count ≤ n` and the bytes returned are those of the
file from `offset` on; with `offset > n` the unsigned subtraction wraps and the count
is `min(size, 2 ^ 64 + n - offset)`: on a 4-byte file, offset 5 and a 16-byte buffer
the count asked is 16, beyond the end of the file, and the handler still answers
success. -/
theorem C6_Read_count_wraps_past_end :
    (∀ n o s : Nat, n < U64 → o ≤ n →
      IDeliveryCacheFileService.ReadSize n o s = min s (n - o) ∧
      o + IDeliveryCacheFileService.ReadSize n o s ≤ n) ∧
    (∀ n o s : Nat, n < o → o < U64 →
      IDeliveryCacheFileService.ReadSize n o s = min s (U64 + n - o)) ∧
    (∀ (root : Option VfsDir) (f : VfsFile) (ctx : HLERequestContext) (o : Nat),
      f.GetSize < U64 → o ≤ f.GetSize → f.readable = true → f.GetSize ≤ f.io_limit →
      IDeliveryCacheFileService.Read ⟨root, some f⟩ ctx o =
        .returned ⟨root, some f⟩
          ((ctx.WriteBuffer ((f.data.drop o).take (min ctx.write_buffer_size (f.GetSize - o)))).respond
            .RESULT_SUCCESS [min ctx.write_buffer_size (f.GetSize - o)])) ∧
    IDeliveryCacheFileService.ReadSize 4 5 16 = 16 ∧
    ¬ (5 + IDeliveryCacheFileService.ReadSize 4 5 16 ≤ 4) ∧
    IDeliveryCacheFileService.Read
        ⟨none, some { VfsFile.fresh (bytesOf "a.bin") with data := [1, 2, 3, 4] }⟩
        ⟨16, [], [], []⟩ 5 =
      .returned ⟨none, some { VfsFile.fresh (bytesOf "a.bin") with data := [1, 2, 3, 4] }⟩
        ⟨16, [], [[]], [⟨.RESULT_SUCCESS, [0]⟩]⟩ := by
  have hsize : ∀ n o s : Nat, n < U64 → o ≤ n →
      IDeliveryCacheFileService.ReadSize n o s = min s (n - o) := by
    intro n o s hn ho
    unfold IDeliveryCacheFileService.ReadSize U64 at *
    have : (n + 2 ^ 64 - o) % 2 ^ 64 = n - o := by
      rw [show n + 2 ^ 64 - o = (n - o) + 2 ^ 64 by omega, Nat.add_mod_right]
      exact Nat.mod_eq_of_lt (by omega)
    rw [this]
    exact Nat.min_comm _ _
  refine ⟨?_, ?_, ?_, by decide, by decide, rfl⟩
  rotate_left 2
  · intro root f ctx o hn ho hr hl
    unfold IDeliveryCacheFileService.Read
    simp only [Option.isNone_some, Bool.false_eq_true, if_false,
      HLERequestContext.GetWriteBufferSize]
    rw [hsize _ _ _ hn ho]
    have hlen : ((f.data.drop o).take (min ctx.write_buffer_size (f.GetSize - o))).length =
        min ctx.write_buffer_size (f.GetSize - o) := by
      simp only [List.length_take, List.length_drop]
      unfold VfsFile.GetSize
      omega
    have hrb : f.ReadBytes (min ctx.write_buffer_size (f.GetSize - o)) o =
        (f.data.drop o).take (min ctx.write_buffer_size (f.GetSize - o)) := by
      unfold VfsFile.ReadBytes VfsFile.Read
      simp only [hr, if_true]
      rw [List.take_of_length_le (l := f.data) hl]
    rw [hrb, hlen]
  · intro n o s hn ho
    unfold IDeliveryCacheFileService.ReadSize U64 at *
    have : (n + 2 ^ 64 - o) % 2 ^ 64 = n - o := by
      rw [show n + 2 ^ 64 - o = (n - o) + 2 ^ 64 by omega, Nat.add_mod_right]
      exact Nat.mod_eq_of_lt (by omega)
    rw [this]
    constructor
    · exact Nat.min_comm _ _
    · have := Nat.min_le_left (n - o) s
      omega
  · intro n o s hn ho
    unfold IDeliveryCacheFileService.ReadSize U64 at *
    rw [Nat.mod_eq_of_lt (by omega), show 2 ^ 64 + n - o = n + 2 ^ 64 - o by omega]
    exact Nat.min_comm _ _

/-! ## Copying one file -/

theorem Read_eq_of_length (f : VfsFile) (len off : Nat) (h : (f.Read len off).length = len)
    (hpos : 0 < len) :
    f.Read len off = (f.data.drop off).take len ∧ off + len ≤ f.data.length := by
  unfold VfsFile.Read at h ⊢
  split at h
  · rename_i hr
    simp only [hr, if_true]
    simp only [List.length_take, List.length_drop] at h
    have h1 : off + len ≤ f.io_limit := by omega
    have h2 : off + len ≤ f.data.length := by omega
    refine ⟨?_, h2⟩
    rw [List.drop_take, List.take_take]
    congr 1
    omega
  · simp at h; omega

theorem Write_full (f : VfsFile) (bytes : Bytes) (off : Nat)
    (h : (f.Write bytes off).2 = bytes.length) (hpos : 0 < bytes.length) :
    (f.Write bytes off).1 =
      { f with data := (f.data ++ List.replicate (off - f.data.length) 0).take off ++ bytes ++
          f.data.drop (off + bytes.length) } := by
  unfold VfsFile.Write at h ⊢
  split
  · simp only [] at h ⊢
    rename_i hw
    simp only [hw, if_true] at h
    split
    · rename_i h0
      simp only [h0, if_true] at h
      omega
    · rename_i h0
      simp only [h0, if_false] at h
      have : bytes.take (f.io_limit - off) = bytes := by
        apply List.take_of_length_le
        simp only [List.length_take] at h
        omega
      simp only [this]
  · rename_i hw
    simp only [hw] at h
    simp at h
    omega

theorem Write_empty (f : VfsFile) (off : Nat) : (f.Write [] off).1 = f := by
  unfold VfsFile.Write
  split <;> simp

theorem loop_exit (src : VfsFile) (b fuel i : Nat) (dest : VfsFile)
    (p : ProgressServiceBackend) (h : ¬ i < src.GetSize) :
    VfsRawCopyProgress.loop src b (fuel + 1) i dest p = some (true, dest, p) := by
  simp [VfsRawCopyProgress.loop, h]

theorem loop_step (src : VfsFile) (b fuel i : Nat) (dest : VfsFile)
    (p : ProgressServiceBackend) (h : i < src.GetSize) (ok : Bool) (d2 : VfsFile)
    (p2 : ProgressServiceBackend)
    (hr : VfsRawCopyProgress.loop src b (fuel + 1) i dest p = some (ok, d2, p2)) :
    (ok = false ∧ p2 = p ∧
      (d2 = dest ∨ d2 = (dest.Write (src.Read (min b (src.GetSize - i)) i) i).1)) ∨
    ((src.Read (min b (src.GetSize - i)) i).length = min b (src.GetSize - i) ∧
      (dest.Write (src.Read (min b (src.GetSize - i)) i) i).2 = min b (src.GetSize - i) ∧
      VfsRawCopyProgress.loop src b fuel ((i + b) % U64)
        (dest.Write (src.Read (min b (src.GetSize - i)) i) i).1 (p.UpdateFileProgress i) =
          some (ok, d2, p2)) := by
  rw [VfsRawCopyProgress.loop] at hr
  simp only [h, if_true] at hr
  split at hr
  · simp only [Option.some.injEq, Prod.mk.injEq] at hr
    obtain ⟨h1, h2, h3⟩ := hr
    exact Or.inl ⟨h1.symm, h3.symm, Or.inl h2.symm⟩
  · rename_i hlen
    split at hr
    · simp only [Option.some.injEq, Prod.mk.injEq] at hr
      obtain ⟨h1, h2, h3⟩ := hr
      exact Or.inl ⟨h1.symm, h3.symm, Or.inr h2.symm⟩
    · rename_i hw
      exact Or.inr ⟨by simpa using hlen, by simpa using hw, hr⟩

theorem splice_eq (d s : List Nat) (i r : Nat) (hlen : d.length = s.length)
    (hir : i + r ≤ s.length)
    (hinv : d = s ∨ d.take i = s.take i) :
    (d ++ List.replicate (i - d.length) 0).take i ++ (s.drop i).take r ++ d.drop (i + r) =
      s.take (i + r) ++ d.drop (i + r) := by
  have h1 : (d ++ List.replicate (i - d.length) 0).take i = s.take i := by
    rw [List.take_append_of_le_length (by omega)]
    rcases hinv with h | h
    · rw [h]
    · exact h
  rw [h1, ← List.take_add]

theorem loop_content (src : VfsFile) (b : Nat) (hn : src.GetSize ≤ U64) :
    ∀ (fuel i : Nat) (dest : VfsFile) (p : ProgressServiceBackend) (d2 : VfsFile)
      (p2 : ProgressServiceBackend),
      dest.data.length = src.data.length →
      (dest.data = src.data ∨ (i ≤ src.data.length ∧ dest.data.take i = src.data.take i)) →
      VfsRawCopyProgress.loop src b fuel i dest p = some (true, d2, p2) →
      d2 = { dest with data := src.data } := by
  intro fuel
  induction fuel with
  | zero => intro i dest p d2 p2 _ _ h; simp [VfsRawCopyProgress.loop] at h
  | succ fuel ih =>
    intro i dest p d2 p2 hlen hinv h
    by_cases hi : i < src.GetSize
    · rcases loop_step src b fuel i dest p hi true d2 p2 h with ⟨hf, _⟩ | ⟨h1, h2, h3⟩
      · simp at hf
      · have hin : i < src.data.length := hi
        by_cases hr0 : min b (src.GetSize - i) = 0
        · -- an empty block: nothing is written
          have hb : b = 0 := by omega
          have hrd : src.Read (min b (src.GetSize - i)) i = [] := by
            apply List.eq_nil_of_length_eq_zero; rw [h1, hr0]
          rw [hrd, Write_empty] at h3
          subst hb
          rw [Nat.add_zero, Nat.mod_eq_of_lt (by
            unfold VfsFile.GetSize at hn hi; omega)] at h3
          exact ih i dest _ d2 p2 hlen hinv h3
        · have hpos : 0 < min b (src.GetSize - i) := Nat.pos_of_ne_zero hr0
          obtain ⟨hrd, hbound⟩ := Read_eq_of_length src _ i h1 hpos
          have hw := Write_full dest _ i (by rw [h2, h1]) (by rw [h1]; exact hpos)
          rw [h1] at hw
          rw [hrd] at hw
          have hsp := splice_eq dest.data src.data i (min b (src.GetSize - i)) hlen hbound
            (by rcases hinv with h | h; exact Or.inl h; exact Or.inr h.2)
          rw [hsp] at hw
          rw [hrd, hw] at h3
          have hr := ih ((i + b) % U64) _ _ d2 p2 (by
            simp only [List.length_append, List.length_take, List.length_drop]
            omega) (by
            by_cases hfull : src.GetSize - i ≤ b
            · left
              have hm : min b (src.GetSize - i) = src.GetSize - i := Nat.min_eq_right hfull
              simp only [hm]
              have : i + (src.GetSize - i) = src.data.length := by
                unfold VfsFile.GetSize; unfold VfsFile.GetSize at hi; omega
              rw [this, List.take_of_length_le (le_refl _), List.drop_of_length_le (by omega)]
              simp
            · right
              have hm : min b (src.GetSize - i) = b := Nat.min_eq_left (by omega)
              simp only [hm]
              have hlt : i + b < src.data.length := by
                unfold VfsFile.GetSize at hfull; omega
              have hmod : (i + b) % U64 = i + b := Nat.mod_eq_of_lt (by
                unfold VfsFile.GetSize at hn; omega)
              rw [hmod]
              refine ⟨by omega, ?_⟩
              rw [List.take_append_of_le_length (by simp; omega)]
              simp) h3
          rw [hr]
    · rw [loop_exit src b fuel i dest p hi] at h
      simp only [Option.some.injEq, Prod.mk.injEq, true_and] at h
      obtain ⟨h1, _⟩ := h
      subst h1
      have : dest.data = src.data := by
        rcases hinv with h | ⟨h1, h2⟩
        · exact h
        · have hi2 : i = src.data.length := by unfold VfsFile.GetSize at hi; omega
          rw [hi2, List.take_of_length_le (by omega), List.take_of_length_le (le_refl _)] at h2
          exact h2
      rw [← this]

theorem offsetsFrom_done (n b i : Nat) (hb : 1 ≤ b) (h : n ≤ i) : offsetsFrom n b i = [] := by
  unfold offsetsFrom
  have : (n - i + b - 1) / b = 0 := by
    apply Nat.div_eq_of_lt; omega
  rw [this]; rfl

theorem offsetsFrom_step (n b i : Nat) (hb : 1 ≤ b) (h : i < n) :
    offsetsFrom n b i = i :: offsetsFrom n b (i + b) := by
  unfold offsetsFrom
  have : (n - i + b - 1) / b = (n - (i + b) + b - 1) / b + 1 := by
    by_cases hc : i + b ≤ n
    · have : n - i + b - 1 = (n - (i + b) + b - 1) + b := by omega
      rw [this, Nat.add_div_right _ (by omega)]
    · have h1 : (n - (i + b) + b - 1) / b = 0 := by
        apply Nat.div_eq_of_lt; omega
      rw [h1]
      have h2 : n - i + b - 1 = (n - i - 1) + b := by omega
      rw [h2, Nat.add_div_right _ (by omega)]
      have h3 : (n - i - 1) / b = 0 := by apply Nat.div_eq_of_lt; omega
      rw [h3]
  rw [this, List.range_succ_eq_map]
  simp only [List.map_cons, List.map_map, Nat.zero_mul, Nat.add_zero]
  congr 1
  apply List.map_congr_left
  intro k _
  simp only [Function.comp, Nat.succ_eq_add_one]
  rw [Nat.add_mul]; omega

theorem Read_full (f : VfsFile) (len off : Nat) (hr : f.readable = true)
    (h1 : off + len ≤ f.data.length) (h2 : off + len ≤ f.io_limit) :
    (f.Read len off).length = len := by
  unfold VfsFile.Read
  simp only [hr, if_true, List.length_take, List.length_drop]
  omega

theorem Write_count (f : VfsFile) (bytes : Bytes) (off : Nat) (hw : f.writable = true)
    (h : off + bytes.length ≤ f.io_limit) : (f.Write bytes off).2 = bytes.length := by
  unfold VfsFile.Write
  simp only [hw, if_true]
  have : (bytes.take (f.io_limit - off)).length = bytes.length := by
    simp only [List.length_take]; omega
  split
  · rename_i h0; simp only []; omega
  · simp only []; exact this

theorem Write_frame (f : VfsFile) (bytes : Bytes) (off : Nat) :
    (f.Write bytes off).1.name = f.name ∧ (f.Write bytes off).1.readable = f.readable ∧
    (f.Write bytes off).1.writable = f.writable ∧
    (f.Write bytes off).1.resizable = f.resizable ∧
    (f.Write bytes off).1.io_limit = f.io_limit := by
  unfold VfsFile.Write
  split
  · simp only []
    split <;> simp
  · simp

theorem loop_progress (src : VfsFile) (b : Nat) (hb : 1 ≤ b) (hn : src.GetSize + b ≤ U64) :
    ∀ (fuel i : Nat) (dest : VfsFile) (p : ProgressServiceBackend) (d2 : VfsFile)
      (p2 : ProgressServiceBackend),
      VfsRawCopyProgress.loop src b fuel i dest p = some (true, d2, p2) →
      p2 = (offsetsFrom src.GetSize b i).foldl ProgressServiceBackend.UpdateFileProgress p := by
  intro fuel
  induction fuel with
  | zero => intro i dest p d2 p2 h; simp [VfsRawCopyProgress.loop] at h
  | succ fuel ih =>
    intro i dest p d2 p2 h
    by_cases hi : i < src.GetSize
    · rcases loop_step src b fuel i dest p hi true d2 p2 h with ⟨hf, _⟩ | ⟨_, _, h3⟩
      · simp at hf
      · rw [Nat.mod_eq_of_lt (by omega)] at h3
        rw [offsetsFrom_step _ _ _ hb hi, List.foldl_cons]
        exact ih _ _ _ _ _ h3
    · rw [loop_exit src b fuel i dest p hi] at h
      simp only [Option.some.injEq, Prod.mk.injEq, true_and] at h
      rw [offsetsFrom_done _ _ _ hb (by omega)]
      exact h.2.symm

theorem loop_total (src : VfsFile) (b : Nat) (hb : 1 ≤ b) (hn : src.GetSize + b ≤ U64)
    (hr : src.readable = true) (hlim : src.GetSize ≤ src.io_limit) :
    ∀ (fuel i : Nat) (dest : VfsFile) (p : ProgressServiceBackend),
      (src.GetSize - i + b - 1) / b < fuel →
      dest.writable = true → src.GetSize ≤ dest.io_limit →
      ∃ d2 p2, VfsRawCopyProgress.loop src b fuel i dest p = some (true, d2, p2) := by
  intro fuel
  induction fuel with
  | zero => intro i dest p h; exact absurd h (Nat.not_lt_zero _)
  | succ fuel ih =>
    intro i dest p hf hw hdl
    by_cases hi : i < src.GetSize
    · have hlen : (offsetsFrom src.GetSize b i).length =
          (offsetsFrom src.GetSize b (i + b)).length + 1 := by
        rw [offsetsFrom_step _ _ _ hb hi]; rfl
      simp only [offsetsFrom, List.length_map, List.length_range] at hlen
      have hrd : (src.Read (min b (src.GetSize - i)) i).length = min b (src.GetSize - i) :=
        Read_full src _ i hr (by unfold VfsFile.GetSize at *; omega) (by omega)
      have hwr : (dest.Write (src.Read (min b (src.GetSize - i)) i) i).2 =
          min b (src.GetSize - i) := by
        rw [Write_count dest _ i hw (by rw [hrd]; omega), hrd]
      obtain ⟨d2, p2, h2⟩ := ih (i + b)
        (dest.Write (src.Read (min b (src.GetSize - i)) i) i).1 (p.UpdateFileProgress i)
        (by omega) (by rw [(Write_frame _ _ _).2.2.1]; exact hw)
        (by rw [(Write_frame _ _ _).2.2.2.2]; exact hdl)
      refine ⟨d2, p2, ?_⟩
      rw [VfsRawCopyProgress.loop]
      simp only [hi, if_true, hrd, hwr, ne_eq, not_true_eq_false, if_false]
      rw [Nat.mod_eq_of_lt (by omega)]
      exact h2
    · exact ⟨dest, p, loop_exit src b fuel i dest p hi⟩

theorem Resize_ok (d : VfsFile) (n : Nat) (h : (d.Resize n).1 = true) :
    d.writable = true ∧ d.resizable = true ∧
    (d.Resize n).2 = { d with data := (d.data ++ List.replicate (n - d.data.length) 0).take n } := by
  unfold VfsFile.Resize at h ⊢
  split at h
  · rename_i hc
    simp only [Bool.and_eq_true] at hc
    simp only [hc.1, hc.2, Bool.and_self, if_true, and_self]
  · simp at h

theorem Resize_fail (d : VfsFile) (n : Nat) (h : (d.Resize n).1 = false) :
    (d.Resize n).2 = d := by
  unfold VfsFile.Resize at h ⊢
  split at h
  · simp at h
  · rename_i hc; simp only [hc]; simp

theorem VfsRawCopyProgress_true (s d : VfsFile) (dir : Bytes) (p : ProgressServiceBackend)
    (b : Nat) (out : Option VfsFile) (p2 : ProgressServiceBackend)
    (h : VfsRawCopyProgress (some s) (some d) dir p b = some (true, out, p2)) :
    s.readable = true ∧ d.writable = true ∧ (d.Resize s.GetSize).1 = true ∧
    ∃ d2 p1, VfsRawCopyProgress.loop s b U64 0 (d.Resize s.GetSize).2
        (p.StartDownloadingFile dir s.GetName s.GetSize) = some (true, d2, p1) ∧
      out = some d2 ∧ p2 = p1.FinishDownloadingFile := by
  unfold VfsRawCopyProgress at h
  simp only [] at h
  split at h
  · simp at h
  · rename_i hc
    simp only [Bool.or_eq_true, Bool.not_eq_true', not_or, Bool.not_eq_false,
      VfsFile.IsReadable, VfsFile.IsWritable] at hc
    split at h
    · simp at h
    · rename_i hres
      simp only [Bool.not_eq_true', Bool.not_eq_false] at hres
      refine ⟨hc.1, hc.2, hres, ?_⟩
      split at h
      · simp at h
      · simp at h
      · rename_i d2 p1 hl
        simp only [Option.some.injEq, Prod.mk.injEq, true_and] at h
        exact ⟨d2, p1, hl, h.1.symm, h.2.symm⟩


/-! ## What a copy leaves of the tracker and of the destination file -/

theorem Emits.refl (p : ProgressServiceBackend) : Emits p p [] :=
  ⟨rfl, [], by simp, rfl⟩

theorem Emits.trans {p p1 p2 : ProgressServiceBackend} {l1 l2 : List Status}
    (h1 : Emits p p1 l1) (h2 : Emits p1 p2 l2) : Emits p p2 (l1 ++ l2) := by
  obtain ⟨hl1, ev1, he1, hm1⟩ := h1
  obtain ⟨hl2, ev2, he2, hm2⟩ := h2
  refine ⟨hl2.trans hl1, ev1 ++ ev2, ?_, ?_⟩
  · rw [he2, he1, List.append_assoc]
  · rw [List.map_append, hm1, hm2]

theorem Emits.statusesSince {p p2 : ProgressServiceBackend} {l : List Status}
    (h : Emits p p2 l) : statusesSince p p2 = l := by
  obtain ⟨_, ev, he, hm⟩ := h
  unfold Bcat.statusesSince
  rw [he, List.drop_left, hm]

theorem Emits_SignalUpdate (p : ProgressServiceBackend) :
    Emits p p.SignalUpdate [p.impl.status] :=
  ⟨ProgressServiceBackend.SignalUpdate_lock p, _,
    ProgressServiceBackend.SignalUpdate_event p, rfl⟩

theorem Emits_SetTotalSize (p : ProgressServiceBackend) (n : Nat) :
    Emits p (p.SetTotalSize n) [p.impl.status] :=
  ⟨ProgressServiceBackend.SignalUpdate_lock _, _,
    ProgressServiceBackend.SignalUpdate_event _, rfl⟩

theorem Emits_StartConnecting (p : ProgressServiceBackend) :
    Emits p p.StartConnecting [.Connecting] :=
  ⟨ProgressServiceBackend.SignalUpdate_lock _, _,
    ProgressServiceBackend.SignalUpdate_event _, rfl⟩

theorem Emits_StartProcessingDataList (p : ProgressServiceBackend) :
    Emits p p.StartProcessingDataList [.ProcessingDataList] :=
  ⟨ProgressServiceBackend.SignalUpdate_lock _, _,
    ProgressServiceBackend.SignalUpdate_event _, rfl⟩

theorem Emits_StartDownloadingFile (p : ProgressServiceBackend) (d f : Bytes) (n : Nat) :
    Emits p (p.StartDownloadingFile d f n) [.Downloading] :=
  ⟨ProgressServiceBackend.SignalUpdate_lock _, _,
    ProgressServiceBackend.SignalUpdate_event _, rfl⟩

theorem Emits_UpdateFileProgress (p : ProgressServiceBackend) (n : Nat) :
    Emits p (p.UpdateFileProgress n) [p.impl.status] :=
  ⟨ProgressServiceBackend.SignalUpdate_lock _, _,
    ProgressServiceBackend.SignalUpdate_event _, rfl⟩

theorem Emits_FinishDownloadingFile (p : ProgressServiceBackend) :
    Emits p p.FinishDownloadingFile [p.impl.status] :=
  ⟨ProgressServiceBackend.SignalUpdate_lock _, _,
    ProgressServiceBackend.SignalUpdate_event _, rfl⟩

theorem Emits_CommitDirectory (p : ProgressServiceBackend) (d : Bytes) :
    Emits p (p.CommitDirectory d) [.Committing] :=
  ⟨ProgressServiceBackend.SignalUpdate_lock _, _,
    ProgressServiceBackend.SignalUpdate_event _, rfl⟩

theorem Emits_FinishDownload (p : ProgressServiceBackend) (r : ResultCode) :
    Emits p (p.FinishDownload r) [.Done] :=
  ⟨ProgressServiceBackend.SignalUpdate_lock _, _,
    ProgressServiceBackend.SignalUpdate_event _, rfl⟩

theorem UpdateFileProgress_status (p : ProgressServiceBackend) (n : Nat) :
    (p.UpdateFileProgress n).impl.status = p.impl.status := by
  simp [ProgressServiceBackend.UpdateFileProgress, ProgressServiceBackend.SignalUpdate_impl]

/-- The block loop signals only the status the tracker has on entry and leaves the
name and the flags of the destination file alone. -/
theorem loop_frame (src : VfsFile) (b : Nat) :
    ∀ (fuel i : Nat) (dest : VfsFile) (p : ProgressServiceBackend) (ok : Bool)
      (d2 : VfsFile) (p2 : ProgressServiceBackend),
      VfsRawCopyProgress.loop src b fuel i dest p = some (ok, d2, p2) →
      d2.name = dest.name ∧ d2.readable = dest.readable ∧ d2.writable = dest.writable ∧
      p2.impl.status = p.impl.status ∧
      ∃ k, Emits p p2 (List.replicate k p.impl.status) := by
  intro fuel
  induction fuel with
  | zero => intro i dest p ok d2 p2 h; simp [VfsRawCopyProgress.loop] at h
  | succ fuel ih =>
    intro i dest p ok d2 p2 h
    by_cases hi : i < src.GetSize
    · rcases loop_step src b fuel i dest p hi ok d2 p2 h with ⟨_, hp, hd | hd⟩ | ⟨_, _, h3⟩
      · subst hp; subst hd
        exact ⟨rfl, rfl, rfl, rfl, 0, Emits.refl _⟩
      · subst hp; subst hd
        obtain ⟨h1, h2, h3, _⟩ := Write_frame dest (src.Read (min b (src.GetSize - i)) i) i
        exact ⟨h1, h2, h3, rfl, 0, Emits.refl _⟩
      · obtain ⟨a1, a2, a3, a4, k, a5⟩ := ih _ _ _ ok d2 p2 h3
        obtain ⟨h1, h2, h3, _⟩ := Write_frame dest (src.Read (min b (src.GetSize - i)) i) i
        rw [UpdateFileProgress_status] at a4 a5
        refine ⟨a1.trans h1, a2.trans h2, a3.trans h3, a4, k + 1, ?_⟩
        have := Emits.trans (Emits_UpdateFileProgress p i) a5
        rw [List.replicate_succ]
        exact this
    · rw [loop_exit src b fuel i dest p hi] at h
      simp only [Option.some.injEq, Prod.mk.injEq] at h
      obtain ⟨_, h2, h3⟩ := h
      subst h2; subst h3
      exact ⟨rfl, rfl, rfl, rfl, 0, Emits.refl _⟩

/-- Whatever `VfsRawCopyProgress` returns, every signal it sends has the status
`Downloading`, a null destination stays null, and a destination file keeps its
name. -/
theorem VfsRawCopyProgress_frame (src dest : Option VfsFile) (dir : Bytes)
    (p : ProgressServiceBackend) (b : Nat) (ok : Bool) (out : Option VfsFile)
    (p2 : ProgressServiceBackend)
    (h : VfsRawCopyProgress src dest dir p b = some (ok, out, p2)) :
    (∃ k, Emits p p2 (List.replicate k .Downloading)) ∧
    (dest = none → out = none) ∧
    (∀ d, dest = some d → ∃ d2, out = some d2 ∧ d2.name = d.name) := by
  unfold VfsRawCopyProgress at h
  split at h
  · rename_i s d
    simp only [] at h
    split at h
    · simp only [Option.some.injEq, Prod.mk.injEq] at h
      obtain ⟨_, h2, h3⟩ := h
      subst h2; subst h3
      exact ⟨⟨0, Emits.refl _⟩, by simp, fun d' hd => ⟨d', hd, rfl⟩⟩
    · split at h
      · rename_i hres
        simp only [Option.some.injEq, Prod.mk.injEq] at h
        obtain ⟨_, h2, h3⟩ := h
        subst h2; subst h3
        refine ⟨⟨0, Emits.refl _⟩, by simp, fun d' hd => ⟨_, rfl, ?_⟩⟩
        simp only [Option.some.injEq] at hd
        subst hd
        rw [Resize_fail d s.GetSize (by simpa using hres)]
      · rename_i hres
        have hres' : (d.Resize s.GetSize).1 = true := by simpa using hres
        obtain ⟨_, _, hrz⟩ := Resize_ok d s.GetSize hres'
        have hname : (d.Resize s.GetSize).2.name = d.name := by rw [hrz]
        split at h
        · simp at h
        · rename_i d2 p1 hl
          simp only [Option.some.injEq, Prod.mk.injEq] at h
          obtain ⟨_, h2, h3⟩ := h
          subst h2; subst h3
          obtain ⟨a1, _, _, _, k, a5⟩ := loop_frame s b _ _ _ _ _ _ _ hl
          have hs : (p.StartDownloadingFile dir s.GetName s.GetSize).impl.status =
              Status.Downloading := by
            simp [ProgressServiceBackend.StartDownloadingFile,
              ProgressServiceBackend.SignalUpdate_impl]
          rw [hs] at a5
          refine ⟨⟨k + 1, ?_⟩, by simp, fun d' hd => ⟨_, rfl, ?_⟩⟩
          · rw [List.replicate_succ]
            exact Emits.trans (Emits_StartDownloadingFile p _ _ _) a5
          · simp only [Option.some.injEq] at hd
            subst hd
            rw [a1, hname]
        · rename_i d2 p1 hl
          simp only [Option.some.injEq, Prod.mk.injEq] at h
          obtain ⟨_, h2, h3⟩ := h
          subst h2; subst h3
          obtain ⟨a1, _, _, a4, k, a5⟩ := loop_frame s b _ _ _ _ _ _ _ hl
          have hs : (p.StartDownloadingFile dir s.GetName s.GetSize).impl.status =
              Status.Downloading := by
            simp [ProgressServiceBackend.StartDownloadingFile,
              ProgressServiceBackend.SignalUpdate_impl]
          rw [hs] at a5 a4
          refine ⟨⟨k + 1 + 1, ?_⟩, by simp, fun d' hd => ⟨_, rfl, ?_⟩⟩
          · have e1 := Emits.trans (Emits_StartDownloadingFile p dir s.GetName s.GetSize) a5
            have e2 := Emits.trans e1 (Emits_FinishDownloadingFile p1)
            rw [a4] at e2
            have : List.replicate (k + 1 + 1) Status.Downloading =
                [Status.Downloading] ++ List.replicate k Status.Downloading ++
                  [Status.Downloading] := by
              rw [List.replicate_succ', List.replicate_succ]; simp
            rw [this]; exact e2
          · simp only [Option.some.injEq] at hd
            subst hd
            rw [a1, hname]
  · simp only [Option.some.injEq, Prod.mk.injEq] at h
    obtain ⟨_, h2, h3⟩ := h
    subst h2; subst h3
    refine ⟨⟨0, Emits.refl _⟩, fun hd => hd, fun d hd => ⟨d, hd, rfl⟩⟩

/-! ## Directories: what creating a file and storing a handle back change -/

namespace VfsDir

theorem GetFiles_setFiles (d : VfsDir) (l : List VfsFile) : (d.setFiles l).GetFiles = l := by
  cases d; rfl

theorem GetSubdirectories_setFiles (d : VfsDir) (l : List VfsFile) :
    (d.setFiles l).GetSubdirectories = d.GetSubdirectories := by
  cases d; rfl

theorem GetName_setFiles (d : VfsDir) (l : List VfsFile) : (d.setFiles l).GetName = d.GetName := by
  cases d; rfl

theorem IsWritable_setFiles (d : VfsDir) (l : List VfsFile) :
    (d.setFiles l).IsWritable = d.IsWritable := by
  cases d; rfl

theorem IsReadable_setFiles (d : VfsDir) (l : List VfsFile) :
    (d.setFiles l).IsReadable = d.IsReadable := by
  cases d; rfl

theorem GetFiles_setSubdirs (d : VfsDir) (l : List VfsDir) :
    (d.setSubdirs l).GetFiles = d.GetFiles := by
  cases d; rfl

theorem GetSubdirectories_setSubdirs (d : VfsDir) (l : List VfsDir) :
    (d.setSubdirs l).GetSubdirectories = l := by
  cases d; rfl

theorem GetName_setSubdirs (d : VfsDir) (l : List VfsDir) :
    (d.setSubdirs l).GetName = d.GetName := by
  cases d; rfl

theorem IsWritable_setSubdirs (d : VfsDir) (l : List VfsDir) :
    (d.setSubdirs l).IsWritable = d.IsWritable := by
  cases d; rfl

theorem IsReadable_setSubdirs (d : VfsDir) (l : List VfsDir) :
    (d.setSubdirs l).IsReadable = d.IsReadable := by
  cases d; rfl

theorem find_putFileIn_ne (f : VfsFile) (g : Bytes) (hg : f.name ≠ g) (l : List VfsFile) :
    (putFileIn f l).find? (fun x => x.name == g) = l.find? (fun x => x.name == g) := by
  induction l with
  | nil => rfl
  | cons a l ih =>
    unfold putFileIn
    by_cases ha : a.name = f.name
    · have hag : a.name ≠ g := by rw [ha]; exact hg
      simp [ha, List.find?_cons, hg, hag]
    · simp only [beq_iff_eq, ha, if_false, List.find?_cons, ih]

theorem find_putFileIn_eq (f : VfsFile) (l : List VfsFile)
    (h : (l.find? (fun x => x.name == f.name)).isSome = true) :
    (putFileIn f l).find? (fun x => x.name == f.name) = some f := by
  induction l with
  | nil => simp at h
  | cons a l ih =>
    unfold putFileIn
    by_cases ha : a.name = f.name
    · simp [ha, List.find?_cons]
    · have : (l.find? (fun x => x.name == f.name)).isSome = true := by
        simpa [List.find?_cons, ha] using h
      simp [ha, List.find?_cons, ih this]

theorem GetFile_PutFile_ne (d : VfsDir) (o : Option VfsFile) (g : Bytes)
    (h : ∀ f, o = some f → f.name ≠ g) : (d.PutFile o).GetFile g = d.GetFile g := by
  cases o with
  | none => rfl
  | some f =>
    unfold PutFile GetFile
    rw [GetFiles_setFiles]
    exact find_putFileIn_ne f g (h f rfl) _

theorem GetFile_PutFile_eq (d : VfsDir) (f : VfsFile)
    (h : (d.GetFile f.name).isSome = true) : (d.PutFile (some f)).GetFile f.name = some f := by
  unfold PutFile GetFile
  rw [GetFiles_setFiles]
  exact find_putFileIn_eq f _ h

theorem PutFile_frame (d : VfsDir) (o : Option VfsFile) :
    (d.PutFile o).GetSubdirectories = d.GetSubdirectories ∧
    (d.PutFile o).GetName = d.GetName ∧ (d.PutFile o).IsWritable = d.IsWritable ∧
    (d.PutFile o).IsReadable = d.IsReadable := by
  cases o with
  | none => exact ⟨rfl, rfl, rfl, rfl⟩
  | some f =>
    unfold PutFile
    exact ⟨GetSubdirectories_setFiles _ _, GetName_setFiles _ _, IsWritable_setFiles _ _,
      IsReadable_setFiles _ _⟩

theorem CreateFile_frame (d : VfsDir) (nm : Bytes) :
    (d.CreateFile nm).1.GetSubdirectories = d.GetSubdirectories ∧
    (d.CreateFile nm).1.GetName = d.GetName ∧ (d.CreateFile nm).1.IsWritable = d.IsWritable ∧
    (d.CreateFile nm).1.IsReadable = d.IsReadable := by
  unfold CreateFile
  split
  · exact ⟨rfl, rfl, rfl, rfl⟩
  · split
    · exact ⟨GetSubdirectories_setFiles _ _, GetName_setFiles _ _, IsWritable_setFiles _ _,
        IsReadable_setFiles _ _⟩
    · exact ⟨rfl, rfl, rfl, rfl⟩

theorem GetFile_CreateFile_ne (d : VfsDir) (nm g : Bytes) (h : nm ≠ g) :
    (d.CreateFile nm).1.GetFile g = d.GetFile g := by
  unfold CreateFile
  split
  · rfl
  · split
    · unfold GetFile
      rw [GetFiles_setFiles, List.find?_append]
      have : List.find? (fun f => f.name == g) [VfsFile.fresh nm] = none := by
        simp [List.find?_cons, VfsFile.fresh, h]
      rw [this]; simp
    · rfl

theorem CreateFile_handle (d : VfsDir) (nm : Bytes) :
    ((d.CreateFile nm).2 = none ∧ (d.CreateFile nm).1 = d) ∨
    ∃ f, (d.CreateFile nm).2 = some f ∧ f.name = nm ∧ (d.CreateFile nm).1.GetFile nm = some f ∧
      (d.GetFile nm = some f ∨ (d.GetFile nm = none ∧ f = VfsFile.fresh nm)) := by
  unfold CreateFile
  split
  · rename_i f hf
    right
    refine ⟨f, rfl, ?_, hf, Or.inl hf⟩
    unfold GetFile at hf
    have := List.find?_some hf
    simpa using this
  · rename_i hf
    split
    · right
      refine ⟨VfsFile.fresh nm, rfl, rfl, ?_, Or.inr ⟨hf, rfl⟩⟩
      unfold GetFile at hf ⊢
      rw [GetFiles_setFiles, List.find?_append, hf]
      simp [List.find?_cons, VfsFile.fresh]
    · left; exact ⟨rfl, rfl⟩

end VfsDir

/-! ## Merging one directory -/

theorem VfsRawCopyProgress_content (s d : VfsFile) (dir : Bytes) (p : ProgressServiceBackend)
    (b : Nat) (out : Option VfsFile) (p2 : ProgressServiceBackend) (hn : s.GetSize < U64)
    (h : VfsRawCopyProgress (some s) (some d) dir p b = some (true, out, p2)) :
    out = some { d with data := s.data } := by
  obtain ⟨_, _, hres, d2, p1, hl, ho, _⟩ := VfsRawCopyProgress_true s d dir p b out p2 h
  obtain ⟨_, _, hrz⟩ := Resize_ok d s.GetSize hres
  have := loop_content s b (le_of_lt hn) U64 0 _ _ d2 p1
    (by rw [hrz]; simp only [List.length_take, List.length_append, List.length_replicate]
        unfold VfsFile.GetSize; omega)
    (Or.inr ⟨Nat.zero_le _, by simp⟩) hl
  rw [ho, this, hrz]

theorem VfsRawCopyProgress_null_dest (src : Option VfsFile) (dir : Bytes)
    (p : ProgressServiceBackend) (b : Nat) :
    VfsRawCopyProgress src none dir p b = some (false, none, p) := by
  unfold VfsRawCopyProgress
  cases src <;> rfl

/-- One round of the file loop: the file `f` is created in `dest` and copied. -/
theorem copy_one_frame (f : VfsFile) (dest : VfsDir) (nm : Bytes) (p : ProgressServiceBackend)
    (b : Nat) (ok : Bool) (out : Option VfsFile) (p1 : ProgressServiceBackend)
    (h : VfsRawCopyProgress (some f) (VfsCreateFileWrap dest f.GetName).2 nm p b =
      some (ok, out, p1)) :
    (∀ g, f.name ≠ g →
      ((VfsCreateFileWrap dest f.GetName).1.PutFile out).GetFile g = dest.GetFile g) ∧
    ((VfsCreateFileWrap dest f.GetName).1.PutFile out).GetSubdirectories =
      dest.GetSubdirectories ∧
    ((VfsCreateFileWrap dest f.GetName).1.PutFile out).GetName = dest.GetName ∧
    ((VfsCreateFileWrap dest f.GetName).1.PutFile out).IsWritable = dest.IsWritable ∧
    ((VfsCreateFileWrap dest f.GetName).1.PutFile out).IsReadable = dest.IsReadable ∧
    (∃ k, Emits p p1 (List.replicate k .Downloading)) ∧
    (ok = true → f.GetSize < U64 →
      ∃ x, ((VfsCreateFileWrap dest f.GetName).1.PutFile out).GetFile f.name = some x ∧
        x.data = f.data) := by
  unfold VfsCreateFileWrap at h ⊢
  unfold VfsFile.GetName at h ⊢
  obtain ⟨hem, hnone, hsome⟩ := VfsRawCopyProgress_frame _ _ _ _ _ _ _ _ h
  obtain ⟨c1, c2, c3, c4⟩ := VfsDir.CreateFile_frame dest f.name
  obtain ⟨q1, q2, q3, q4⟩ := VfsDir.PutFile_frame (dest.CreateFile f.name).1 out
  have hout : ∀ x, out = some x → x.name = f.name := by
    intro x hx
    rcases VfsDir.CreateFile_handle dest f.name with ⟨hc, _⟩ | ⟨d, hc, hdn, _, _⟩
    · rw [hnone hc] at hx; simp at hx
    · obtain ⟨d2, hd2, hname⟩ := hsome d hc
      rw [hd2] at hx
      simp only [Option.some.injEq] at hx
      rw [← hx, hname, hdn]
  refine ⟨?_, q1.trans c1, q2.trans c2, q3.trans c3, q4.trans c4, hem, ?_⟩
  · intro g hg
    rw [VfsDir.GetFile_PutFile_ne _ _ _ (fun x hx => by rw [hout x hx]; exact hg),
      VfsDir.GetFile_CreateFile_ne _ _ _ hg]
  · intro hok hn
    subst hok
    rcases VfsDir.CreateFile_handle dest f.name with ⟨hc, _⟩ | ⟨d, hc, hdn, hget, _⟩
    · rw [hc, VfsRawCopyProgress_null_dest] at h
      simp at h
    · rw [hc] at h
      have ho := VfsRawCopyProgress_content f d nm p b out p1 hn h
      refine ⟨{ d with data := f.data }, ?_, rfl⟩
      rw [ho]
      have hnm : ({ d with data := f.data } : VfsFile).name = f.name := hdn
      rw [← hnm]
      apply VfsDir.GetFile_PutFile_eq
      rw [hnm, hget]; rfl

theorem single_loop_cons (nm : Bytes) (b : Nat) (f : VfsFile) (rest : List VfsFile)
    (dest : VfsDir) (p : ProgressServiceBackend) :
    VfsRawCopyDProgressSingle.loop nm b (f :: rest) dest p =
      match VfsRawCopyProgress (some f) (VfsCreateFileWrap dest f.GetName).2 nm p b with
      | none => none
      | some (false, out_file, p1) =>
        some (false, (VfsCreateFileWrap dest f.GetName).1.PutFile out_file, p1)
      | some (true, out_file, p1) =>
        VfsRawCopyDProgressSingle.loop nm b rest
          ((VfsCreateFileWrap dest f.GetName).1.PutFile out_file) p1 := by
  rw [VfsRawCopyDProgressSingle.loop]

/-- The file loop run over `pre ++ rest` is the loop over `pre`, continued over
`rest` if and only if `pre` was copied without failure. -/
theorem single_loop_append (nm : Bytes) (b : Nat) (pre rest : List VfsFile) :
    ∀ (dest : VfsDir) (p : ProgressServiceBackend),
      VfsRawCopyDProgressSingle.loop nm b (pre ++ rest) dest p =
        match VfsRawCopyDProgressSingle.loop nm b pre dest p with
        | none => none
        | some (false, d1, p1) => some (false, d1, p1)
        | some (true, d1, p1) => VfsRawCopyDProgressSingle.loop nm b rest d1 p1 := by
  induction pre with
  | nil => intro dest p; simp [VfsRawCopyDProgressSingle.loop]
  | cons f pre ih =>
    intro dest p
    rw [List.cons_append, single_loop_cons, single_loop_cons]
    cases hc : VfsRawCopyProgress (some f) (VfsCreateFileWrap dest f.GetName).2 nm p b with
    | none => rfl
    | some r =>
      obtain ⟨ok, out, p1⟩ := r
      cases ok with
      | false => rfl
      | true => exact ih _ _

/-- What the file loop leaves: files not named in the list, the subdirectories, the
name and the flags of the destination are as before; the signals sent all have the
status `Downloading`. -/
theorem single_loop_frame (nm : Bytes) (b : Nat) (files : List VfsFile) :
    ∀ (dest : VfsDir) (p : ProgressServiceBackend) (ok : Bool) (d1 : VfsDir)
      (p1 : ProgressServiceBackend),
      VfsRawCopyDProgressSingle.loop nm b files dest p = some (ok, d1, p1) →
      (∀ g, g ∉ files.map VfsFile.name → d1.GetFile g = dest.GetFile g) ∧
      d1.GetSubdirectories = dest.GetSubdirectories ∧ d1.GetName = dest.GetName ∧
      d1.IsWritable = dest.IsWritable ∧ d1.IsReadable = dest.IsReadable ∧
      ∃ k, Emits p p1 (List.replicate k .Downloading) := by
  induction files with
  | nil =>
    intro dest p ok d1 p1 h
    simp only [VfsRawCopyDProgressSingle.loop, Option.some.injEq, Prod.mk.injEq] at h
    obtain ⟨_, h2, h3⟩ := h
    subst h2; subst h3
    exact ⟨fun _ _ => rfl, rfl, rfl, rfl, rfl, 0, Emits.refl _⟩
  | cons f rest ih =>
    intro dest p ok d1 p1 h
    rw [single_loop_cons] at h
    cases hc : VfsRawCopyProgress (some f) (VfsCreateFileWrap dest f.GetName).2 nm p b with
    | none => rw [hc] at h; simp at h
    | some r =>
      obtain ⟨ok1, out, pm⟩ := r
      obtain ⟨a1, a2, a3, a4, a5, ⟨k, a6⟩, _⟩ := copy_one_frame f dest nm p b ok1 out pm hc
      rw [hc] at h
      cases ok1 with
      | false =>
        simp only [Option.some.injEq, Prod.mk.injEq] at h
        obtain ⟨_, h2, h3⟩ := h
        subst h2; subst h3
        refine ⟨fun g hg => a1 g ?_, a2, a3, a4, a5, k, a6⟩
        intro hfg; apply hg; simp [hfg]
      | true =>
        simp only [] at h
        obtain ⟨b1, b2, b3, b4, b5, k2, b6⟩ := ih _ _ _ _ _ h
        refine ⟨fun g hg => ?_, b2.trans a2, b3.trans a3, b4.trans a4, b5.trans a5, k + k2, ?_⟩
        · rw [b1 g (fun hm => hg (by simp [hm])), a1 g (fun hfg => hg (by simp [hfg]))]
        · rw [List.replicate_add]
          exact Emits.trans a6 b6

/-- After a file loop that copied every file of a list with distinct names, each of
them is in the destination with the source's bytes. -/
theorem single_loop_content (nm : Bytes) (b : Nat) (files : List VfsFile) :
    ∀ (dest : VfsDir) (p : ProgressServiceBackend) (d1 : VfsDir)
      (p1 : ProgressServiceBackend),
      VfsRawCopyDProgressSingle.loop nm b files dest p = some (true, d1, p1) →
      (files.map VfsFile.name).Nodup → (∀ f ∈ files, f.GetSize < U64) →
      ∀ f ∈ files, ∃ x, d1.GetFile f.name = some x ∧ x.data = f.data := by
  induction files with
  | nil => intro dest p d1 p1 _ _ _ f hf; simp at hf
  | cons f rest ih =>
    intro dest p d1 p1 h hnd hsz g hg
    rw [single_loop_cons] at h
    cases hc : VfsRawCopyProgress (some f) (VfsCreateFileWrap dest f.GetName).2 nm p b with
    | none => rw [hc] at h; simp at h
    | some r =>
      obtain ⟨ok1, out, pm⟩ := r
      rw [hc] at h
      cases ok1 with
      | false => simp at h
      | true =>
        simp only [] at h
        obtain ⟨_, _, _, _, _, _, a7⟩ := copy_one_frame f dest nm p b true out pm hc
        rw [List.map_cons, List.nodup_cons] at hnd
        rcases List.mem_cons.1 hg with hgf | hgr
        · subst hgf
          obtain ⟨x, hx, hxd⟩ := a7 rfl (hsz g (List.mem_cons_self _ _))
          obtain ⟨b1, _⟩ := single_loop_frame nm b rest _ _ _ _ _ h
          exact ⟨x, by rw [b1 g.name hnd.1, hx], hxd⟩
        · exact ih _ _ _ _ h hnd.2 (fun f' hf' => hsz f' (List.mem_cons_of_mem _ hf')) g hgr

/-- C7: when `VfsRawCopyProgress` returns true for a source of `n < 2 ^ 64` bytes,
the destination is the file it was with the source's bytes as content: its size is
`n` and its bytes equal the source's; a `Read` at offset 0 with room for `n` bytes
through a file sub-session holding the merged file then returns exactly these bytes
(the file being readable up to `n`). With a readable source, a writable, resizable
destination, no transfer limit below `n` and `1 ≤ b`, `n + b ≤ 2 ^ 64`, the copy does
return true. -/
theorem C7_copy_then_read_roundtrip :
    (∀ (s d : VfsFile) (dir : Bytes) (p : ProgressServiceBackend) (b : Nat)
        (out : Option VfsFile) (p2 : ProgressServiceBackend),
      s.GetSize < U64 →
      VfsRawCopyProgress (some s) (some d) dir p b = some (true, out, p2) →
      out = some { d with data := s.data } ∧
      (∀ d2, out = some d2 → d2.GetSize = s.GetSize ∧ d2.data = s.data) ∧
      (d.readable = true → s.GetSize ≤ d.io_limit →
        ∀ (root : Option VfsDir) (ctx : HLERequestContext),
          ctx.write_buffer_size = s.GetSize →
          IDeliveryCacheFileService.Read ⟨root, out⟩ ctx 0 =
            .returned ⟨root, out⟩
              ((ctx.WriteBuffer s.data).respond .RESULT_SUCCESS [s.GetSize]))) ∧
    (∀ (s d : VfsFile) (dir : Bytes) (p : ProgressServiceBackend) (b : Nat),
      1 ≤ b → s.GetSize + b ≤ U64 →
      s.readable = true → s.GetSize ≤ s.io_limit →
      d.writable = true → d.resizable = true → s.GetSize ≤ d.io_limit →
      ∃ p2, VfsRawCopyProgress (some s) (some d) dir p b =
        some (true, some { d with data := s.data }, p2)) := by
  have part1 := VfsRawCopyProgress_content
  refine ⟨?_, ?_⟩
  · intro s d dir p b out p2 hn h
    have ho := part1 s d dir p b out p2 hn h
    refine ⟨ho, ?_, ?_⟩
    · intro d2 hd2
      rw [ho] at hd2
      simp only [Option.some.injEq] at hd2
      subst hd2
      exact ⟨rfl, rfl⟩
    · intro hr hl root ctx hctx
      subst ho
      unfold IDeliveryCacheFileService.Read
      have hsz : IDeliveryCacheFileService.ReadSize s.GetSize 0 s.GetSize = s.GetSize := by
        unfold IDeliveryCacheFileService.ReadSize
        rw [Nat.sub_zero, Nat.add_mod_right, Nat.mod_eq_of_lt hn, Nat.min_self]
      have hrb : VfsFile.ReadBytes { d with data := s.data } s.GetSize 0 = s.data := by
        unfold VfsFile.ReadBytes VfsFile.Read
        simp only [hr, if_true, List.drop_zero]
        have hl2 : s.data.length ≤ d.io_limit := hl
        rw [List.take_of_length_le (l := s.data) hl2]
        exact List.take_of_length_le (le_refl _)
      simp only [Option.isNone_some, Bool.false_eq_true, if_false,
        HLERequestContext.GetWriteBufferSize, hctx]
      have hgs : VfsFile.GetSize { d with data := s.data } = s.GetSize := rfl
      rw [hgs, hsz, hrb]
      rfl
  · intro s d dir p b hb hn hsr hsl hdw hdr hdl
    have hres : (d.Resize s.GetSize).1 = true := by
      unfold VfsFile.Resize; simp [hdw, hdr]
    obtain ⟨_, _, hrz⟩ := Resize_ok d s.GetSize hres
    obtain ⟨d2, p1, hl⟩ := loop_total s b hb hn hsr hsl U64 0 (d.Resize s.GetSize).2
      (p.StartDownloadingFile dir s.GetName s.GetSize)
      (by
        have h1 : (s.GetSize - 0 + b - 1) / b ≤ s.GetSize - 0 + b - 1 := Nat.div_le_self _ _
        omega)
      (by rw [hrz]; exact hdw) (by rw [hrz]; exact hdl)
    have hfull : VfsRawCopyProgress (some s) (some d) dir p b =
        some (true, some d2, p1.FinishDownloadingFile) := by
      unfold VfsRawCopyProgress
      simp only [VfsFile.IsReadable, VfsFile.IsWritable, hsr, hdw, Bool.not_true, Bool.or_self,
        Bool.false_eq_true, if_false, hres, hl]
    refine ⟨p1.FinishDownloadingFile, ?_⟩
    rw [hfull, part1 s d dir p b (some d2) _ (by omega) hfull]

/-- C7, at a concrete input: a 5-byte source copied in blocks of 2 into a new file
returns true and leaves the 5 bytes in the destination. -/
theorem C7_copy_then_read_roundtrip_witness :
    ∃ p2, VfsRawCopyProgress
        (some { VfsFile.fresh (bytesOf "a.bin") with data := [1, 2, 3, 4, 5] })
        (some (VfsFile.fresh (bytesOf "a.bin"))) (bytesOf "dir1") idleTracker 2 =
      some (true, some { VfsFile.fresh (bytesOf "a.bin") with data := [1, 2, 3, 4, 5] }, p2) :=
  C7_copy_then_read_roundtrip.2 _ _ _ _ _ (by decide) (by decide) (by decide) (by decide)
    (by decide) (by decide) (by decide)

theorem offsetsFrom_zero (n b : Nat) :
    offsetsFrom n b 0 = (List.range ((n + b - 1) / b)).map (fun k => k * b) := by
  unfold offsetsFrom
  simp

theorem foldl_UpdateFileProgress_bytes (l : List Nat) (p : ProgressServiceBackend) :
    (l.foldl ProgressServiceBackend.UpdateFileProgress p).impl.current_downloaded_bytes =
      (l.getLast?).getD p.impl.current_downloaded_bytes := by
  induction l generalizing p with
  | nil => rfl
  | cons a l ih =>
    rw [List.foldl_cons, ih]
    cases l with
    | nil =>
      simp [ProgressServiceBackend.UpdateFileProgress, ProgressServiceBackend.SignalUpdate_impl]
    | cons c l =>
      rw [List.getLast?_cons_cons, List.getLast?_eq_getLast (c :: l) (List.cons_ne_nil _ _)]
      rfl

theorem foldl_UpdateFileProgress_event (l : List Nat) (p : ProgressServiceBackend) :
    (l.foldl ProgressServiceBackend.UpdateFileProgress p).event.length =
      p.event.length + l.length := by
  induction l generalizing p with
  | nil => rfl
  | cons a l ih =>
    rw [List.foldl_cons, ih]
    simp [ProgressServiceBackend.UpdateFileProgress, ProgressServiceBackend.SignalUpdate_event]
    omega

/-- C8: a successful `VfsRawCopyProgress` on a source of `n` bytes with blocks of
`b ≥ 1` bytes (`n + b ≤ 2 ^ 64`, so that the loop index does not wrap) leaves the
tracker that results from one `StartDownloadingFile(dir, name, n)`, then one
`UpdateFileProgress(k * b)` for each `k = 0, …, ⌈n / b⌉ - 1` in this order, then one
`FinishDownloadingFile`: `⌈n / b⌉ + 2` signals in all. For `n > 0` the last value
reported is `(⌈n / b⌉ - 1) * b`, the start of the last block and below `n`; for
`n = 0` there is no `UpdateFileProgress` at all. -/
theorem C8_copy_progress_calls (s d : VfsFile) (dir : Bytes) (p : ProgressServiceBackend)
    (b : Nat) (out : Option VfsFile) (p2 : ProgressServiceBackend)
    (hb : 1 ≤ b) (hn : s.GetSize + b ≤ U64)
    (h : VfsRawCopyProgress (some s) (some d) dir p b = some (true, out, p2)) :
    p2 = (((List.range ((s.GetSize + b - 1) / b)).map (fun k => k * b)).foldl
            ProgressServiceBackend.UpdateFileProgress
            (p.StartDownloadingFile dir s.GetName s.GetSize)).FinishDownloadingFile ∧
    p2.event.length = p.event.length + 1 + (s.GetSize + b - 1) / b + 1 ∧
    (0 < s.GetSize →
      ((List.range ((s.GetSize + b - 1) / b)).map (fun k => k * b)).getLast? =
        some (((s.GetSize + b - 1) / b - 1) * b) ∧
      ((s.GetSize + b - 1) / b - 1) * b < s.GetSize ∧
      p2.impl.current_downloaded_bytes = ((s.GetSize + b - 1) / b - 1) * b) ∧
    (s.GetSize = 0 →
      p2 = (p.StartDownloadingFile dir s.GetName s.GetSize).FinishDownloadingFile) := by
  obtain ⟨_, _, _, d2, p1, hl, _, hp⟩ := VfsRawCopyProgress_true s d dir p b out p2 h
  have hp1 := loop_progress s b hb hn U64 0 _ _ d2 p1 hl
  rw [offsetsFrom_zero] at hp1
  have heq : p2 = (((List.range ((s.GetSize + b - 1) / b)).map (fun k => k * b)).foldl
            ProgressServiceBackend.UpdateFileProgress
            (p.StartDownloadingFile dir s.GetName s.GetSize)).FinishDownloadingFile := by
    rw [hp, hp1]
  have hlast : 0 < s.GetSize →
      ((List.range ((s.GetSize + b - 1) / b)).map (fun k => k * b)).getLast? =
        some (((s.GetSize + b - 1) / b - 1) * b) := by
    intro hpos
    have hc : 1 ≤ (s.GetSize + b - 1) / b := by
      rw [Nat.le_div_iff_mul_le (by omega)]; omega
    obtain ⟨m, hm⟩ : ∃ m, (s.GetSize + b - 1) / b = m + 1 := ⟨_, (Nat.sub_add_cancel hc).symm⟩
    rw [hm, List.range_succ, List.map_append]
    simp
  refine ⟨heq, ?_, ?_, ?_⟩
  · rw [heq]
    simp only [ProgressServiceBackend.FinishDownloadingFile,
      ProgressServiceBackend.SignalUpdate_event, List.length_append, List.length_singleton,
      foldl_UpdateFileProgress_event, List.length_map, List.length_range]
    simp [ProgressServiceBackend.StartDownloadingFile, ProgressServiceBackend.SignalUpdate_event]
  · intro hpos
    refine ⟨hlast hpos, ?_, ?_⟩
    · have h1 : (s.GetSize + b - 1) / b * b ≤ s.GetSize + b - 1 := Nat.div_mul_le_self _ _
      have hc : 1 ≤ (s.GetSize + b - 1) / b := by
        rw [Nat.le_div_iff_mul_le (by omega)]; omega
      have h2 : ((s.GetSize + b - 1) / b - 1) * b + b = (s.GetSize + b - 1) / b * b := by
        rw [Nat.sub_mul, Nat.one_mul]
        exact Nat.sub_add_cancel (Nat.le_mul_of_pos_left b (by omega))
      omega
    · rw [heq]
      simp only [ProgressServiceBackend.FinishDownloadingFile,
        ProgressServiceBackend.SignalUpdate_impl, foldl_UpdateFileProgress_bytes, hlast hpos]
      rfl
  · intro h0
    rw [heq]
    have : (s.GetSize + b - 1) / b = 0 := by
      apply Nat.div_eq_of_lt; omega
    rw [this]
    rfl

/-- C8, at a concrete input: a source of 5 bytes copied in blocks of 2 succeeds
and reports the offsets 0, 2 and 4 between the start and the finish of the file, five
signals in all. -/
theorem C8_copy_progress_calls_witness :
    VfsRawCopyProgress
        (some { VfsFile.fresh (bytesOf "a.bin") with data := [1, 2, 3, 4, 5] })
        (some (VfsFile.fresh (bytesOf "a.bin"))) (bytesOf "dir1") idleTracker 2 =
      some (true, some { VfsFile.fresh (bytesOf "a.bin") with data := [1, 2, 3, 4, 5] },
        ((([0, 2, 4] : List Nat).foldl ProgressServiceBackend.UpdateFileProgress
          (idleTracker.StartDownloadingFile (bytesOf "dir1") (bytesOf "a.bin")
            5))).FinishDownloadingFile) ∧
    ((([0, 2, 4] : List Nat).foldl ProgressServiceBackend.UpdateFileProgress
          (idleTracker.StartDownloadingFile (bytesOf "dir1") (bytesOf "a.bin")
            5))).FinishDownloadingFile.event.length = 0 + 1 + (5 + 2 - 1) / 2 + 1 ∧
    ((([0, 2, 4] : List Nat).foldl ProgressServiceBackend.UpdateFileProgress
          (idleTracker.StartDownloadingFile (bytesOf "dir1") (bytesOf "a.bin")
            5))).FinishDownloadingFile.impl.current_downloaded_bytes = 4 :=
  have h : VfsRawCopyProgress
        (some { VfsFile.fresh (bytesOf "a.bin") with data := [1, 2, 3, 4, 5] })
        (some (VfsFile.fresh (bytesOf "a.bin"))) (bytesOf "dir1") idleTracker 2 =
      some (true, some { VfsFile.fresh (bytesOf "a.bin") with data := [1, 2, 3, 4, 5] },
        ((([0, 2, 4] : List Nat).foldl ProgressServiceBackend.UpdateFileProgress
          (idleTracker.StartDownloadingFile (bytesOf "dir1") (bytesOf "a.bin")
            5))).FinishDownloadingFile) := by decide
  ⟨h, (C8_copy_progress_calls _ _ _ _ _ _ _ (by decide) (by decide) h).2.1,
    ((C8_copy_progress_calls _ _ _ _ _ _ _ (by decide) (by decide) h).2.2.1 (by decide)).2.2⟩

/-! ## Directories: what creating a subdirectory and storing a handle back change -/

namespace VfsDir

theorem find_putDirIn_ne (s : VfsDir) (g : Bytes) (hg : s.GetName ≠ g) (l : List VfsDir) :
    (putDirIn s l).find? (fun x => x.GetName == g) = l.find? (fun x => x.GetName == g) := by
  induction l with
  | nil => rfl
  | cons a l ih =>
    unfold putDirIn
    by_cases ha : a.GetName = s.GetName
    · have hag : a.GetName ≠ g := by rw [ha]; exact hg
      simp [ha, List.find?_cons, hg, hag]
    · simp only [beq_iff_eq, ha, if_false, List.find?_cons, ih]

theorem find_putDirIn_eq (s : VfsDir) (l : List VfsDir)
    (h : (l.find? (fun x => x.GetName == s.GetName)).isSome = true) :
    (putDirIn s l).find? (fun x => x.GetName == s.GetName) = some s := by
  induction l with
  | nil => simp at h
  | cons a l ih =>
    unfold putDirIn
    by_cases ha : a.GetName = s.GetName
    · simp [ha, List.find?_cons]
    · have : (l.find? (fun x => x.GetName == s.GetName)).isSome = true := by
        simpa [List.find?_cons, ha] using h
      simp [ha, List.find?_cons, ih this]

theorem GetSubdirectory_PutSubdirectory_ne (d : VfsDir) (o : Option VfsDir) (g : Bytes)
    (h : ∀ s, o = some s → s.GetName ≠ g) :
    (d.PutSubdirectory o).GetSubdirectory g = d.GetSubdirectory g := by
  cases o with
  | none => rfl
  | some s =>
    unfold PutSubdirectory GetSubdirectory
    rw [GetSubdirectories_setSubdirs]
    exact find_putDirIn_ne s g (h s rfl) _

theorem GetSubdirectory_PutSubdirectory_eq (d s : VfsDir)
    (h : (d.GetSubdirectory s.GetName).isSome = true) :
    (d.PutSubdirectory (some s)).GetSubdirectory s.GetName = some s := by
  unfold PutSubdirectory GetSubdirectory
  rw [GetSubdirectories_setSubdirs]
  exact find_putDirIn_eq s _ h

theorem PutSubdirectory_frame (d : VfsDir) (o : Option VfsDir) :
    (d.PutSubdirectory o).GetFiles = d.GetFiles ∧
    (d.PutSubdirectory o).GetName = d.GetName ∧
    (d.PutSubdirectory o).IsWritable = d.IsWritable ∧
    (d.PutSubdirectory o).IsReadable = d.IsReadable := by
  cases o with
  | none => exact ⟨rfl, rfl, rfl, rfl⟩
  | some f =>
    unfold PutSubdirectory
    exact ⟨GetFiles_setSubdirs _ _, GetName_setSubdirs _ _, IsWritable_setSubdirs _ _,
      IsReadable_setSubdirs _ _⟩

theorem CreateSubdirectory_frame (d : VfsDir) (nm : Bytes) :
    (d.CreateSubdirectory nm).1.GetFiles = d.GetFiles ∧
    (d.CreateSubdirectory nm).1.GetName = d.GetName ∧
    (d.CreateSubdirectory nm).1.IsWritable = d.IsWritable ∧
    (d.CreateSubdirectory nm).1.IsReadable = d.IsReadable := by
  unfold CreateSubdirectory
  split
  · exact ⟨rfl, rfl, rfl, rfl⟩
  · split
    · exact ⟨GetFiles_setSubdirs _ _, GetName_setSubdirs _ _, IsWritable_setSubdirs _ _,
        IsReadable_setSubdirs _ _⟩
    · exact ⟨rfl, rfl, rfl, rfl⟩

theorem GetSubdirectory_CreateSubdirectory_ne (d : VfsDir) (nm g : Bytes) (h : nm ≠ g) :
    (d.CreateSubdirectory nm).1.GetSubdirectory g = d.GetSubdirectory g := by
  unfold CreateSubdirectory
  split
  · rfl
  · split
    · unfold GetSubdirectory
      rw [GetSubdirectories_setSubdirs, List.find?_append]
      have : List.find? (fun s => s.GetName == g) [VfsDir.fresh nm] = none := by
        simp [List.find?_cons, VfsDir.fresh, GetName, h]
      rw [this]; simp
    · rfl

theorem CreateSubdirectory_handle (d : VfsDir) (nm : Bytes) :
    ((d.CreateSubdirectory nm).2 = none ∧ (d.CreateSubdirectory nm).1 = d ∧
      d.GetSubdirectory nm = none ∧ d.IsWritable = false) ∨
    ∃ s, (d.CreateSubdirectory nm).2 = some s ∧ s.GetName = nm ∧
      (d.CreateSubdirectory nm).1.GetSubdirectory nm = some s ∧
      (d.GetSubdirectory nm = some s ∨ (d.GetSubdirectory nm = none ∧ s = VfsDir.fresh nm)) := by
  unfold CreateSubdirectory
  split
  · rename_i s hs
    right
    refine ⟨s, rfl, ?_, hs, Or.inl hs⟩
    unfold GetSubdirectory at hs
    have := List.find?_some hs
    simpa using this
  · rename_i hs
    split
    · right
      refine ⟨VfsDir.fresh nm, rfl, rfl, ?_, Or.inr ⟨hs, rfl⟩⟩
      unfold GetSubdirectory at hs ⊢
      rw [GetSubdirectories_setSubdirs, List.find?_append, hs]
      simp [List.find?_cons, VfsDir.fresh, GetName]
    · rename_i hw
      left; exact ⟨rfl, rfl, hs, by simpa using hw⟩

end VfsDir

/-! ## Merging a tree -/

theorem VfsRawCopyDProgressSingle_null_dest (src : Option VfsDir)
    (p : ProgressServiceBackend) (b : Nat) :
    VfsRawCopyDProgressSingle src none p b = some (false, none, p) := by
  unfold VfsRawCopyDProgressSingle
  cases src <;> rfl

/-- Whatever `VfsRawCopyDProgressSingle` returns: a null destination stays null; a
destination directory keeps its name, its subdirectories and every file not named in
the source; the signals sent are `Downloading` ones, followed by one `Committing`
exactly when the result is true. -/
theorem VfsRawCopyDProgressSingle_frame (s : VfsDir) (dest : Option VfsDir)
    (p : ProgressServiceBackend) (b : Nat) (ok : Bool) (out : Option VfsDir)
    (p2 : ProgressServiceBackend)
    (h : VfsRawCopyDProgressSingle (some s) dest p b = some (ok, out, p2)) :
    (dest = none → out = none) ∧
    (∀ d, dest = some d → ∃ d2, out = some d2 ∧ d2.GetName = d.GetName ∧
      d2.GetSubdirectories = d.GetSubdirectories ∧
      (∀ g, g ∉ s.GetFiles.map VfsFile.name → d2.GetFile g = d.GetFile g)) ∧
    (∃ k, Emits p p2
      (List.replicate k .Downloading ++ if ok then [Status.Committing] else [])) := by
  cases dest with
  | none =>
    rw [VfsRawCopyDProgressSingle_null_dest] at h
    simp only [Option.some.injEq, Prod.mk.injEq] at h
    obtain ⟨h1, h2, h3⟩ := h
    subst h1; subst h2; subst h3
    exact ⟨fun _ => rfl, fun d hd => by simp at hd, 0, Emits.refl _⟩
  | some d =>
    unfold VfsRawCopyDProgressSingle at h
    simp only [] at h
    split at h
    · simp only [Option.some.injEq, Prod.mk.injEq] at h
      obtain ⟨h1, h2, h3⟩ := h
      subst h1; subst h2; subst h3
      refine ⟨by simp, fun d' hd => ⟨d, rfl, ?_⟩, 0, Emits.refl _⟩
      simp only [Option.some.injEq] at hd
      subst hd
      exact ⟨rfl, rfl, fun _ _ => rfl⟩
    · split at h
      · simp at h
      · rename_i d1 p1 hl
        simp only [Option.some.injEq, Prod.mk.injEq] at h
        obtain ⟨h1, h2, h3⟩ := h
        subst h1; subst h2; subst h3
        obtain ⟨a1, a2, a3, _, _, k, a6⟩ := single_loop_frame _ _ _ _ _ _ _ _ hl
        refine ⟨by simp, fun d' hd => ⟨d1, rfl, ?_⟩, k, by simpa using a6⟩
        simp only [Option.some.injEq] at hd
        subst hd
        exact ⟨a3, a2, a1⟩
      · rename_i d1 p1 hl
        simp only [Option.some.injEq, Prod.mk.injEq] at h
        obtain ⟨h1, h2, h3⟩ := h
        subst h1; subst h2; subst h3
        obtain ⟨a1, a2, a3, _, _, k, a6⟩ := single_loop_frame _ _ _ _ _ _ _ _ hl
        refine ⟨by simp, fun d' hd => ⟨d1, rfl, ?_⟩, k, ?_⟩
        · simp only [Option.some.injEq] at hd
          subst hd
          exact ⟨a3, a2, a1⟩
        · simp only [if_true]
          exact Emits.trans a6 (Emits_CommitDirectory p1 _)

/-- One round of the subdirectory loop: `sd` is created in `dest` and merged. -/
theorem merge_one_frame (sd : VfsDir) (dest : VfsDir) (p : ProgressServiceBackend)
    (b : Nat) (ok : Bool) (out : Option VfsDir) (p1 : ProgressServiceBackend)
    (h : VfsRawCopyDProgressSingle (some sd) (dest.CreateSubdirectory sd.GetName).2 p b =
      some (ok, out, p1)) :
    ((dest.CreateSubdirectory sd.GetName).1.PutSubdirectory out).GetFiles = dest.GetFiles ∧
    ((dest.CreateSubdirectory sd.GetName).1.PutSubdirectory out).GetName = dest.GetName ∧
    ((dest.CreateSubdirectory sd.GetName).1.PutSubdirectory out).IsWritable =
      dest.IsWritable ∧
    ((dest.CreateSubdirectory sd.GetName).1.PutSubdirectory out).IsReadable =
      dest.IsReadable ∧
    (∀ nm, sd.GetName ≠ nm →
      ((dest.CreateSubdirectory sd.GetName).1.PutSubdirectory out).GetSubdirectory nm =
        dest.GetSubdirectory nm) ∧
    (∀ nm g, (sd.GetName = nm → g ∉ sd.GetFiles.map VfsFile.name) →
      ((dest.CreateSubdirectory sd.GetName).1.PutSubdirectory out).lookup nm g =
        dest.lookup nm g) ∧
    (∃ k, Emits p p1
      (List.replicate k .Downloading ++ if ok then [Status.Committing] else [])) := by
  obtain ⟨hnone, hsome, hem⟩ := VfsRawCopyDProgressSingle_frame _ _ _ _ _ _ _ h
  obtain ⟨c1, c2, c3, c4⟩ := VfsDir.CreateSubdirectory_frame dest sd.GetName
  obtain ⟨q1, q2, q3, q4⟩ :=
    VfsDir.PutSubdirectory_frame (dest.CreateSubdirectory sd.GetName).1 out
  have hout : ∀ x, out = some x → x.GetName = sd.GetName := by
    intro x hx
    rcases VfsDir.CreateSubdirectory_handle dest sd.GetName with ⟨hc, _⟩ | ⟨d, hc, hdn, _, _⟩
    · rw [hnone hc] at hx; simp at hx
    · obtain ⟨d2, hd2, hname, _⟩ := hsome d hc
      rw [hd2] at hx
      simp only [Option.some.injEq] at hx
      rw [← hx, hname, hdn]
  have hne : ∀ nm, sd.GetName ≠ nm →
      ((dest.CreateSubdirectory sd.GetName).1.PutSubdirectory out).GetSubdirectory nm =
        dest.GetSubdirectory nm := by
    intro nm hnm
    rw [VfsDir.GetSubdirectory_PutSubdirectory_ne _ _ _ (fun x hx => by rw [hout x hx]; exact hnm),
      VfsDir.GetSubdirectory_CreateSubdirectory_ne _ _ _ hnm]
  refine ⟨q1.trans c1, q2.trans c2, q3.trans c3, q4.trans c4, hne, ?_, hem⟩
  intro nm g hg
  by_cases hnm : sd.GetName = nm
  · subst hnm
    have hg' := hg rfl
    rcases VfsDir.CreateSubdirectory_handle dest sd.GetName with
      ⟨hc, hd, _, _⟩ | ⟨s0, hc, hdn, hget, hold⟩
    · rw [hnone hc, hd]; rfl
    · obtain ⟨s2, hs2, hname, _, hfiles⟩ := hsome s0 hc
      have e1 : ((dest.CreateSubdirectory sd.GetName).1.PutSubdirectory out).GetSubdirectory
          sd.GetName = some s2 := by
        rw [hs2]
        have hn2 : s2.GetName = sd.GetName := hname.trans hdn
        rw [← hn2]
        apply VfsDir.GetSubdirectory_PutSubdirectory_eq
        rw [hn2, hget]; rfl
      unfold VfsDir.lookup
      rw [e1]
      show s2.GetFile g = (dest.GetSubdirectory sd.GetName).bind (fun s => s.GetFile g)
      rw [hfiles g hg']
      rcases hold with ho | ⟨ho, hfresh⟩
      · rw [ho]; rfl
      · rw [ho, hfresh]; rfl
  · unfold VfsDir.lookup
    rw [hne nm hnm]

theorem tree_loop_cons (b : Nat) (sd : VfsDir) (rest : List VfsDir) (dest : VfsDir)
    (p : ProgressServiceBackend) :
    VfsRawCopyDProgress.loop b (sd :: rest) dest p =
      match VfsRawCopyDProgressSingle (some sd) (dest.CreateSubdirectory sd.GetName).2 p b with
      | none => none
      | some (false, out, p1) =>
        some (false, (dest.CreateSubdirectory sd.GetName).1.PutSubdirectory out, p1)
      | some (true, out, p1) =>
        VfsRawCopyDProgress.loop b rest
          ((dest.CreateSubdirectory sd.GetName).1.PutSubdirectory out) p1 := by
  rw [VfsRawCopyDProgress.loop]

/-- The subdirectory loop run over `pre ++ rest` is the loop over `pre`, continued
over `rest` if and only if `pre` was merged without failure. -/
theorem tree_loop_append (b : Nat) (pre rest : List VfsDir) :
    ∀ (dest : VfsDir) (p : ProgressServiceBackend),
      VfsRawCopyDProgress.loop b (pre ++ rest) dest p =
        match VfsRawCopyDProgress.loop b pre dest p with
        | none => none
        | some (false, d1, p1) => some (false, d1, p1)
        | some (true, d1, p1) => VfsRawCopyDProgress.loop b rest d1 p1 := by
  induction pre with
  | nil => intro dest p; simp [VfsRawCopyDProgress.loop]
  | cons f pre ih =>
    intro dest p
    rw [List.cons_append, tree_loop_cons, tree_loop_cons]
    cases hc : VfsRawCopyDProgressSingle (some f) (dest.CreateSubdirectory f.GetName).2 p b with
    | none => rfl
    | some r =>
      obtain ⟨ok, out, p1⟩ := r
      cases ok with
      | false => rfl
      | true => exact ih _ _

/-- What the subdirectory loop leaves: the files of the root, its name and flags,
every subdirectory not named in the list and every file not named in a listed
subdirectory of its name are as before; the signals sent have the status
`Downloading` or `Committing`. -/
theorem tree_loop_frame (b : Nat) (dirs : List VfsDir) :
    ∀ (dest : VfsDir) (p : ProgressServiceBackend) (ok : Bool) (d1 : VfsDir)
      (p1 : ProgressServiceBackend),
      VfsRawCopyDProgress.loop b dirs dest p = some (ok, d1, p1) →
      d1.GetFiles = dest.GetFiles ∧ d1.GetName = dest.GetName ∧
      d1.IsWritable = dest.IsWritable ∧ d1.IsReadable = dest.IsReadable ∧
      (∀ nm, nm ∉ dirs.map VfsDir.GetName → d1.GetSubdirectory nm = dest.GetSubdirectory nm) ∧
      (∀ nm g, (∀ sd ∈ dirs, sd.GetName = nm → g ∉ sd.GetFiles.map VfsFile.name) →
        d1.lookup nm g = dest.lookup nm g) ∧
      (∃ l, Emits p p1 l ∧ ∀ x ∈ l, x = Status.Downloading ∨ x = Status.Committing) := by
  induction dirs with
  | nil =>
    intro dest p ok d1 p1 h
    simp only [VfsRawCopyDProgress.loop, Option.some.injEq, Prod.mk.injEq] at h
    obtain ⟨_, h2, h3⟩ := h
    subst h2; subst h3
    exact ⟨rfl, rfl, rfl, rfl, fun _ _ => rfl, fun _ _ _ => rfl, [], Emits.refl _, by simp⟩
  | cons sd rest ih =>
    intro dest p ok d1 p1 h
    rw [tree_loop_cons] at h
    cases hc : VfsRawCopyDProgressSingle (some sd) (dest.CreateSubdirectory sd.GetName).2 p b with
    | none => rw [hc] at h; simp at h
    | some r =>
      obtain ⟨ok1, out, pm⟩ := r
      obtain ⟨a1, a2, a3, a4, a5, a6, ⟨k, a7⟩⟩ := merge_one_frame sd dest p b ok1 out pm hc
      have hmem : ∀ x ∈ (List.replicate k Status.Downloading ++
          if ok1 then [Status.Committing] else []),
          x = Status.Downloading ∨ x = Status.Committing := by
        intro x hx
        rcases List.mem_append.1 hx with hx | hx
        · exact Or.inl (List.eq_of_mem_replicate hx)
        · cases ok1 <;> simp at hx
          exact Or.inr hx
      rw [hc] at h
      cases ok1 with
      | false =>
        simp only [Option.some.injEq, Prod.mk.injEq] at h
        obtain ⟨_, h2, h3⟩ := h
        subst h2; subst h3
        refine ⟨a1, a2, a3, a4, fun nm hnm => a5 nm ?_, fun nm g hg => a6 nm g ?_, _, a7, hmem⟩
        · intro he; apply hnm; simp [he]
        · exact hg sd (List.mem_cons_self _ _)
      | true =>
        simp only [] at h
        obtain ⟨b1, b2, b3, b4, b5, b6, l2, b7, b8⟩ := ih _ _ _ _ _ h
        refine ⟨b1.trans a1, b2.trans a2, b3.trans a3, b4.trans a4, fun nm hnm => ?_,
          fun nm g hg => ?_, _, Emits.trans a7 b7, ?_⟩
        · rw [b5 nm (fun hm => hnm (by simp only [List.map_cons, List.mem_cons]; exact Or.inr hm)),
            a5 nm (fun he => hnm (by simp [he]))]
        · rw [b6 nm g (fun sd' hsd' => hg sd' (List.mem_cons_of_mem _ hsd')),
            a6 nm g (hg sd (List.mem_cons_self _ _))]
        · intro x hx
          rcases List.mem_append.1 hx with hx | hx
          · exact hmem x hx
          · exact b8 x hx

/-! ## The merge returns -/

theorem loop_returns (src : VfsFile) (b : Nat) (hb : 1 ≤ b) (hn : src.GetSize + b ≤ U64) :
    ∀ (fuel i : Nat) (dest : VfsFile) (p : ProgressServiceBackend),
      (src.GetSize - i + b - 1) / b < fuel →
      ∃ r, VfsRawCopyProgress.loop src b fuel i dest p = some r := by
  intro fuel
  induction fuel with
  | zero => intro i dest p h; exact absurd h (Nat.not_lt_zero _)
  | succ fuel ih =>
    intro i dest p hf
    by_cases hi : i < src.GetSize
    · have hlen : (offsetsFrom src.GetSize b i).length =
          (offsetsFrom src.GetSize b (i + b)).length + 1 := by
        rw [offsetsFrom_step _ _ _ hb hi]; rfl
      simp only [offsetsFrom, List.length_map, List.length_range] at hlen
      rw [VfsRawCopyProgress.loop]
      simp only [hi, if_true]
      split
      · exact ⟨_, rfl⟩
      · split
        · exact ⟨_, rfl⟩
        · rw [Nat.mod_eq_of_lt (by omega)]
          exact ih _ _ _ (by omega)
    · exact ⟨_, loop_exit src b fuel i dest p hi⟩

theorem VfsRawCopyProgress_returns (src dest : Option VfsFile) (dir : Bytes)
    (p : ProgressServiceBackend) (b : Nat) (hb : 1 ≤ b)
    (hn : ∀ s, src = some s → s.GetSize + b ≤ U64) :
    ∃ r, VfsRawCopyProgress src dest dir p b = some r := by
  unfold VfsRawCopyProgress
  split
  · rename_i s d
    simp only []
    split
    · exact ⟨_, rfl⟩
    · split
      · exact ⟨_, rfl⟩
      · have hs := hn s rfl
        obtain ⟨r, hr⟩ := loop_returns s b hb hs U64 0 (d.Resize s.GetSize).2
          (p.StartDownloadingFile dir s.GetName s.GetSize) (by
            have h1 : (s.GetSize - 0 + b - 1) / b ≤ s.GetSize - 0 + b - 1 := Nat.div_le_self _ _
            omega)
        rw [hr]
        obtain ⟨ok, d2, p2⟩ := r
        cases ok
        · exact ⟨_, rfl⟩
        · exact ⟨_, rfl⟩
  · exact ⟨_, rfl⟩

theorem single_loop_returns (nm : Bytes) (b : Nat) (hb : 1 ≤ b) (files : List VfsFile)
    (hn : ∀ f ∈ files, f.GetSize + b ≤ U64) :
    ∀ (dest : VfsDir) (p : ProgressServiceBackend),
      ∃ r, VfsRawCopyDProgressSingle.loop nm b files dest p = some r := by
  induction files with
  | nil => intro dest p; exact ⟨_, rfl⟩
  | cons f rest ih =>
    intro dest p
    rw [single_loop_cons]
    obtain ⟨r, hr⟩ := VfsRawCopyProgress_returns (some f) (VfsCreateFileWrap dest f.GetName).2
      nm p b hb (fun s hs => by
        simp only [Option.some.injEq] at hs
        subst hs
        exact hn _ (List.mem_cons_self _ _))
    rw [hr]
    obtain ⟨ok, out, p1⟩ := r
    cases ok
    · exact ⟨_, rfl⟩
    · exact ih (fun f' hf' => hn f' (List.mem_cons_of_mem _ hf')) _ _

theorem VfsRawCopyDProgressSingle_returns (src dest : Option VfsDir)
    (p : ProgressServiceBackend) (b : Nat) (hb : 1 ≤ b)
    (hn : ∀ s, src = some s → ∀ f ∈ s.GetFiles, f.GetSize + b ≤ U64) :
    ∃ r, VfsRawCopyDProgressSingle src dest p b = some r := by
  unfold VfsRawCopyDProgressSingle
  split
  · rename_i s d
    split
    · exact ⟨_, rfl⟩
    · obtain ⟨r, hr⟩ := single_loop_returns s.GetName b hb s.GetFiles (hn s rfl) d p
      rw [hr]
      obtain ⟨ok, d2, p2⟩ := r
      cases ok
      · exact ⟨_, rfl⟩
      · exact ⟨_, rfl⟩
  · exact ⟨_, rfl⟩

theorem tree_loop_returns (b : Nat) (hb : 1 ≤ b) (dirs : List VfsDir)
    (hn : ∀ sd ∈ dirs, ∀ f ∈ sd.GetFiles, f.GetSize + b ≤ U64) :
    ∀ (dest : VfsDir) (p : ProgressServiceBackend),
      ∃ r, VfsRawCopyDProgress.loop b dirs dest p = some r := by
  induction dirs with
  | nil => intro dest p; exact ⟨_, rfl⟩
  | cons sd rest ih =>
    intro dest p
    rw [tree_loop_cons]
    obtain ⟨r, hr⟩ := VfsRawCopyDProgressSingle_returns (some sd)
      (dest.CreateSubdirectory sd.GetName).2 p b hb (fun s hs => by
        simp only [Option.some.injEq] at hs
        subst hs
        exact hn _ (List.mem_cons_self _ _))
    rw [hr]
    obtain ⟨ok, out, p1⟩ := r
    cases ok
    · exact ⟨_, rfl⟩
    · exact ih (fun f' hf' => hn f' (List.mem_cons_of_mem _ hf')) _ _

theorem VfsRawCopyDProgress_returns (src dest : Option VfsDir)
    (p : ProgressServiceBackend) (b : Nat) (hb : 1 ≤ b)
    (hn : ∀ s, src = some s → ∀ sd ∈ s.GetSubdirectories, ∀ f ∈ sd.GetFiles,
      f.GetSize + b ≤ U64) :
    ∃ r, VfsRawCopyDProgress src dest p b = some r := by
  unfold VfsRawCopyDProgress
  split
  · rename_i s d
    split
    · exact ⟨_, rfl⟩
    · obtain ⟨r, hr⟩ := tree_loop_returns b hb s.GetSubdirectories (hn s rfl) d p
      rw [hr]
      obtain ⟨ok, d2, p2⟩ := r
      exact ⟨_, rfl⟩
  · exact ⟨_, rfl⟩

theorem VfsRawCopyDProgress_some (src dest : VfsDir) (p : ProgressServiceBackend) (b : Nat)
    (ok : Bool) (out : Option VfsDir) (p2 : ProgressServiceBackend)
    (h : VfsRawCopyDProgress (some src) (some dest) p b = some (ok, out, p2)) :
    (out = some dest ∧ p2 = p ∧ ok = false) ∨
    ∃ d1, out = some d1 ∧
      VfsRawCopyDProgress.loop b src.GetSubdirectories dest p = some (ok, d1, p2) := by
  unfold VfsRawCopyDProgress at h
  simp only [] at h
  split at h
  · simp only [Option.some.injEq, Prod.mk.injEq] at h
    exact Or.inl ⟨h.2.1.symm, h.2.2.symm, h.1.symm⟩
  · split at h
    · simp at h
    · rename_i ok1 d1 p1 hl
      simp only [Option.some.injEq, Prod.mk.injEq] at h
      obtain ⟨h1, h2, h3⟩ := h
      subst h1; subst h2; subst h3
      exact Or.inr ⟨d1, rfl, hl⟩

theorem VfsRawCopyDProgressSingle_of_loop (src dest : VfsDir) (p : ProgressServiceBackend)
    (b : Nat) (hr : src.IsReadable = true) (hw : dest.IsWritable = true) :
    VfsRawCopyDProgressSingle (some src) (some dest) p b =
      match VfsRawCopyDProgressSingle.loop src.GetName b src.GetFiles dest p with
      | none => none
      | some (false, d1, p1) => some (false, some d1, p1)
      | some (true, d1, p1) => some (true, some d1, p1.CommitDirectory src.GetName) := by
  unfold VfsRawCopyDProgressSingle
  simp only [hr, hw, Bool.not_true, Bool.or_self, Bool.false_eq_true, if_false]

theorem VfsRawCopyDProgress_of_loop (src dest : VfsDir) (p : ProgressServiceBackend)
    (b : Nat) (hr : src.IsReadable = true) (hw : dest.IsWritable = true) :
    VfsRawCopyDProgress (some src) (some dest) p b =
      match VfsRawCopyDProgress.loop b src.GetSubdirectories dest p with
      | none => none
      | some (ok, d1, p1) => some (ok, some d1, p1) := by
  unfold VfsRawCopyDProgress
  simp only [hr, hw, Bool.not_true, Bool.or_self, Bool.false_eq_true, if_false]

/-- C9: (1) in `VfsRawCopyDProgressSingle`, when the files `pre` have been copied
and the copy of the next file `f` returns false, the merge returns false with the
destination and the tracker exactly as that copy left them, whatever files `post`
follow; the signals sent are all `Downloading` ones, none from `CommitDirectory`;
every file not named in `pre` or by `f` is as before; and each file of `pre` (names
distinct, sizes below `2 ^ 64`) is in the destination with the source's bytes.
(2) In `VfsRawCopyDProgress`, when the subdirectories `dpre` have been merged and the
merge of the next one returns false, the whole merge returns false with the root and
the tracker exactly as that merge left them, whatever subdirectories `dpost` follow,
and every subdirectory not named in `dpre` or by the failing one is as before (none
is created), and every subdirectory but the failing one is as the merges before left
it. -/
theorem C9_copy_failure_aborts_merge :
    (∀ (src dest : VfsDir) (p : ProgressServiceBackend) (b : Nat)
        (pre post : List VfsFile) (f : VfsFile) (d1 : VfsDir) (p1 : ProgressServiceBackend)
        (out : Option VfsFile) (pf : ProgressServiceBackend),
      src.IsReadable = true → dest.IsWritable = true →
      src.GetFiles = pre ++ f :: post →
      VfsRawCopyDProgressSingle.loop src.GetName b pre dest p = some (true, d1, p1) →
      VfsRawCopyProgress (some f) (VfsCreateFileWrap d1 f.GetName).2 src.GetName p1 b =
        some (false, out, pf) →
      VfsRawCopyDProgressSingle (some src) (some dest) p b =
        some (false, some ((VfsCreateFileWrap d1 f.GetName).1.PutFile out), pf) ∧
      (∃ k, Emits p pf (List.replicate k .Downloading)) ∧
      (∀ g, g ∉ (pre ++ [f]).map VfsFile.name →
        ((VfsCreateFileWrap d1 f.GetName).1.PutFile out).GetFile g = dest.GetFile g) ∧
      (((pre ++ [f]).map VfsFile.name).Nodup → (∀ g ∈ pre, g.GetSize < U64) →
        ∀ g ∈ pre, ∃ x,
          ((VfsCreateFileWrap d1 f.GetName).1.PutFile out).GetFile g.name = some x ∧
            x.data = g.data)) ∧
    (∀ (src dest : VfsDir) (p : ProgressServiceBackend) (b : Nat)
        (dpre dpost : List VfsDir) (sd : VfsDir) (d1 : VfsDir) (p1 : ProgressServiceBackend)
        (out : Option VfsDir) (pf : ProgressServiceBackend),
      src.IsReadable = true → dest.IsWritable = true →
      src.GetSubdirectories = dpre ++ sd :: dpost →
      VfsRawCopyDProgress.loop b dpre dest p = some (true, d1, p1) →
      VfsRawCopyDProgressSingle (some sd) (d1.CreateSubdirectory sd.GetName).2 p1 b =
        some (false, out, pf) →
      VfsRawCopyDProgress (some src) (some dest) p b =
        some (false, some ((d1.CreateSubdirectory sd.GetName).1.PutSubdirectory out), pf) ∧
      (∀ nm, nm ∉ (dpre ++ [sd]).map VfsDir.GetName →
        ((d1.CreateSubdirectory sd.GetName).1.PutSubdirectory out).GetSubdirectory nm =
          dest.GetSubdirectory nm) ∧
      (∀ nm, sd.GetName ≠ nm →
        ((d1.CreateSubdirectory sd.GetName).1.PutSubdirectory out).GetSubdirectory nm =
          d1.GetSubdirectory nm)) := by
  refine ⟨?_, ?_⟩
  · intro src dest p b pre post f d1 p1 out pf hr hw hfiles hpre hfail
    have hloop : ∀ rest, VfsRawCopyDProgressSingle.loop src.GetName b (pre ++ f :: rest) dest p =
        some (false, (VfsCreateFileWrap d1 f.GetName).1.PutFile out, pf) := by
      intro rest
      rw [single_loop_append, hpre]
      simp only []
      rw [single_loop_cons, hfail]
    obtain ⟨a1, _, _, _, _, ⟨k1, a6⟩⟩ := single_loop_frame _ _ _ _ _ _ _ _ hpre
    obtain ⟨c1, _, _, _, _, ⟨k2, c6⟩, _⟩ := copy_one_frame f d1 src.GetName p1 b false out pf hfail
    refine ⟨?_, ⟨k1 + k2, ?_⟩, ?_, ?_⟩
    · rw [VfsRawCopyDProgressSingle_of_loop src dest p b hr hw, hfiles, hloop post]
    · rw [List.replicate_add]; exact Emits.trans a6 c6
    · intro g hg
      simp only [List.map_append, List.map_cons, List.map_nil, List.mem_append,
        List.mem_singleton, not_or] at hg
      rw [c1 g (fun h => hg.2 h.symm), a1 g hg.1]
    · intro hnd hsz g hg
      rw [List.map_append, List.nodup_append] at hnd
      obtain ⟨hnd1, _, hdisj⟩ := hnd
      obtain ⟨x, hx, hxd⟩ := single_loop_content _ _ _ _ _ _ _ hpre hnd1 hsz g hg
      refine ⟨x, ?_, hxd⟩
      have hne : f.name ≠ g.name := by
        intro he
        exact hdisj (List.mem_map_of_mem _ hg) (by simp [he])
      rw [c1 g.name hne, hx]
  · intro src dest p b dpre dpost sd d1 p1 out pf hr hw hdirs hpre hfail
    have hloop : ∀ rest, VfsRawCopyDProgress.loop b (dpre ++ sd :: rest) dest p =
        some (false, (d1.CreateSubdirectory sd.GetName).1.PutSubdirectory out, pf) := by
      intro rest
      rw [tree_loop_append, hpre]
      simp only []
      rw [tree_loop_cons, hfail]
    obtain ⟨_, _, _, _, a5, _, _⟩ := tree_loop_frame _ _ _ _ _ _ _ hpre
    obtain ⟨_, _, _, _, c5, _, _⟩ := merge_one_frame sd d1 p1 b false out pf hfail
    refine ⟨?_, ?_, c5⟩
    · rw [VfsRawCopyDProgress_of_loop src dest p b hr hw, hdirs, hloop dpost]
    · intro nm hnm
      simp only [List.map_append, List.map_cons, List.map_nil, List.mem_append,
        List.mem_singleton, not_or] at hnm
      rw [c5 nm (fun h => hnm.2 h.symm), a5 nm hnm.1]

/-- C9, at a concrete input: merging `sampleFailingDir` into an empty directory
returns false; `a` is there with its bytes, `bad` was created and left empty, `c` was
not created, and the three signals sent are `Downloading` ones. -/
theorem C9_copy_failure_aborts_merge_witness :
    (VfsRawCopyDProgressSingle (some sampleFailingDir) (some (VfsDir.fresh (bytesOf "d1")))
        idleTracker 2).map
      (fun r => (r.1, r.2.1.map (fun d => d.GetFiles.map (fun f => (f.name, f.data))),
        r.2.2.event.map (fun e => e.seen.status))) =
    some (false, some [(bytesOf "a", [1, 2]), (bytesOf "bad", [])],
      [.Downloading, .Downloading, .Downloading]) := by
  have h := (C9_copy_failure_aborts_merge.1 sampleFailingDir (VfsDir.fresh (bytesOf "d1"))
    idleTracker 2 [{ VfsFile.fresh (bytesOf "a") with data := [1, 2] }]
    [{ VfsFile.fresh (bytesOf "c") with data := [3] }]
    { VfsFile.fresh (bytesOf "bad") with data := [8], readable := false }
    _ _ _ _ rfl rfl rfl rfl rfl).1
  rw [h]
  rfl

/-- C10: whatever a whole-title merge returns, the destination root afterwards has
its own files as before, every subdirectory whose name is not a source subdirectory as
before, and every file as before unless a source subdirectory of its directory's name
lists its name: a lookup of such a directory or file gives what it gave before the
merge. With a block size of at least 1 and `size + b ≤ 2 ^ 64` for the source files the
merge does return. -/
theorem C10_merge_leaves_unnamed_content :
    (∀ (src dest : VfsDir) (p : ProgressServiceBackend) (b : Nat) (ok : Bool)
        (out : Option VfsDir) (p2 : ProgressServiceBackend),
      VfsRawCopyDProgress (some src) (some dest) p b = some (ok, out, p2) →
      ∃ d1, out = some d1 ∧ d1.GetFiles = dest.GetFiles ∧
        (∀ nm, nm ∉ src.GetSubdirectories.map VfsDir.GetName →
          d1.GetSubdirectory nm = dest.GetSubdirectory nm) ∧
        (∀ nm g,
          (∀ sd ∈ src.GetSubdirectories, sd.GetName = nm → g ∉ sd.GetFiles.map VfsFile.name) →
          d1.lookup nm g = dest.lookup nm g)) ∧
    (∀ (src dest : VfsDir) (p : ProgressServiceBackend) (b : Nat),
      1 ≤ b →
      (∀ sd ∈ src.GetSubdirectories, ∀ f ∈ sd.GetFiles, f.GetSize + b ≤ U64) →
      ∃ r, VfsRawCopyDProgress (some src) (some dest) p b = some r) := by
  refine ⟨?_, ?_⟩
  · intro src dest p b ok out p2 h
    rcases VfsRawCopyDProgress_some src dest p b ok out p2 h with ⟨h1, _, _⟩ | ⟨d1, h1, hl⟩
    · exact ⟨dest, h1, rfl, fun _ _ => rfl, fun _ _ _ => rfl⟩
    · obtain ⟨a1, _, _, _, a5, a6, _⟩ := tree_loop_frame b _ _ _ _ _ _ hl
      exact ⟨d1, h1, a1, a5, a6⟩
  · intro src dest p b hb hn
    exact VfsRawCopyDProgress_returns (some src) (some dest) p b hb (fun s hs => by
      simp only [Option.some.injEq] at hs
      subst hs
      exact hn)

/-- C10, at a concrete input: merging `sampleSource` into `sampleDest` returns;
afterwards `d1/keep` and `d2/z` are the files they were, and `d1/a` holds the source's
bytes. -/
theorem C10_merge_leaves_unnamed_content_witness :
    ∃ ok out p2, VfsRawCopyDProgress (some sampleSource) (some sampleDest) idleTracker 2 =
        some (ok, out, p2) ∧
      ∃ d1, out = some d1 ∧
        d1.lookup (bytesOf "d1") (bytesOf "keep") =
          some { VfsFile.fresh (bytesOf "keep") with data := [7] } ∧
        d1.lookup (bytesOf "d2") (bytesOf "z") =
          some { VfsFile.fresh (bytesOf "z") with data := [5] } ∧
        (VfsRawCopyDProgress (some sampleSource) (some sampleDest) idleTracker 2).map
          (fun r => (r.1, r.2.1.bind (fun d => d.lookup (bytesOf "d1") (bytesOf "a")))) =
          some (true, some { VfsFile.fresh (bytesOf "a") with data := [1, 2] }) := by
  obtain ⟨⟨ok, out, p2⟩, hr⟩ := C10_merge_leaves_unnamed_content.2 sampleSource sampleDest
    idleTracker 2 (by decide) (by decide)
  obtain ⟨d1, ho, _, _, hfile⟩ :=
    C10_merge_leaves_unnamed_content.1 sampleSource sampleDest idleTracker 2 ok out p2 hr
  refine ⟨ok, out, p2, hr, d1, ho, ?_, ?_, by decide⟩
  · rw [hfile _ _ (by decide)]; decide
  · rw [hfile _ _ (by decide)]; decide

/-! ## The statuses of one synchronization run -/

theorem StartConnecting_status (p : ProgressServiceBackend) :
    p.StartConnecting.impl.status = .Connecting := by
  simp [ProgressServiceBackend.StartConnecting, ProgressServiceBackend.SignalUpdate_impl]

theorem StartProcessingDataList_status (p : ProgressServiceBackend) :
    p.StartProcessingDataList.impl.status = .ProcessingDataList := by
  simp [ProgressServiceBackend.StartProcessingDataList,
    ProgressServiceBackend.SignalUpdate_impl]

theorem VfsRawCopyDProgress_emits (src dest : VfsDir) (p : ProgressServiceBackend) (b : Nat)
    (ok : Bool) (out : Option VfsDir) (p2 : ProgressServiceBackend)
    (h : VfsRawCopyDProgress (some src) (some dest) p b = some (ok, out, p2)) :
    ∃ l, Emits p p2 l ∧ ∀ x ∈ l, x = Status.Downloading ∨ x = Status.Committing := by
  rcases VfsRawCopyDProgress_some src dest p b ok out p2 h with ⟨_, h2, _⟩ | ⟨d1, _, hl⟩
  · subst h2
    exact ⟨[], Emits.refl _, by simp⟩
  · obtain ⟨_, _, _, _, _, _, hem⟩ := tree_loop_frame b _ _ _ _ _ _ hl
    exact hem

/-- The signals of one run of `SynchronizeInternal`, by the way it ends. -/
theorem SynchronizeInternal_trace (host : Host) (title : TitleIDVersion)
    (p : ProgressServiceBackend) (dir_name : Option Bytes) (s : Host × ProgressServiceBackend)
    (h : (SynchronizeInternal host title p dir_name).state = some s) :
    ∃ l, Emits (p.SetNeedHLELock true) s.2 l ∧
      (l = [.Done] ∨ l = [p.impl.status, .Done] ∨ l = [.Connecting, .Done] ∨
       l = [.Connecting, .ProcessingDataList, .Done] ∨
       l = [.Connecting, .ProcessingDataList, .ProcessingDataList, .Done] ∨
       l = [.Connecting, .ProcessingDataList] ∨
       l = [.Connecting, .ProcessingDataList, .ProcessingDataList] ∨
       (dir_name = none ∧ ∃ mid,
          l = [.Connecting, .ProcessingDataList, .ProcessingDataList] ++ mid ++ [.Done] ∧
          ∀ x ∈ mid, x = Status.Downloading ∨ x = Status.Committing) ∨
       (∃ (k : Nat) (ok : Bool), l = [.Connecting, .ProcessingDataList, .ProcessingDataList] ++
          (List.replicate k Status.Downloading ++ if ok then [Status.Committing] else []) ++
          [.Done])) := by
  unfold SynchronizeInternal at h
  simp only [] at h
  split at h
  · -- local data by override
    simp only [Run.state, Option.some.injEq] at h
    subst h
    cases hd : host.bcat_dir with
    | none =>
      exact ⟨_, Emits_FinishDownload _ _, Or.inl rfl⟩
    | some dir =>
      exact ⟨_, Emits.trans (Emits_SetTotalSize _ _) (Emits_FinishDownload _ _),
        Or.inr (Or.inl rfl)⟩
  · split at h
    · -- the fetch failed
      simp only [Run.state, Option.some.injEq] at h
      subst h
      exact ⟨_, Emits.trans (Emits_StartConnecting _) (Emits_FinishDownload _ _),
        Or.inr (Or.inr (Or.inl rfl))⟩
    · have e2 := Emits.trans (Emits_StartConnecting (p.SetNeedHLELock true))
        (Emits_StartProcessingDataList _)
      split at h
      · -- the archive cannot be read
        simp only [Run.state, Option.some.injEq] at h
        subst h
        exact ⟨_, Emits.trans e2 (Emits_FinishDownload _ _),
          Or.inr (Or.inr (Or.inr (Or.inl rfl)))⟩
      · split at h
        · -- the archive cannot be extracted
          simp only [Run.state, Option.some.injEq] at h
          subst h
          exact ⟨_, Emits.trans e2 (Emits_FinishDownload _ _),
            Or.inr (Or.inr (Or.inr (Or.inl rfl)))⟩
        · rename_i extracted hex
          have e3 : ∀ n, Emits (p.SetNeedHLELock true)
              (((p.SetNeedHLELock true).StartConnecting.StartProcessingDataList).SetTotalSize n)
              [.Connecting, .ProcessingDataList, .ProcessingDataList] := by
            intro n
            have := Emits.trans e2 (Emits_SetTotalSize _ n)
            rw [StartProcessingDataList_status] at this
            exact this
          split at h
          · -- whole title
            split at h
            · simp only [Run.state, Option.some.injEq] at h
              subst h
              exact ⟨_, Emits.trans (e3 _) (Emits_FinishDownload _ _),
                Or.inr (Or.inr (Or.inr (Or.inr (Or.inl rfl))))⟩
            · rename_i target_dir htd
              split at h
              · simp [Run.state] at h
              · rename_i t1 p1 hm
                simp only [Run.state, Option.some.injEq] at h
                subst h
                obtain ⟨mid, hem, hmid⟩ := VfsRawCopyDProgress_emits _ _ _ _ _ _ _ hm
                exact ⟨_, Emits.trans (Emits.trans (e3 _) hem) (Emits_FinishDownload _ _),
                  Or.inr (Or.inr (Or.inr (Or.inr (Or.inr (Or.inr (Or.inr (Or.inl
                    ⟨rfl, mid, rfl, hmid⟩)))))))⟩
              · rename_i t1 p1 hm
                simp only [Run.state, Option.some.injEq] at h
                subst h
                obtain ⟨mid, hem, hmid⟩ := VfsRawCopyDProgress_emits _ _ _ _ _ _ _ hm
                exact ⟨_, Emits.trans (Emits.trans (e3 _) hem) (Emits_FinishDownload _ _),
                  Or.inr (Or.inr (Or.inr (Or.inr (Or.inr (Or.inr (Or.inr (Or.inl
                    ⟨rfl, mid, rfl, hmid⟩)))))))⟩
          · -- one directory
            split at h
            · simp only [Run.state, Option.some.injEq] at h
              subst h
              exact ⟨_, Emits.trans e2 (Emits_FinishDownload _ _),
                Or.inr (Or.inr (Or.inr (Or.inl rfl)))⟩
            · split at h
              · simp only [Run.state, Option.some.injEq] at h
                subst h
                exact ⟨_, e2, Or.inr (Or.inr (Or.inr (Or.inr (Or.inr (Or.inl rfl)))))⟩
              · split at h
                · simp only [Run.state, Option.some.injEq] at h
                  subst h
                  exact ⟨_, e3 _,
                    Or.inr (Or.inr (Or.inr (Or.inr (Or.inr (Or.inr (Or.inl rfl))))))⟩
                · split at h
                  · simp [Run.state] at h
                  · rename_i t1 p1 hm
                    simp only [Run.state, Option.some.injEq] at h
                    subst h
                    obtain ⟨_, _, k, hem⟩ := VfsRawCopyDProgressSingle_frame _ _ _ _ _ _ _ hm
                    exact ⟨_, Emits.trans (Emits.trans (e3 _) hem) (Emits_FinishDownload _ _),
                      Or.inr (Or.inr (Or.inr (Or.inr (Or.inr (Or.inr (Or.inr (Or.inr
                        ⟨k, false, rfl⟩)))))))⟩
                  · rename_i t1 p1 hm
                    simp only [Run.state, Option.some.injEq] at h
                    subst h
                    obtain ⟨_, _, k, hem⟩ := VfsRawCopyDProgressSingle_frame _ _ _ _ _ _ _ hm
                    exact ⟨_, Emits.trans (Emits.trans (e3 _) hem) (Emits_FinishDownload _ _),
                      Or.inr (Or.inr (Or.inr (Or.inr (Or.inr (Or.inr (Or.inr (Or.inr
                        ⟨k, true, rfl⟩)))))))⟩
/-- A run of `SynchronizeInternal` ends, by returning or at a null pointer, when every
file in a subdirectory of whatever the archive extracts to is at most
`2 ^ 64 - 0x1000` bytes long. -/
theorem SynchronizeInternal_ends (host : Host) (title : TitleIDVersion)
    (p : ProgressServiceBackend) (dir_name : Option Bytes)
    (hsmall : ∀ bytes extracted, host.ExtractZIP bytes = some extracted →
      ∀ sd ∈ extracted.GetSubdirectories, ∀ f ∈ sd.GetFiles, f.GetSize + 0x1000 ≤ U64) :
    ∃ s, (SynchronizeInternal host title p dir_name).state = some s := by
  unfold SynchronizeInternal
  simp only []
  split
  · exact ⟨_, rfl⟩
  · split
    · exact ⟨_, rfl⟩
    · split
      · exact ⟨_, rfl⟩
      · split
        · exact ⟨_, rfl⟩
        · rename_i extracted hex
          have hs := hsmall _ extracted hex
          split
          · split
            · exact ⟨_, rfl⟩
            · rename_i target_dir htd
              obtain ⟨r, hr⟩ := VfsRawCopyDProgress_returns (some extracted) (some target_dir)
                (((p.SetNeedHLELock true).StartConnecting.StartProcessingDataList).SetTotalSize
                  extracted.GetSize) 0x1000 (by decide) (fun s hs' => by
                  simp only [Option.some.injEq] at hs'
                  subst hs'
                  exact hs)
              obtain ⟨ok, t1, p1⟩ := r
              rw [hr]
              cases ok
              · exact ⟨_, rfl⟩
              · exact ⟨_, rfl⟩
          · split
            · exact ⟨_, rfl⟩
            · split
              · exact ⟨_, rfl⟩
              · rename_i ssub hss
                split
                · exact ⟨_, rfl⟩
                · rename_i tsub hts
                  have hmem : ssub ∈ extracted.GetSubdirectories := by
                    unfold VfsDir.GetSubdirectory at hss
                    exact List.mem_of_find?_eq_some hss
                  obtain ⟨r, hr⟩ := VfsRawCopyDProgressSingle_returns (some ssub)
                    (some (deleteFiles tsub (tsub.GetFiles.map VfsFile.GetName)))
                    (((p.SetNeedHLELock true).StartConnecting.StartProcessingDataList).SetTotalSize
                      ssub.GetSize) 0x1000 (by decide) (fun s hs' => by
                      simp only [Option.some.injEq] at hs'
                      subst hs'
                      exact hs _ hmem)
                  obtain ⟨ok, t1, p1⟩ := r
                  rw [hr]
                  cases ok
                  · exact ⟨_, rfl⟩
                  · exact ⟨_, rfl⟩

theorem pairwise_step_mid (mid : List Status)
    (hmid : ∀ x ∈ mid, x = Status.Downloading ∨ x = Status.Committing) :
    List.Pairwise Status.step mid := by
  rw [List.pairwise_iff_forall_sublist]
  intro a b hab
  have ha := hmid a (hab.subset (by simp))
  have hb := hmid b (hab.subset (by simp))
  rcases ha with ha | ha <;> rcases hb with hb | hb <;> subst ha <;> subst hb <;>
    simp [Status.step, Status.rank]

theorem chain_step_whole (mid : List Status)
    (hmid : ∀ x ∈ mid, x = Status.Downloading ∨ x = Status.Committing) :
    List.Chain' Status.step
      ([.Connecting, .ProcessingDataList, .ProcessingDataList] ++ mid ++ [.Done]) := by
  apply List.Pairwise.chain'
  rw [List.pairwise_append, List.pairwise_append]
  refine ⟨⟨by decide, pairwise_step_mid mid hmid, ?_⟩, by simp, ?_⟩
  · intro a ha b hb
    have hb' := hmid b hb
    simp only [List.mem_cons, List.mem_singleton, List.not_mem_nil, or_false] at ha
    rcases ha with ha | ha | ha <;> rcases hb' with hb' | hb' <;> subst ha <;> subst hb' <;>
      simp [Status.step, Status.rank]
  · intro a _ b hb
    simp only [List.mem_singleton] at hb
    subst hb
    left
    cases a <;> simp [Status.rank]

theorem chain_rank_single (k : Nat) (ok : Bool) :
    List.Chain' (fun a b : Status => a.rank ≤ b.rank)
      ([.Connecting, .ProcessingDataList, .ProcessingDataList] ++
        (List.replicate k Status.Downloading ++ if ok then [Status.Committing] else []) ++
        [.Done]) := by
  apply List.Pairwise.chain'
  have hmem : ∀ x ∈ (List.replicate k Status.Downloading ++
      if ok then [Status.Committing] else []), 2 ≤ x.rank := by
    intro x hx
    rcases List.mem_append.1 hx with hx | hx
    · rw [List.eq_of_mem_replicate hx]; decide
    · cases ok <;> simp at hx
      subst hx; decide
  rw [List.pairwise_append, List.pairwise_append]
  refine ⟨⟨by decide, ?_, ?_⟩, by simp, ?_⟩
  · rw [List.pairwise_append]
    refine ⟨?_, ?_, ?_⟩
    · rw [List.pairwise_replicate]
      exact Or.inr (le_refl _)
    · cases ok <;> simp
    · intro a ha b hb
      rw [List.eq_of_mem_replicate ha]
      cases ok <;> simp at hb
      subst hb; decide
  · intro a ha b hb
    have := hmem b hb
    simp only [List.mem_cons, List.mem_singleton, List.not_mem_nil, or_false] at ha
    rcases ha with ha | ha | ha <;> subst ha
    · exact Nat.zero_le _
    · show 1 ≤ b.rank; omega
    · show 1 ≤ b.rank; omega
  · intro a _ b hb
    simp only [List.mem_singleton] at hb
    subst hb
    cases a <;> simp [Status.rank]

theorem chain_step_of_rank (l : List Status)
    (h : List.Chain' (fun a b : Status => a.rank ≤ b.rank) l) : List.Chain' Status.step l :=
  List.Chain'.imp (fun _ _ hab => Or.inl hab) h

theorem statusesSince_SetNeedHLELock (p p2 : ProgressServiceBackend) (need : Bool) :
    statusesSince p p2 = statusesSince (p.SetNeedHLELock need) p2 := rfl

/-- C2 (amended): along one run of `SynchronizeInternal` that ends (by returning or
at a null pointer), each status signalled is at or after its predecessor in the order
`Connecting < ProcessingDataList < Downloading < Committing < Done`, except for the
step from `Committing` back to `Downloading`; in a directory-scoped run there is no
exception. -/
theorem C2_status_forward_but_for_next_directory (host : Host) (title : TitleIDVersion)
    (p : ProgressServiceBackend) (dir_name : Option Bytes)
    (s : Host × ProgressServiceBackend)
    (h : (SynchronizeInternal host title p dir_name).state = some s) :
    List.Chain' Status.step (statusesSince p s.2) ∧
    (dir_name ≠ none →
      List.Chain' (fun a b : Status => a.rank ≤ b.rank) (statusesSince p s.2)) := by
  obtain ⟨l, hem, hl⟩ := SynchronizeInternal_trace host title p dir_name s h
  rw [statusesSince_SetNeedHLELock p s.2 true, hem.statusesSince]
  have hp : ∀ a : Status, a.rank ≤ Status.Done.rank := by
    intro a; cases a <;> simp [Status.rank]
  rcases hl with hl | hl | hl | hl | hl | hl | hl | ⟨hd, mid, hl, hmid⟩ | ⟨k, ok, hl⟩
  · subst hl
    exact ⟨by simp [List.Chain', Status.step, Status.rank],
      fun _ => by simp [List.Chain', Status.rank]⟩
  · subst hl
    have : List.Chain' (fun a b : Status => a.rank ≤ b.rank) [p.impl.status, Status.Done] := by
      simp [hp]
    exact ⟨chain_step_of_rank _ this, fun _ => this⟩
  · subst hl
    exact ⟨by simp [List.Chain', Status.step, Status.rank],
      fun _ => by simp [List.Chain', Status.rank]⟩
  · subst hl
    exact ⟨by simp [List.Chain', Status.step, Status.rank],
      fun _ => by simp [List.Chain', Status.rank]⟩
  · subst hl
    exact ⟨by simp [List.Chain', Status.step, Status.rank],
      fun _ => by simp [List.Chain', Status.rank]⟩
  · subst hl
    exact ⟨by simp [List.Chain', Status.step, Status.rank],
      fun _ => by simp [List.Chain', Status.rank]⟩
  · subst hl
    exact ⟨by simp [List.Chain', Status.step, Status.rank],
      fun _ => by simp [List.Chain', Status.rank]⟩
  · subst hl
    exact ⟨chain_step_whole mid hmid, fun hne => absurd hd hne⟩
  · subst hl
    exact ⟨chain_step_of_rank _ (chain_rank_single k ok), fun _ => chain_rank_single k ok⟩

/-- C2, as stated without the exception, fails: the run on `sampleHost` (an archive with two
subdirectories of one file each, whole-title) signals `Committing` for the first
subdirectory and then `Downloading` for the file of the second. -/
theorem C2_status_moves_backward :
    (SynchronizeInternal sampleHost ⟨1, 1⟩ idleTracker none).state.map
        (fun s => statusesSince idleTracker s.2) =
      some [.Connecting, .ProcessingDataList, .ProcessingDataList, .Downloading, .Downloading,
        .Downloading, .Committing, .Downloading, .Downloading, .Downloading, .Committing,
        .Done] ∧
    ¬ List.Chain' (fun a b : Status => a.rank ≤ b.rank)
      [.Connecting, .ProcessingDataList, .ProcessingDataList, .Downloading, .Downloading,
        .Downloading, .Committing, .Downloading, .Downloading, .Downloading, .Committing,
        .Done] :=
  ⟨by decide, by simp [List.Chain', Status.rank]⟩

/-- C2 (amended), at the same run: it ends, and its statuses obey the amended
order. -/
theorem C2_status_forward_but_for_next_directory_witness :
    ∃ s, (SynchronizeInternal sampleHost ⟨1, 1⟩ idleTracker none).state = some s ∧
      List.Chain' Status.step (statusesSince idleTracker s.2) :=
  ⟨_, rfl, (C2_status_forward_but_for_next_directory sampleHost ⟨1, 1⟩ idleTracker none _
    rfl).1⟩

/-! ## The fetch and what follows a failed one -/

/-- C13: `DownloadInternal` with no response gives `NoResponse`; with a response
whose status is not 200 it gives `Success` for 304, `BadClientVersion` for 301,
`NoMatchTitleId` for 404, `NoMatchBuildId` for 406 and `GeneralWebError` for every
other status, whatever the headers and the body of the response are; in each of
these cases the file at the path is returned as it was. -/
theorem C13_outcome_by_status :
    (∀ (host : Host) (file : LocalFile) (build_id : Nat) (path ctype : Bytes),
      host.Get path (DownloadInternal.headers host file build_id) = none →
      DownloadInternal host file build_id path ctype = (.NoResponse, file)) ∧
    (∀ (host : Host) (file : LocalFile) (build_id : Nat) (path ctype : Bytes)
        (response : HttpResponse),
      host.Get path (DownloadInternal.headers host file build_id) = some response →
      response.status ≠ 200 →
      DownloadInternal host file build_id path ctype =
        (if response.status = 304 then DownloadResult.Success
         else if response.status = 301 then DownloadResult.BadClientVersion
         else if response.status = 404 then DownloadResult.NoMatchTitleId
         else if response.status = 406 then DownloadResult.NoMatchBuildId
         else DownloadResult.GeneralWebError, file)) := by
  refine ⟨?_, ?_⟩
  · intro host file build_id path ctype h
    unfold DownloadInternal
    rw [h]
  · intro host file build_id path ctype response h hne
    unfold DownloadInternal
    rw [h]
    simp only [ResponseStatus.toInt]
    by_cases h1 : response.status = 304
    · simp [h1]
    · by_cases h2 : response.status = 301
      · simp [h2]
      · by_cases h3 : response.status = 404
        · simp [h3]
        · by_cases h4 : response.status = 406
          · simp [h4]
          · simp [h1, h2, h3, h4, hne]

/-- C13, at concrete inputs: a server that answers 406, one that answers 500 and
one that does not answer, each with a cached file of one byte. -/
theorem C13_outcome_by_status_witness :
    DownloadInternal { sampleHost with Get := fun _ _ => some ⟨406, [], [1, 2, 3]⟩ }
        ⟨some [80], true, true, U64⟩ 1 (BOXCAT_PATHNAME_DATA 1) (bytesOf "application/zip") =
      (.NoMatchBuildId, ⟨some [80], true, true, U64⟩) ∧
    DownloadInternal { sampleHost with Get := fun _ _ => some ⟨500, [], [1, 2, 3]⟩ }
        ⟨some [80], true, true, U64⟩ 1 (BOXCAT_PATHNAME_DATA 1) (bytesOf "application/zip") =
      (.GeneralWebError, ⟨some [80], true, true, U64⟩) ∧
    DownloadInternal { sampleHost with Get := fun _ _ => none }
        ⟨some [80], true, true, U64⟩ 1 (BOXCAT_PATHNAME_DATA 1) (bytesOf "application/zip") =
      (.NoResponse, ⟨some [80], true, true, U64⟩) :=
  ⟨C13_outcome_by_status.2 _ _ _ _ _ ⟨406, [], [1, 2, 3]⟩ rfl (by decide),
   C13_outcome_by_status.2 _ _ _ _ _ ⟨500, [], [1, 2, 3]⟩ rfl (by decide),
   C13_outcome_by_status.1 _ _ _ _ _ rfl⟩

/-- C14: `HandleDownloadDisplayResult` shows the error, once, exactly when the
outcome is `NoMatchBuildId` or `BadClientVersion`; for `Success`, `NoResponse`,
`GeneralWebError`, `GeneralFSError`, `InvalidContentType` and `NoMatchTitleId` it
shows nothing. -/
theorem C14_display_on_build_or_version_mismatch (host : Host) (res : DownloadResult) :
    ((res = .NoMatchBuildId ∨ res = .BadClientVersion) →
      (HandleDownloadDisplayResult host res).shown = host.shown ++ [res]) ∧
    (¬ (res = .NoMatchBuildId ∨ res = .BadClientVersion) →
      (HandleDownloadDisplayResult host res).shown = host.shown) ∧
    ((HandleDownloadDisplayResult host res).shown ≠ host.shown ↔
      (res = .NoMatchBuildId ∨ res = .BadClientVersion)) ∧
    (HandleDownloadDisplayResult host res).zip = host.zip ∧
    (HandleDownloadDisplayResult host res).bcat_dir = host.bcat_dir := by
  cases res <;> simp [HandleDownloadDisplayResult]
theorem LocalFile.OpenWrite_exists (f : LocalFile) (h : f.Exists = true) :
    f.OpenWrite.2.Exists = true := by
  unfold LocalFile.OpenWrite
  split
  · rfl
  · exact h

theorem LocalFile.Resize_exists (f : LocalFile) (n : Nat) (h : f.Exists = true) :
    (f.Resize n).2.Exists = true := by
  unfold LocalFile.Resize
  split
  · rfl
  · exact h

theorem DownloadInternal_keeps_existing (host : Host) (file : LocalFile) (build_id : Nat)
    (path ctype : Bytes) (h : file.Exists = true) :
    (DownloadInternal host file build_id path ctype).2.Exists = true := by
  unfold DownloadInternal
  repeat' split
  all_goals try simp only []
  repeat' split
  all_goals first
    | exact h
    | exact LocalFile.OpenWrite_exists _ h
    | exact LocalFile.Resize_exists _ _ (LocalFile.OpenWrite_exists _ h)
    | rfl

theorem DownloadInternal_no_match_keeps_file (host : Host) (file : LocalFile) (build_id : Nat)
    (path ctype : Bytes)
    (h : (DownloadInternal host file build_id path ctype).1 = .NoMatchBuildId ∨
      (DownloadInternal host file build_id path ctype).1 = .NoMatchTitleId) :
    (DownloadInternal host file build_id path ctype).2 = file := by
  unfold DownloadInternal at h ⊢
  split
  · rfl
  · rename_i response hget
    rw [hget] at h
    simp only [] at h
    by_cases h1 : response.status = ResponseStatus.NoUpdate.toInt
    · rw [if_pos h1]
    · by_cases h2 : response.status = ResponseStatus.BadClientVersion.toInt
      · rw [if_neg h1, if_pos h2]
      · by_cases h3 : response.status = ResponseStatus.NoMatchTitleId.toInt
        · rw [if_neg h1, if_neg h2, if_pos h3]
        · by_cases h4 : response.status = ResponseStatus.NoMatchBuildId.toInt
          · rw [if_neg h1, if_neg h2, if_neg h3, if_pos h4]
          · by_cases h5 : response.status ≠ ResponseStatus.Ok.toInt
            · rw [if_neg h1, if_neg h2, if_neg h3, if_neg h4, if_pos h5]
            · exfalso
              rw [if_neg h1, if_neg h2, if_neg h3, if_neg h4, if_neg h5] at h
              repeat' split at h
              all_goals simp at h

/-- C12: with the local-data override off and a fetch outcome other than
`Success`, `SynchronizeInternal` (whole-title or directory-scoped) returns with the
tracker at status `Done` and result `ERROR_GENERAL_BCAT_FAILURE`, two signals sent
(`Connecting`, `Done`), and the destination tree exactly as it was. The cached
archive is deleted when the outcome is `NoMatchBuildId` or `NoMatchTitleId`; for
every other outcome it is left as the fetch left it, and is still there if it was
there before. -/
theorem C12_fetch_failure_leaves_tree (host : Host) (title : TitleIDVersion)
    (p : ProgressServiceBackend) (dir_name : Option Bytes)
    (hlocal : host.bcat_boxcat_local = false)
    (hres : (DownloadDataZip host title).1 ≠ .Success) :
    ∃ host2 p2, SynchronizeInternal host title p dir_name = .returned (host2, p2) ∧
      p2 = ((p.SetNeedHLELock true).StartConnecting).FinishDownload
        .ERROR_GENERAL_BCAT_FAILURE ∧
      p2.impl.status = .Done ∧ p2.impl.result = .ERROR_GENERAL_BCAT_FAILURE ∧
      statusesSince p p2 = [.Connecting, .Done] ∧
      host2.bcat_dir = host.bcat_dir ∧
      (((DownloadDataZip host title).1 = .NoMatchBuildId ∨
          (DownloadDataZip host title).1 = .NoMatchTitleId) →
        host2.zip = host.zip.Delete ∧ host2.zip.Exists = false) ∧
      (¬ ((DownloadDataZip host title).1 = .NoMatchBuildId ∨
          (DownloadDataZip host title).1 = .NoMatchTitleId) →
        host2.zip = (DownloadDataZip host title).2 ∧
        (host.zip.Exists = true → host2.zip.Exists = true)) := by
  have hrun : SynchronizeInternal host title p dir_name =
      .returned (HandleDownloadDisplayResult
        (if ((DownloadDataZip host title).1 = .NoMatchBuildId ||
              (DownloadDataZip host title).1 = .NoMatchTitleId) = true then
          { ({ host with zip := (DownloadDataZip host title).2 } : Host) with
            zip := (DownloadDataZip host title).2.Delete }
         else { host with zip := (DownloadDataZip host title).2 })
        (DownloadDataZip host title).1,
        ((p.SetNeedHLELock true).StartConnecting).FinishDownload
          .ERROR_GENERAL_BCAT_FAILURE) := by
    unfold SynchronizeInternal
    simp only [hlocal, Bool.false_eq_true, if_false, hres, ne_eq, not_false_eq_true, if_true]
  refine ⟨_, _, hrun, rfl, ?_, ?_, ?_, ?_, ?_, ?_⟩
  · simp [ProgressServiceBackend.FinishDownload, ProgressServiceBackend.SignalUpdate_impl]
  · simp [ProgressServiceBackend.FinishDownload, ProgressServiceBackend.SignalUpdate_impl]
  · rw [statusesSince_SetNeedHLELock p _ true]
    exact (Emits.trans (Emits_StartConnecting _) (Emits_FinishDownload _ _)).statusesSince
  · have hb : ∀ h : Host, (HandleDownloadDisplayResult h (DownloadDataZip host title).1).bcat_dir
        = h.bcat_dir := by
      intro h; unfold HandleDownloadDisplayResult; split <;> rfl
    rw [hb]
    split <;> rfl
  · intro hd
    have hz : ∀ h : Host, (HandleDownloadDisplayResult h (DownloadDataZip host title).1).zip
        = h.zip := by
      intro h; unfold HandleDownloadDisplayResult; split <;> rfl
    rw [hz]
    have hc : ((DownloadDataZip host title).1 = .NoMatchBuildId ||
        (DownloadDataZip host title).1 = .NoMatchTitleId) = true := by
      simpa using hd
    rw [if_pos hc]
    have hsame : (DownloadDataZip host title).2 = host.zip :=
      DownloadInternal_no_match_keeps_file _ _ _ _ _ hd
    rw [hsame]
    exact ⟨rfl, rfl⟩
  · intro hd
    have hz : ∀ h : Host, (HandleDownloadDisplayResult h (DownloadDataZip host title).1).zip
        = h.zip := by
      intro h; unfold HandleDownloadDisplayResult; split <;> rfl
    rw [hz]
    have hc : ¬ ((DownloadDataZip host title).1 = .NoMatchBuildId ||
        (DownloadDataZip host title).1 = .NoMatchTitleId) = true := by
      simpa using hd
    rw [if_neg hc]
    exact ⟨rfl, fun he => DownloadInternal_keeps_existing _ _ _ _ _ he⟩
/-- C12, at a concrete input: `SynchronizeDirectory(title, "event1", tracker)`
against a server that answers 406: the run returns with `Done` and the failure code,
the cache root is as before and the cached archive is gone. -/
theorem C12_fetch_failure_leaves_tree_witness :
    ∃ host2 p2, SynchronizeInternal sampleHostNoBuild ⟨1, 1⟩ idleTracker
        (some (bytesOf "event1")) = .returned (host2, p2) ∧
      p2.impl.status = .Done ∧ p2.impl.result = .ERROR_GENERAL_BCAT_FAILURE ∧
      host2.bcat_dir = sampleHostNoBuild.bcat_dir ∧ host2.zip.Exists = false := by
  obtain ⟨h2, p2, hr, _, hs, hres, _, hd, hz, _⟩ :=
    C12_fetch_failure_leaves_tree sampleHostNoBuild ⟨1, 1⟩ idleTracker
      (some (bytesOf "event1")) rfl (by decide)
  exact ⟨h2, p2, hr, hs, hres, hd, (hz (Or.inl (by decide))).2⟩

/-! ## The no-op backend and the tracker's signals -/

/-- What `NullBackend::Synchronize` and `NullBackend::SynchronizeDirectory` do to a
tracker: the one call `FinishDownload(RESULT_SUCCESS)`, which sets
`total_downloaded_bytes` to `total_bytes` and keeps `total_bytes`. -/
theorem NullBackend_finishes_at_total (title : TitleIDVersion) (name : Bytes)
    (progress : ProgressServiceBackend) :
    (NullBackend.Synchronize title progress).1 = true ∧
    (NullBackend.SynchronizeDirectory title name progress).1 = true ∧
    (NullBackend.Synchronize title progress).2 = progress.FinishDownload .RESULT_SUCCESS ∧
    (NullBackend.SynchronizeDirectory title name progress).2 =
      progress.FinishDownload .RESULT_SUCCESS ∧
    (progress.FinishDownload .RESULT_SUCCESS).impl.status = .Done ∧
    (progress.FinishDownload .RESULT_SUCCESS).impl.result = .RESULT_SUCCESS ∧
    (progress.FinishDownload .RESULT_SUCCESS).impl.total_bytes = progress.impl.total_bytes ∧
    (progress.FinishDownload .RESULT_SUCCESS).impl.total_downloaded_bytes =
      progress.impl.total_bytes := by
  simp [NullBackend.Synchronize, NullBackend.SynchronizeDirectory,
    ProgressServiceBackend.FinishDownload, ProgressServiceBackend.SignalUpdate_impl]

/-- The total size of a tracker stays 0 through any sequence of `NullBackend`
synchronization calls. -/
theorem NullBackend_calls_keep_total (calls : List (TitleIDVersion × Option Bytes)) :
    ∀ progress : ProgressServiceBackend, progress.impl.total_bytes = 0 →
      (NullBackend.calls progress calls).impl.total_bytes = 0 := by
  induction calls with
  | nil => intro progress h; exact h
  | cons c rest ih =>
    intro progress h
    obtain ⟨title, name⟩ := c
    cases name with
    | none =>
      rw [NullBackend.calls]
      apply ih
      rw [(NullBackend_finishes_at_total title [] progress).2.2.1,
        (NullBackend_finishes_at_total title [] progress).2.2.2.2.2.2.1, h]
    | some name =>
      rw [NullBackend.calls]
      apply ih
      rw [(NullBackend_finishes_at_total title name progress).2.2.2.1,
        (NullBackend_finishes_at_total title name progress).2.2.2.2.2.2.1, h]

/-- C16: on a tracker whose total size is 0, as it is on a new tracker (`impl{}`) and
stays through every sequence of `NullBackend` synchronization calls, which are the
only calls a `NullBackend` makes on it, `NullBackend::Synchronize` and
`NullBackend::SynchronizeDirectory` return true and leave the tracker with status
`Done`, result success, `total_downloaded_bytes = 0` and the total size still 0.
`NullBackend::GetLaunchParameter` returns no data. -/
theorem C16_NullBackend_finishes_with_zero (title : TitleIDVersion) (name : Bytes)
    (progress : ProgressServiceBackend) (h0 : progress.impl.total_bytes = 0) :
    (NullBackend.Synchronize title progress).1 = true ∧
    (NullBackend.Synchronize title progress).2.impl.status = .Done ∧
    (NullBackend.Synchronize title progress).2.impl.result = .RESULT_SUCCESS ∧
    (NullBackend.Synchronize title progress).2.impl.total_downloaded_bytes = 0 ∧
    (NullBackend.Synchronize title progress).2.impl.total_bytes = 0 ∧
    (NullBackend.SynchronizeDirectory title name progress).1 = true ∧
    (NullBackend.SynchronizeDirectory title name progress).2.impl.status = .Done ∧
    (NullBackend.SynchronizeDirectory title name progress).2.impl.result = .RESULT_SUCCESS ∧
    (NullBackend.SynchronizeDirectory title name progress).2.impl.total_downloaded_bytes = 0 ∧
    (NullBackend.SynchronizeDirectory title name progress).2.impl.total_bytes = 0 ∧
    (∀ calls : List (TitleIDVersion × Option Bytes),
      (NullBackend.calls progress calls).impl.total_bytes = 0 ∧
      (NullBackend.Synchronize title
        (NullBackend.calls progress calls)).2.impl.total_downloaded_bytes = 0 ∧
      (NullBackend.SynchronizeDirectory title name
        (NullBackend.calls progress calls)).2.impl.total_downloaded_bytes = 0) ∧
    NullBackend.GetLaunchParameter title = none := by
  obtain ⟨a1, a2, a3, a4, a5, a6, a7, a8⟩ := NullBackend_finishes_at_total title name progress
  refine ⟨a1, ?_, ?_, ?_, ?_, a2, ?_, ?_, ?_, ?_, ?_, rfl⟩
  · rw [a3, a5]
  · rw [a3, a6]
  · rw [a3, a8, h0]
  · rw [a3, a7, h0]
  · rw [a4, a5]
  · rw [a4, a6]
  · rw [a4, a8, h0]
  · rw [a4, a7, h0]
  · intro calls
    have hk := NullBackend_calls_keep_total calls progress h0
    obtain ⟨_, _, b3, b4, _, _, _, b8⟩ :=
      NullBackend_finishes_at_total title name (NullBackend.calls progress calls)
    exact ⟨hk, by rw [b3, b8, hk], by rw [b4, b8, hk]⟩

/-- C16, at the tracker before any call and at the tracker after a `Synchronize` and
a `SynchronizeDirectory` call. -/
theorem C16_NullBackend_finishes_with_zero_witness :
    idleTracker.impl.total_bytes = 0 ∧
    (NullBackend.Synchronize ⟨1, 1⟩ idleTracker).1 = true ∧
    (NullBackend.Synchronize ⟨1, 1⟩ idleTracker).2.impl.status = .Done ∧
    (NullBackend.Synchronize ⟨1, 1⟩ idleTracker).2.impl.total_downloaded_bytes = 0 ∧
    (NullBackend.SynchronizeDirectory ⟨1, 1⟩ (bytesOf "event1")
      (NullBackend.calls idleTracker
        [(⟨1, 1⟩, none), (⟨1, 1⟩, some (bytesOf "event1"))])).2.impl.total_downloaded_bytes
      = 0 :=
  have h := C16_NullBackend_finishes_with_zero ⟨1, 1⟩ (bytesOf "event1") idleTracker rfl
  ⟨rfl, h.1, h.2.1, h.2.2.2.1,
    (h.2.2.2.2.2.2.2.2.2.2.1 [(⟨1, 1⟩, none), (⟨1, 1⟩, some (bytesOf "event1"))]).2.2⟩

/-- C17: each of the eight mutators adds exactly one signal to the update event,
and the record that signal shows is the record the call leaves, so the signal comes
after all writes of the call; it is sent under the HLE lock exactly when the lock is
required (for either value of the flag), and the flag is kept. -/
theorem C17_one_signal_after_writes (p : ProgressServiceBackend) (size : Nat)
    (dir_name file_name : Bytes) (result : ResultCode) :
    SignalsOnce p (p.SetTotalSize size) ∧
    SignalsOnce p p.StartConnecting ∧
    SignalsOnce p p.StartProcessingDataList ∧
    SignalsOnce p (p.StartDownloadingFile dir_name file_name size) ∧
    SignalsOnce p (p.UpdateFileProgress size) ∧
    SignalsOnce p p.FinishDownloadingFile ∧
    SignalsOnce p (p.CommitDirectory dir_name) ∧
    SignalsOnce p (p.FinishDownload result) := by
  have key : ∀ r : ProgressServiceBackend, r.event = p.event → r.need_hle_lock = p.need_hle_lock →
      SignalsOnce p r.SignalUpdate := by
    intro r he hl
    unfold SignalsOnce
    rw [ProgressServiceBackend.SignalUpdate_event, ProgressServiceBackend.SignalUpdate_impl,
      ProgressServiceBackend.SignalUpdate_lock, he, hl]
    simp
  exact ⟨key _ rfl rfl, key _ rfl rfl, key _ rfl rfl, key _ rfl rfl, key _ rfl rfl,
    key _ rfl rfl, key _ rfl rfl, key _ rfl rfl⟩

/-- C18: `StartDownloadingFile` sets the status and the two counters as stated, and
on name fields that hold only null bytes it leaves each name, cut to 0x31 bytes, as
the string read up to the first null; `CommitDirectory` empties `current_file`. But
the copy of a name overwrites only as many bytes as the name has: after `longname.bin`
in directory `dir_long`, a call for `a.bin` in `d1` leaves fields that read
`a.biname.bin` and `d1r_long`, and `CommitDirectory("d1")` leaves `d1r_long`. -/
theorem C18_name_fields_keep_old_tail :
    (∀ (p : ProgressServiceBackend) (dir file : Bytes) (size : Nat),
      (p.StartDownloadingFile dir file size).impl.status = .Downloading ∧
      (p.StartDownloadingFile dir file size).impl.current_downloaded_bytes = 0 ∧
      (p.StartDownloadingFile dir file size).impl.current_total_bytes = size ∧
      StringFromFixedZeroTerminatedBuffer (p.CommitDirectory dir).impl.current_file 0x31 = []) ∧
    (∀ (p : ProgressServiceBackend) (dir file : Bytes) (size : Nat),
      p.impl.current_directory = List.replicate 0x31 0 →
      p.impl.current_file = List.replicate 0x31 0 →
      (∀ c ∈ dir, c ≠ 0) → (∀ c ∈ file, c ≠ 0) →
      StringFromFixedZeroTerminatedBuffer
        (p.StartDownloadingFile dir file size).impl.current_directory 0x31 = dir.take 0x31 ∧
      StringFromFixedZeroTerminatedBuffer
        (p.StartDownloadingFile dir file size).impl.current_file 0x31 = file.take 0x31) ∧
    StringFromFixedZeroTerminatedBuffer
      ((idleTracker.StartDownloadingFile (bytesOf "dir_long") (bytesOf "longname.bin")
        9).StartDownloadingFile (bytesOf "d1") (bytesOf "a.bin") 5).impl.current_file 0x31 =
      bytesOf "a.biname.bin" ∧
    StringFromFixedZeroTerminatedBuffer
      ((idleTracker.StartDownloadingFile (bytesOf "dir_long") (bytesOf "longname.bin")
        9).StartDownloadingFile (bytesOf "d1") (bytesOf "a.bin") 5).impl.current_directory
        0x31 = bytesOf "d1r_long" ∧
    StringFromFixedZeroTerminatedBuffer
      ((idleTracker.StartDownloadingFile (bytesOf "dir_long") (bytesOf "longname.bin")
        9).CommitDirectory (bytesOf "d1")).impl.current_directory 0x31 =
      bytesOf "d1r_long" := by
  refine ⟨?_, ?_, by decide, by decide, by decide⟩
  · intro p dir file size
    refine ⟨?_, ?_, ?_, ?_⟩
    · simp [ProgressServiceBackend.StartDownloadingFile, ProgressServiceBackend.SignalUpdate_impl]
    · simp [ProgressServiceBackend.StartDownloadingFile, ProgressServiceBackend.SignalUpdate_impl]
    · simp [ProgressServiceBackend.StartDownloadingFile, ProgressServiceBackend.SignalUpdate_impl]
    · simp only [ProgressServiceBackend.CommitDirectory, ProgressServiceBackend.SignalUpdate_impl,
        StringFromFixedZeroTerminatedBuffer, fill0]
      cases h : p.impl.current_file.length with
      | zero => simp
      | succ n => simp [List.replicate_succ, List.take_succ_cons, List.takeWhile_cons]
  · intro p dir file size hd hf hdn hfn
    have key : ∀ nm : Bytes, (∀ c ∈ nm, c ≠ 0) →
        StringFromFixedZeroTerminatedBuffer
          (memcpy (List.replicate 0x31 0) nm (min nm.length 0x31)) 0x31 = nm.take 0x31 := by
      intro nm hnm
      unfold StringFromFixedZeroTerminatedBuffer memcpy
      have hlen : (nm.take (min nm.length 0x31) ++
          (List.replicate 0x31 0).drop (min nm.length 0x31)).length = 0x31 := by
        simp only [List.length_append, List.length_take, List.length_drop,
          List.length_replicate]
        omega
      rw [List.take_of_length_le (by rw [hlen])]
      have ht : nm.take (min nm.length 0x31) = nm.take 0x31 := by
        by_cases hl : nm.length ≤ 0x31
        · rw [Nat.min_eq_left hl, List.take_of_length_le (le_refl _),
            List.take_of_length_le hl]
        · rw [Nat.min_eq_right (by omega)]
      rw [ht, List.drop_replicate, List.takeWhile_append]
      have hall : ∀ c ∈ nm.take 0x31, (c != 0) = true := by
        intro c hc
        simpa using hnm c (List.mem_of_mem_take hc)
      rw [List.takeWhile_eq_self_iff.2 hall]
      simp only [List.length_take, if_true]
      cases hr : (0x31 - min nm.length 0x31) with
      | zero => simp
      | succ n => simp [List.replicate_succ, List.takeWhile_cons]
    constructor
    · simp only [ProgressServiceBackend.StartDownloadingFile,
        ProgressServiceBackend.SignalUpdate_impl, hd]
      exact key dir hdn
    · simp only [ProgressServiceBackend.StartDownloadingFile,
        ProgressServiceBackend.SignalUpdate_impl, hf]
      exact key file hfn

/-! ## Clearing the cache -/

namespace VfsDir

theorem setSubdirs_setSubdirs (d : VfsDir) (l1 l2 : List VfsDir) :
    (d.setSubdirs l1).setSubdirs l2 = d.setSubdirs l2 := by
  cases d; rfl

theorem setFiles_setFiles (d : VfsDir) (l1 l2 : List VfsFile) :
    (d.setFiles l1).setFiles l2 = d.setFiles l2 := by
  cases d; rfl

theorem setSubdirs_self (d : VfsDir) : d.setSubdirs d.GetSubdirectories = d := by
  cases d; rfl

theorem setFiles_self (d : VfsDir) : d.setFiles d.GetFiles = d := by
  cases d; rfl

theorem DeleteSubdirectoryRecursive_head (d : VfsDir) (a : VfsDir) (l : List VfsDir)
    (h : d.GetSubdirectories = a :: l) (hw : d.IsWritable = true)
    (ha : a.IsWritable = true) :
    d.DeleteSubdirectoryRecursive a.GetName = (true, d.setSubdirs l) := by
  unfold DeleteSubdirectoryRecursive GetSubdirectory
  simp [h, hw, ha, List.find?_cons, List.eraseP_cons]

theorem DeleteSubdirectoryRecursive_head_refused (d : VfsDir) (a : VfsDir) (l : List VfsDir)
    (h : d.GetSubdirectories = a :: l) (ha : a.IsWritable = false) :
    d.DeleteSubdirectoryRecursive a.GetName = (false, d) := by
  unfold DeleteSubdirectoryRecursive GetSubdirectory
  simp [h, ha, List.find?_cons]

theorem DeleteSubdirectoryRecursive_unwritable (d : VfsDir) (nm : Bytes)
    (hw : d.IsWritable = false) : d.DeleteSubdirectoryRecursive nm = (false, d) := by
  unfold DeleteSubdirectoryRecursive
  split
  · rfl
  · simp [hw]

/-- A deletion that succeeds on the name of the first subdirectory removes that
subdirectory and nothing else. -/
theorem DeleteSubdirectoryRecursive_head_of_true (d : VfsDir) (a : VfsDir) (l : List VfsDir)
    (h : d.GetSubdirectories = a :: l)
    (ht : (d.DeleteSubdirectoryRecursive a.GetName).1 = true) :
    (d.DeleteSubdirectoryRecursive a.GetName).2 = d.setSubdirs l := by
  unfold DeleteSubdirectoryRecursive GetSubdirectory at ht ⊢
  simp only [h, List.find?_cons, beq_self_eq_true] at ht ⊢
  split
  · simp [List.eraseP_cons]
  · rename_i hc
    rw [if_neg hc] at ht
    exact absurd ht (by simp)

/-- A refused deletion changes nothing. -/
theorem DeleteSubdirectoryRecursive_of_false (d : VfsDir) (nm : Bytes)
    (hf : (d.DeleteSubdirectoryRecursive nm).1 = false) :
    (d.DeleteSubdirectoryRecursive nm).2 = d := by
  unfold DeleteSubdirectoryRecursive at hf ⊢
  cases hg : d.GetSubdirectory nm with
  | none => rfl
  | some s =>
    simp only [hg] at hf ⊢
    by_cases hc : (d.IsWritable && s.IsWritable) = true
    · rw [if_pos hc] at hf
      exact absurd hf (by simp)
    · rw [if_neg hc]

theorem DeleteFile_head (d : VfsDir) (a : VfsFile) (l : List VfsFile)
    (h : d.GetFiles = a :: l) (hw : d.IsWritable = true) (ha : a.IsWritable = true) :
    d.DeleteFile a.name = (true, d.setFiles l) := by
  unfold DeleteFile GetFile
  simp [h, hw, ha, List.find?_cons, List.eraseP_cons]

end VfsDir

theorem Clear_loop_cons (n : Bytes) (rest : List Bytes) (dir : VfsDir) :
    Boxcat.Clear.loop (n :: rest) dir =
      if (dir.DeleteSubdirectoryRecursive n).1 = true then
        Boxcat.Clear.loop rest (dir.DeleteSubdirectoryRecursive n).2
      else (false, (dir.DeleteSubdirectoryRecursive n).2) := by
  rw [Boxcat.Clear.loop]
  cases (dir.DeleteSubdirectoryRecursive n).1 <;> simp

/-- On a writable root whose subdirectories are all writable the deletion loop of
`Boxcat::Clear`, run over the names of all subdirectories, removes them all. -/
theorem Clear_loop_writable (l : List VfsDir) :
    ∀ dir : VfsDir, dir.GetSubdirectories = l → dir.IsWritable = true →
      (∀ s ∈ l, s.IsWritable = true) →
      Boxcat.Clear.loop (l.map VfsDir.GetName) dir = (true, dir.setSubdirs []) := by
  induction l with
  | nil =>
    intro dir h _ _
    have : dir.setSubdirs [] = dir := by
      rw [← h]; exact VfsDir.setSubdirs_self dir
    rw [this]
    rfl
  | cons a l ih =>
    intro dir h hw hall
    rw [List.map_cons, Clear_loop_cons,
      VfsDir.DeleteSubdirectoryRecursive_head dir a l h hw (hall a (List.mem_cons_self _ _))]
    simp only [if_true]
    rw [ih (dir.setSubdirs l) (VfsDir.GetSubdirectories_setSubdirs _ _)
      ((VfsDir.IsWritable_setSubdirs _ _).trans hw)
      (fun s hs => hall s (List.mem_cons_of_mem _ hs)), VfsDir.setSubdirs_setSubdirs]

/-- On a writable root the deletion loop of `Boxcat::Clear` removes the writable
subdirectories `pre` and stops at the first one that is not writable, which stays
with all that follow it. -/
theorem Clear_loop_refused (pre : List VfsDir) (s : VfsDir) (post : List VfsDir) :
    ∀ dir : VfsDir, dir.GetSubdirectories = pre ++ s :: post → dir.IsWritable = true →
      (∀ x ∈ pre, x.IsWritable = true) → s.IsWritable = false →
      Boxcat.Clear.loop ((pre ++ s :: post).map VfsDir.GetName) dir =
        (false, dir.setSubdirs (s :: post)) := by
  induction pre with
  | nil =>
    intro dir h _ _ hs
    rw [List.nil_append] at h ⊢
    rw [List.map_cons, Clear_loop_cons,
      VfsDir.DeleteSubdirectoryRecursive_head_refused dir s post h hs]
    simp only [Bool.false_eq_true, if_false]
    rw [← h, VfsDir.setSubdirs_self]
  | cons a pre ih =>
    intro dir h hw hall hs
    rw [List.cons_append] at h ⊢
    rw [List.map_cons, Clear_loop_cons,
      VfsDir.DeleteSubdirectoryRecursive_head dir a _ h hw (hall a (List.mem_cons_self _ _))]
    simp only [if_true]
    rw [ih (dir.setSubdirs (pre ++ s :: post)) (VfsDir.GetSubdirectories_setSubdirs _ _)
      ((VfsDir.IsWritable_setSubdirs _ _).trans hw)
      (fun x hx => hall x (List.mem_cons_of_mem _ hx)) hs, VfsDir.setSubdirs_setSubdirs]

/-- The deletion loop of `Boxcat::Clear` over `pre ++ n :: post` returns false with
the root as the deletions of `pre` left it when these succeed and that of `n` fails. -/
theorem Clear_loop_stops (pre post : List Bytes) (n : Bytes) :
    ∀ dir d1 : VfsDir, Boxcat.Clear.loop pre dir = (true, d1) →
      (d1.DeleteSubdirectoryRecursive n).1 = false →
      Boxcat.Clear.loop (pre ++ n :: post) dir = (false, (d1.DeleteSubdirectoryRecursive n).2) := by
  induction pre with
  | nil =>
    intro dir d1 h hf
    simp only [Boxcat.Clear.loop, Prod.mk.injEq, true_and] at h
    subst h
    simp [Boxcat.Clear.loop, hf]
  | cons a pre ih =>
    intro dir d1 h hf
    rw [List.cons_append, Clear_loop_cons]
    rw [Clear_loop_cons] at h
    split
    · rename_i hc
      rw [if_pos hc] at h
      exact ih _ _ h hf
    · rename_i hc
      rw [if_neg hc] at h
      simp at h

/-- The deletion loop of `Boxcat::Clear` returns true when every deletion it comes
to succeeds. -/
theorem Clear_loop_all_succeed (names : List Bytes) :
    ∀ dir : VfsDir,
      (∀ (pre post : List Bytes) (n : Bytes) (d1 : VfsDir), names = pre ++ n :: post →
        Boxcat.Clear.loop pre dir = (true, d1) →
        (d1.DeleteSubdirectoryRecursive n).1 = true) →
      (Boxcat.Clear.loop names dir).1 = true := by
  induction names with
  | nil => intro dir _; rfl
  | cons n rest ih =>
    intro dir H
    have h0 := H [] rest n dir rfl rfl
    rw [Clear_loop_cons, if_pos h0]
    apply ih
    intro pre post m d1 hsplit hloop
    apply H (n :: pre) post m d1 (by rw [hsplit]; rfl)
    rw [Clear_loop_cons, if_pos h0]
    exact hloop

/-- When the deletion loop of `Boxcat::Clear`, run over the names of all
subdirectories, returns true, no subdirectory is left and nothing else of the root
has changed. -/
theorem Clear_loop_true (l : List VfsDir) :
    ∀ dir d2 : VfsDir, dir.GetSubdirectories = l →
      Boxcat.Clear.loop (l.map VfsDir.GetName) dir = (true, d2) →
      d2 = dir.setSubdirs [] := by
  induction l with
  | nil =>
    intro dir d2 h hl
    simp only [List.map_nil, Boxcat.Clear.loop, Prod.mk.injEq, true_and] at hl
    rw [← hl, ← h, VfsDir.setSubdirs_self]
  | cons a l ih =>
    intro dir d2 h hl
    rw [List.map_cons, Clear_loop_cons] at hl
    by_cases hc : (dir.DeleteSubdirectoryRecursive a.GetName).1 = true
    · rw [if_pos hc, VfsDir.DeleteSubdirectoryRecursive_head_of_true dir a l h hc] at hl
      rw [ih (dir.setSubdirs l) d2 (VfsDir.GetSubdirectories_setSubdirs _ _) hl,
        VfsDir.setSubdirs_setSubdirs]
    · rw [if_neg hc] at hl
      simp at hl

/-- C15 (amended): with the local-data override off and a cache root that resolves,
`Boxcat::Clear` returns true when every deletion it comes to succeeds, and whenever
it returns true no subdirectory is left, the root's own files are kept, and a second
call returns true and changes nothing; on a root without subdirectories it returns
true and changes nothing. When the deletions of the names `pre` succeed and the next
one fails, it returns false with the root as the deletions of `pre` left it, nothing
after the failing name being deleted. In the modelled storage: on a writable root
with writable subdirectories all are removed, and on a writable root whose first
subdirectory that is not writable is `s`, those before `s` are removed and it returns
false with `s` and all after it still there. With the override on it returns true and
changes nothing at all. -/
theorem C15_Clear_removes_subdirectories (host : Host) (dir : VfsDir)
    (hdir : host.bcat_dir = some dir) :
    (host.bcat_boxcat_local = false →
      (∀ (pre post : List Bytes) (n : Bytes) (d1 : VfsDir),
        dir.GetSubdirectories.map VfsDir.GetName = pre ++ n :: post →
        Boxcat.Clear.loop pre dir = (true, d1) →
        (d1.DeleteSubdirectoryRecursive n).1 = true) →
      Boxcat.Clear host = some (true, { host with bcat_dir := some (dir.setSubdirs []) })) ∧
    (host.bcat_boxcat_local = false →
      ∀ host2, Boxcat.Clear host = some (true, host2) →
        host2 = { host with bcat_dir := some (dir.setSubdirs []) } ∧
        (dir.setSubdirs []).GetSubdirectories = [] ∧
        (dir.setSubdirs []).GetFiles = dir.GetFiles ∧
        Boxcat.Clear host2 = some (true, host2)) ∧
    (host.bcat_boxcat_local = false → dir.GetSubdirectories = [] →
      Boxcat.Clear host = some (true, host)) ∧
    (host.bcat_boxcat_local = false →
      ∀ (pre post : List Bytes) (n : Bytes) (d1 : VfsDir),
        dir.GetSubdirectories.map VfsDir.GetName = pre ++ n :: post →
        Boxcat.Clear.loop pre dir = (true, d1) →
        (d1.DeleteSubdirectoryRecursive n).1 = false →
        Boxcat.Clear host = some (false, { host with bcat_dir := some d1 })) ∧
    (host.bcat_boxcat_local = false → dir.IsWritable = true →
      (∀ s ∈ dir.GetSubdirectories, s.IsWritable = true) →
      Boxcat.Clear host = some (true, { host with bcat_dir := some (dir.setSubdirs []) })) ∧
    (host.bcat_boxcat_local = false → dir.IsWritable = true →
      ∀ (pre : List VfsDir) (s : VfsDir) (post : List VfsDir),
        dir.GetSubdirectories = pre ++ s :: post →
        (∀ x ∈ pre, x.IsWritable = true) → s.IsWritable = false →
        Boxcat.Clear host =
          some (false, { host with bcat_dir := some (dir.setSubdirs (s :: post)) })) ∧
    (host.bcat_boxcat_local = false → dir.IsWritable = false → dir.GetSubdirectories ≠ [] →
      Boxcat.Clear host = some (false, host)) ∧
    (host.bcat_boxcat_local = true → Boxcat.Clear host = some (true, host)) := by
  have hhost : ∀ d : VfsDir, d = dir → ({ host with bcat_dir := some d } : Host) = host := by
    intro d hd
    subst hd
    cases host
    simp only at hdir
    subst hdir
    rfl
  have hclear : host.bcat_boxcat_local = false →
      ∀ r, r = Boxcat.Clear.loop (dir.GetSubdirectories.map VfsDir.GetName) dir →
      Boxcat.Clear host = some (r.1, { host with bcat_dir := some r.2 }) := by
    intro hl r hr
    subst hr
    unfold Boxcat.Clear
    rw [if_neg (by rw [hl]; simp)]
    simp only [hdir]
  have htrue : host.bcat_boxcat_local = false →
      (Boxcat.Clear.loop (dir.GetSubdirectories.map VfsDir.GetName) dir).1 = true →
      Boxcat.Clear host = some (true, { host with bcat_dir := some (dir.setSubdirs []) }) := by
    intro hl ht
    rw [hclear hl _ rfl]
    have h2 := Clear_loop_true dir.GetSubdirectories dir
      (Boxcat.Clear.loop (dir.GetSubdirectories.map VfsDir.GetName) dir).2 rfl
      (by rw [← ht])
    rw [ht, h2]
  refine ⟨?_, ?_, ?_, ?_, ?_, ?_, ?_, ?_⟩
  · intro hl hall
    exact htrue hl (Clear_loop_all_succeed _ dir hall)
  · intro hl host2 h2
    have h1 := hclear hl _ rfl
    rw [h1] at h2
    simp only [Option.some.injEq, Prod.mk.injEq] at h2
    have h3 := htrue hl h2.1
    rw [h1] at h3
    simp only [Option.some.injEq, Prod.mk.injEq] at h3
    have hh : host2 = { host with bcat_dir := some (dir.setSubdirs []) } := by
      rw [← h2.2, h3.2]
    refine ⟨hh, VfsDir.GetSubdirectories_setSubdirs _ _, VfsDir.GetFiles_setSubdirs _ _, ?_⟩
    rw [hh]
    unfold Boxcat.Clear
    rw [if_neg (by simp [hl])]
    simp only [VfsDir.GetSubdirectories_setSubdirs, List.map_nil, Boxcat.Clear.loop]
  · intro hl he
    rw [hclear hl _ rfl, he]
    simp only [List.map_nil, Boxcat.Clear.loop]
    rw [hhost dir rfl]
  · intro hl pre post n d1 hnames hpre hfail
    rw [hclear hl _ rfl, hnames, Clear_loop_stops pre post n dir d1 hpre hfail,
      VfsDir.DeleteSubdirectoryRecursive_of_false d1 n hfail]
  · intro hl hw hall
    rw [hclear hl _ rfl, Clear_loop_writable _ dir rfl hw hall]
  · intro hl hw pre s post hsub hall hs
    rw [hclear hl _ rfl, hsub, Clear_loop_refused pre s post dir hsub hw hall hs]
  · intro hl hw hne
    rw [hclear hl _ rfl]
    cases hs : dir.GetSubdirectories with
    | nil => exact absurd hs hne
    | cons a l =>
      simp only [List.map_cons, Boxcat.Clear.loop,
        VfsDir.DeleteSubdirectoryRecursive_unwritable dir _ hw, Bool.not_false, if_true]
      rw [hhost dir rfl]
  · intro hl
    unfold Boxcat.Clear
    rw [if_pos hl]

/-- C15, as stated for every title, fails: with the local-data override on,
`Boxcat::Clear` on the root `{A, B}` returns true and both subdirectories are still
there. -/
theorem C15_Clear_skipped_under_override :
    (Boxcat.Clear { sampleHost with bcat_boxcat_local := true, bcat_dir := some sampleRootAB }).map
      (fun r => (r.1, r.2.bcat_dir.map (fun d => d.GetSubdirectories.map VfsDir.GetName))) =
    some (true, some [bytesOf "A", bytesOf "B"]) := by
  decide

/-- C15 (amended), at concrete inputs with the override off: on the writable root
`{A, B}` `Boxcat::Clear` returns true and leaves no subdirectory; on the root
`{A, B, C}` whose `B` cannot be deleted, the deletion of `A` succeeds, that of `B`
fails, and it returns false with `B` and `C` still there. -/
theorem C15_Clear_removes_subdirectories_witness :
    Boxcat.Clear { sampleHost with bcat_dir := some sampleRootAB } =
      some (true, { ({ sampleHost with bcat_dir := some sampleRootAB } : Host) with
        bcat_dir := some (sampleRootAB.setSubdirs []) }) ∧
    (sampleRootAB.setSubdirs []).GetSubdirectories = [] ∧
    Boxcat.Clear { sampleHost with bcat_dir := some sampleRootABC } =
      some (false, { ({ sampleHost with bcat_dir := some sampleRootABC } : Host) with
        bcat_dir := some (sampleRootABC.setSubdirs
          [.mk (bytesOf "B") [] [] true false, .mk (bytesOf "C") [] [] true true]) }) :=
  ⟨(C15_Clear_removes_subdirectories { sampleHost with bcat_dir := some sampleRootAB }
      sampleRootAB rfl).2.2.2.2.1 rfl rfl (by
        intro s hs
        simp only [sampleRootAB, VfsDir.GetSubdirectories, List.mem_cons, List.mem_singleton,
          List.not_mem_nil, or_false] at hs
        rcases hs with rfl | rfl <;> rfl),
   rfl,
   (C15_Clear_removes_subdirectories { sampleHost with bcat_dir := some sampleRootABC }
      sampleRootABC rfl).2.2.2.1 rfl [bytesOf "A"] [bytesOf "C"] (bytesOf "B")
      (sampleRootABC.setSubdirs
        [.mk (bytesOf "B") [] [] true false, .mk (bytesOf "C") [] [] true true])
      (by decide) rfl rfl⟩

/-! ## Enumerating the cached directories -/

theorem Enumerate_step (s : IDeliveryCacheStorageService) (ctx : HLERequestContext)
    (hk : s.entries.length < U64) (hc : s.next_read_index ≤ s.entries.length) (n : Nat)
    (hn : n = min (ctx.write_buffer_size / 0x20) (s.entries.length - s.next_read_index)) :
    s.EnumerateDeliveryCacheDirectory ctx =
      .returned { s with next_read_index := s.next_read_index + n }
        ((ctx.WriteBuffer ((s.entries.drop s.next_read_index).take n).flatten).respond
          .RESULT_SUCCESS [n % U32]) := by
  unfold IDeliveryCacheStorageService.EnumerateDeliveryCacheDirectory
  have h1 : (s.entries.length + U64 - s.next_read_index) % U64 =
      s.entries.length - s.next_read_index := by
    rw [show s.entries.length + U64 - s.next_read_index =
      (s.entries.length - s.next_read_index) + U64 by omega, Nat.add_mod_right]
    exact Nat.mod_eq_of_lt (by omega)
  have h2 : (s.next_read_index + n) % U64 = s.next_read_index + n := by
    apply Nat.mod_eq_of_lt
    have := Nat.min_le_right (ctx.write_buffer_size / 0x20)
      (s.entries.length - s.next_read_index)
    omega
  simp only [HLERequestContext.GetWriteBufferSize, h1, ← hn, h2]

theorem enumerateAll_spec (sizes : List Nat) :
    ∀ s : IDeliveryCacheStorageService, s.entries.length < U64 →
      s.next_read_index ≤ s.entries.length →
      (s.enumerateAll sizes).1.entries = s.entries ∧
      s.next_read_index ≤ (s.enumerateAll sizes).1.next_read_index ∧
      (s.enumerateAll sizes).1.next_read_index ≤ s.entries.length ∧
      (s.enumerateAll sizes).2.flatten =
        ((s.entries.drop s.next_read_index).take
          ((s.enumerateAll sizes).1.next_read_index - s.next_read_index)).flatten := by
  induction sizes with
  | nil =>
    intro s _ hc
    simp [IDeliveryCacheStorageService.enumerateAll, hc]
  | cons w ws ih =>
    intro s hk hc
    have hstep := Enumerate_step s ⟨w, [], [], []⟩ hk hc _ rfl
    have hn := Nat.min_le_right (w / 0x20) (s.entries.length - s.next_read_index)
    generalize hm : min (w / 0x20) (s.entries.length - s.next_read_index) = m at hstep hn
    rw [IDeliveryCacheStorageService.enumerateAll]
    simp only [hstep, Handled.state, Handled.ctx]
    obtain ⟨a1, a2, a3, a4⟩ := ih { s with next_read_index := s.next_read_index + m } hk
      (by simp only; omega)
    simp only at a1 a2 a3 a4
    refine ⟨a1, by omega, a3, ?_⟩
    rw [List.flatten_cons, a4]
    simp only [HLERequestContext.respond, HLERequestContext.WriteBuffer, List.nil_append,
      List.flatten_cons, List.flatten_nil, List.append_nil]
    rw [← List.flatten_append]
    congr 1
    generalize hcf : (IDeliveryCacheStorageService.enumerateAll
      { s with next_read_index := s.next_read_index + m } ws).1.next_read_index = cf
      at a2 a3 ⊢
    have : cf - s.next_read_index = m + (cf - (s.next_read_index + m)) := by omega
    rw [this, List.take_add, List.drop_drop]

theorem create_entries_length (root : VfsDir) (s0 : IDeliveryCacheStorageService)
    (h : IDeliveryCacheStorageService.create (some root) = some s0) :
    s0.next_read_index = 0 ∧ s0.entries.length = root.GetSubdirectories.length ∧
      ∀ e ∈ s0.entries, e.length = 0x20 := by
  simp only [IDeliveryCacheStorageService.create, Option.some.injEq] at h
  subst h
  refine ⟨rfl, by simp, ?_⟩
  intro e he
  simp only [List.mem_map] at he
  obtain ⟨d, _, rfl⟩ := he
  simp only [memcpy, List.length_append, List.length_take, List.length_drop,
    List.length_replicate]
  omega

theorem flatten_length_of_fixed (l : List Bytes) (w : Nat) (h : ∀ e ∈ l, e.length = w) :
    l.flatten.length = l.length * w := by
  induction l with
  | nil => simp
  | cons a l ih =>
    simp only [List.flatten_cons, List.length_append, List.length_cons]
    rw [ih (fun e he => h e (List.mem_cons_of_mem _ he)), h a (List.mem_cons_self _ _)]
    ring

/-- C19: a storage session created on a root with `k` subdirectories (`k` below
2^64, the range of the cursor) holds a snapshot of `k` names of 0x20 bytes and a
cursor at 0. After any sequence of `EnumerateDeliveryCacheDirectory` calls the
snapshot is the same, the cursor is at most `k`, and the buffers written by the
calls, concatenated in call order, are the first `cursor` names of the snapshot. The
next call, with a buffer that has room for `capacity` names, returns; it writes the
`n = min capacity (k - cursor)` names that start at the cursor (`n * 0x20` bytes),
reports `n` as a 32-bit count and moves the cursor to `cursor + n`, which is at most
`k`; with the cursor at `k` it writes no name. -/
theorem C19_enumerate_pages_in_order (root : VfsDir) (sizes : List Nat)
    (hk : root.GetSubdirectories.length < U64) :
    ∃ s0 : IDeliveryCacheStorageService,
      IDeliveryCacheStorageService.create (some root) = some s0 ∧
      s0.next_read_index = 0 ∧
      s0.entries.length = root.GetSubdirectories.length ∧
      (∀ e ∈ s0.entries, e.length = 0x20) ∧
      (s0.enumerateAll sizes).1.entries = s0.entries ∧
      (s0.enumerateAll sizes).1.next_read_index ≤ root.GetSubdirectories.length ∧
      (s0.enumerateAll sizes).2.flatten =
        (s0.entries.take (s0.enumerateAll sizes).1.next_read_index).flatten ∧
      ∀ (ctx : HLERequestContext) (n : Nat),
        n = min (ctx.write_buffer_size / 0x20)
          (root.GetSubdirectories.length - (s0.enumerateAll sizes).1.next_read_index) →
        (s0.enumerateAll sizes).1.EnumerateDeliveryCacheDirectory ctx =
          .returned
            { (s0.enumerateAll sizes).1 with
              next_read_index := (s0.enumerateAll sizes).1.next_read_index + n }
            ((ctx.WriteBuffer ((s0.entries.drop
              (s0.enumerateAll sizes).1.next_read_index).take n).flatten).respond
                .RESULT_SUCCESS [n % U32]) ∧
        ((s0.entries.drop (s0.enumerateAll sizes).1.next_read_index).take n).length = n ∧
        ((s0.entries.drop
          (s0.enumerateAll sizes).1.next_read_index).take n).flatten.length = n * 0x20 ∧
        (s0.enumerateAll sizes).1.next_read_index + n ≤ root.GetSubdirectories.length ∧
        ((s0.enumerateAll sizes).1.next_read_index = root.GetSubdirectories.length →
          n = 0) := by
  obtain ⟨s0, hs0⟩ : ∃ s0, IDeliveryCacheStorageService.create (some root) = some s0 :=
    ⟨_, rfl⟩
  obtain ⟨c0, hlen, hfix⟩ := create_entries_length root s0 hs0
  obtain ⟨a1, _, a3, a4⟩ := enumerateAll_spec sizes s0 (by omega) (by omega)
  rw [c0] at a4
  simp only [List.drop_zero, Nat.sub_zero] at a4
  refine ⟨s0, hs0, c0, hlen, hfix, a1, by omega, a4, ?_⟩
  intro ctx n hn
  have hle := Nat.min_le_right (ctx.write_buffer_size / 0x20)
    (root.GetSubdirectories.length - (s0.enumerateAll sizes).1.next_read_index)
  have hstep := Enumerate_step (s0.enumerateAll sizes).1 ctx (by rw [a1]; omega)
    (by rw [a1]; omega) n (by rw [a1, hlen]; exact hn)
  have hcount : ((s0.entries.drop (s0.enumerateAll sizes).1.next_read_index).take n).length
      = n := by
    rw [List.length_take, List.length_drop]
    omega
  refine ⟨?_, hcount, ?_, by omega, by omega⟩
  · rw [hstep]
    simp only [a1]
  rw [flatten_length_of_fixed _ 0x20, hcount]
  intro e he
  exact hfix e (List.mem_of_mem_drop (List.mem_of_mem_take he))

theorem C19_enumerate_pages_in_order_witness :
    sampleRootAB.GetSubdirectories.length < U64 ∧
    ∃ s0 : IDeliveryCacheStorageService,
      IDeliveryCacheStorageService.create (some sampleRootAB) = some s0 ∧
      (s0.enumerateAll [0x20, 0x48, 0x20]).1.next_read_index = 2 ∧
      (s0.enumerateAll [0x20, 0x48, 0x20]).2.flatten = s0.entries.flatten :=
  have h := C19_enumerate_pages_in_order sampleRootAB [0x20, 0x48, 0x20] (by decide)
  ⟨by decide, by
    obtain ⟨s0, hs0, _, hlen, _, _, _, hpages, _⟩ := h
    refine ⟨s0, hs0, ?_, ?_⟩
    · simp only [IDeliveryCacheStorageService.create, Option.some.injEq] at hs0
      subst hs0
      decide
    · have hc : (s0.enumerateAll [0x20, 0x48, 0x20]).1.next_read_index = 2 := by
        simp only [IDeliveryCacheStorageService.create, Option.some.injEq] at hs0
        subst hs0
        decide
      rw [hpages, hc, List.take_of_length_le]
      rw [hlen]
      decide⟩

/-! ## Listing an open directory -/

/-- C20: with a directory open, `Read` with room for `m` entries returns; it writes
the rows of the first `min m k` of the `k` files, in order, each with the name copied
into a zeroed field of 0x20 bytes, the size and the digest of the content, and
`GetCount` reports `k`. The value `Read` pushes is the length of these rows in bytes,
`min m k * 0x38`, not their number: on a directory with one file and a buffer for one
entry it writes one row and pushes 56. -/
theorem C20_Read_reports_byte_length :
    (∀ (md5 : Bytes → Bytes) (s : IDeliveryCacheDirectoryService) (ctx : HLERequestContext)
        (dir : VfsDir), s.current_dir = some dir →
      s.Read md5 ctx =
        .returned s
          ((ctx.WriteBuffer
            (((dir.GetFiles.take (min (ctx.write_buffer_size / 0x38)
              dir.GetFiles.length)).map
                (IDeliveryCacheDirectoryService.Read.entry md5)).map
                  DeliveryCacheDirectoryEntry.bytes).flatten).respond .RESULT_SUCCESS
            [min (ctx.write_buffer_size / 0x38) dir.GetFiles.length * 0x38 % U32]) ∧
      ((dir.GetFiles.take (min (ctx.write_buffer_size / 0x38) dir.GetFiles.length)).map
        (IDeliveryCacheDirectoryService.Read.entry md5)).length =
          min (ctx.write_buffer_size / 0x38) dir.GetFiles.length ∧
      s.GetCount ctx =
        .returned s (ctx.respond .RESULT_SUCCESS [dir.GetFiles.length % U32])) ∧
    (∀ (md5 : Bytes → Bytes) (file : VfsFile),
      (IDeliveryCacheDirectoryService.Read.entry md5 file).name =
        file.GetName.take 0x20 ++ List.replicate (0x20 - file.GetName.length) 0 ∧
      (IDeliveryCacheDirectoryService.Read.entry md5 file).size = file.GetSize ∧
      (IDeliveryCacheDirectoryService.Read.entry md5 file).digest =
        md5 file.ReadAllBytes) ∧
    (∀ md5 : Bytes → Bytes,
      (IDeliveryCacheDirectoryService.Read md5
        ⟨some sampleRootAB, sampleRootAB.GetSubdirectory (bytesOf "A")⟩
        ⟨0x38, [], [], []⟩).ctx.responses = [⟨.RESULT_SUCCESS, [56]⟩] ∧
      (IDeliveryCacheDirectoryService.Read md5
        ⟨some sampleRootAB, sampleRootAB.GetSubdirectory (bytesOf "A")⟩
        ⟨0x38, [], [], []⟩).ctx.written =
          [(IDeliveryCacheDirectoryService.Read.entry md5
            { VfsFile.fresh (bytesOf "x") with data := [1] }).bytes] ∧
      (IDeliveryCacheDirectoryService.GetCount
        ⟨some sampleRootAB, sampleRootAB.GetSubdirectory (bytesOf "A")⟩
        ⟨0x38, [], [], []⟩).ctx.responses = [⟨.RESULT_SUCCESS, [1]⟩]) := by
  refine ⟨?_, ?_, ?_⟩
  · intro md5 s ctx dir h
    refine ⟨?_, ?_, ?_⟩
    · simp only [IDeliveryCacheDirectoryService.Read, h, HLERequestContext.GetWriteBufferSize,
        DeliveryCacheDirectoryEntry.sizeof]
    · rw [List.length_map, List.length_take]
      exact Nat.min_eq_left (Nat.min_le_right _ _)
    · simp only [IDeliveryCacheDirectoryService.GetCount, h]
  · intro md5 file
    refine ⟨?_, rfl, rfl⟩
    simp only [IDeliveryCacheDirectoryService.Read.entry, memcpy, List.drop_replicate]
    rcases Nat.le_total file.GetName.length 0x20 with hle | hle
    · rw [Nat.min_eq_left hle, List.take_of_length_le (Nat.le_refl _),
        List.take_of_length_le hle]
    · rw [Nat.min_eq_right hle, Nat.sub_eq_zero_of_le hle]
  · intro md5
    refine ⟨rfl, ?_, rfl⟩
    have h : sampleRootAB.GetSubdirectory (bytesOf "A") =
        some (.mk (bytesOf "A") [{ VfsFile.fresh (bytesOf "x") with data := [1] }] [] true
          true) := rfl
    rw [h]
    simp only [IDeliveryCacheDirectoryService.Read, Handled.ctx, HLERequestContext.respond,
      HLERequestContext.WriteBuffer, HLERequestContext.GetWriteBufferSize,
      DeliveryCacheDirectoryEntry.sizeof, VfsDir.GetFiles, List.nil_append]
    simp

/-! ## Synchronizing one directory -/

theorem putFileIn_append_new (f g : VfsFile) (hg : g.name = f.name) (l : List VfsFile)
    (hl : l.find? (fun x => x.name == f.name) = none) :
    VfsDir.putFileIn f (l ++ [g]) = l ++ [f] := by
  induction l with
  | nil => simp [VfsDir.putFileIn, hg]
  | cons a l ih =>
    rw [List.find?_cons] at hl
    cases ha : a.name == f.name with
    | true => rw [ha] at hl; simp at hl
    | false =>
      rw [ha] at hl
      simp only [List.cons_append, VfsDir.putFileIn, ha, Bool.false_eq_true, if_false]
      exact congrArg _ (ih hl)

theorem deleteFiles_cons (d : VfsDir) (a : Bytes) (l : List Bytes) :
    deleteFiles d (a :: l) = deleteFiles (VfsDeleteFileWrap d a).2 l := rfl

theorem deleteFiles_all (l : List VfsFile) :
    ∀ d : VfsDir, d.GetFiles = l → d.IsWritable = true →
      (∀ f ∈ l, f.IsWritable = true) →
      deleteFiles d (l.map VfsFile.GetName) = d.setFiles [] := by
  induction l with
  | nil =>
    intro d h _ _
    have : d.setFiles [] = d := by rw [← h]; exact VfsDir.setFiles_self d
    rw [this]
    rfl
  | cons a l ih =>
    intro d h hw hall
    rw [List.map_cons, deleteFiles_cons]
    unfold VfsDeleteFileWrap
    rw [show a.GetName = a.name from rfl,
      VfsDir.DeleteFile_head d a l h hw (hall a (List.mem_cons_self _ _))]
    simp only
    rw [ih (d.setFiles l) (VfsDir.GetFiles_setFiles _ _)
      (by rw [VfsDir.IsWritable_setFiles]; exact hw)
      (fun f hf => hall f (List.mem_cons_of_mem _ hf)), VfsDir.setFiles_setFiles]

theorem deleteFiles_unwritable (names : List Bytes) (d : VfsDir)
    (hw : d.IsWritable = false) : deleteFiles d names = d := by
  induction names with
  | nil => rfl
  | cons a l ih =>
    rw [deleteFiles_cons]
    have : (VfsDeleteFileWrap d a).2 = d := by
      unfold VfsDeleteFileWrap VfsDir.DeleteFile
      split <;> simp [hw]
    rw [this, ih]

/-- The file loop of `VfsRawCopyDProgressSingle`, when it copies files of distinct
names none of which is in the writable destination, appends one new file for each,
in order, with the bytes of the source file. -/
theorem single_loop_files (nm : Bytes) (b : Nat) (files : List VfsFile) :
    ∀ (dest : VfsDir) (p : ProgressServiceBackend) (d1 : VfsDir)
      (p1 : ProgressServiceBackend),
      VfsRawCopyDProgressSingle.loop nm b files dest p = some (true, d1, p1) →
      (files.map VfsFile.name).Nodup → (∀ f ∈ files, f.GetSize < U64) →
      (∀ f ∈ files, dest.GetFile f.name = none) → dest.IsWritable = true →
      d1 = dest.setFiles (dest.GetFiles ++
        files.map (fun f => { VfsFile.fresh f.name with data := f.data })) := by
  induction files with
  | nil =>
    intro dest p d1 p1 h _ _ _ _
    simp only [VfsRawCopyDProgressSingle.loop, Option.some.injEq, Prod.mk.injEq, true_and] at h
    rw [← h.1, List.map_nil, List.append_nil, VfsDir.setFiles_self]
  | cons f rest ih =>
    intro dest p d1 p1 h hnd hsz hnew hw
    rw [single_loop_cons] at h
    have hc0 : VfsCreateFileWrap dest f.GetName =
        (dest.setFiles (dest.GetFiles ++ [VfsFile.fresh f.name]),
          some (VfsFile.fresh f.name)) := by
      unfold VfsCreateFileWrap VfsDir.CreateFile
      rw [show f.GetName = f.name from rfl, hnew f (List.mem_cons_self _ _)]
      simp only [hw, if_true]
    rw [hc0] at h
    simp only at h
    cases hc : VfsRawCopyProgress (some f) (some (VfsFile.fresh f.name)) nm p b with
    | none => rw [hc] at h; simp at h
    | some r =>
      obtain ⟨ok1, out, pm⟩ := r
      rw [hc] at h
      cases ok1 with
      | false => simp at h
      | true =>
        simp only [] at h
        have hout := VfsRawCopyProgress_content f (VfsFile.fresh f.name) nm p b out pm
          (hsz f (List.mem_cons_self _ _)) hc
        rw [hout] at h
        rw [List.map_cons, List.nodup_cons] at hnd
        have hfind : dest.GetFiles.find? (fun x => x.name == f.name) = none :=
          hnew f (List.mem_cons_self _ _)
        have hput : (dest.setFiles (dest.GetFiles ++ [VfsFile.fresh f.name])).PutFile
            (some { VfsFile.fresh f.name with data := f.data }) =
            dest.setFiles (dest.GetFiles ++ [{ VfsFile.fresh f.name with data := f.data }]) := by
          simp only [VfsDir.PutFile, VfsDir.GetFiles_setFiles, VfsDir.setFiles_setFiles]
          exact congrArg _ (putFileIn_append_new { VfsFile.fresh f.name with data := f.data }
            (VfsFile.fresh f.name) rfl _ hfind)
        rw [hput] at h
        have := ih _ _ _ _ h hnd.2 (fun g hg => hsz g (List.mem_cons_of_mem _ hg))
          (by
            intro g hg
            unfold VfsDir.GetFile
            rw [VfsDir.GetFiles_setFiles, List.find?_append]
            have h1 := hnew g (List.mem_cons_of_mem _ hg)
            unfold VfsDir.GetFile at h1
            rw [h1]
            have hne : f.name ≠ g.name := by
              intro he
              exact hnd.1 (he ▸ List.mem_map_of_mem VfsFile.name hg)
            simp [List.find?_cons, VfsFile.fresh, hne])
          (by rw [VfsDir.IsWritable_setFiles]; exact hw)
        rw [this, VfsDir.GetFiles_setFiles, VfsDir.setFiles_setFiles, List.map_cons,
          List.append_assoc]
        rfl
theorem GetName_of_GetSubdirectory (d s : VfsDir) (n : Bytes)
    (h : d.GetSubdirectory n = some s) : s.GetName = n := by
  unfold VfsDir.GetSubdirectory at h
  have := List.find?_some h
  simpa using this

theorem FinishDownload_result (p : ProgressServiceBackend) (r : ResultCode) :
    (p.FinishDownload r).impl.result = r := by
  simp [ProgressServiceBackend.FinishDownload, ProgressServiceBackend.SignalUpdate_impl]

/-- What the directory-scoped branch of `SynchronizeInternal` does once the archive
is extracted, as a function of the outcome of `VfsRawCopyDProgressSingle`. -/
theorem SynchronizeInternal_directory (host : Host) (title : TitleIDVersion)
    (p : ProgressServiceBackend) (name : Bytes) (root extracted ssub tsub : VfsDir)
    (hlocal : host.bcat_boxcat_local = false)
    (hfetch : (DownloadDataZip host title).1 = .Success)
    (hext : host.ExtractZIP (DownloadDataZip host title).2.ReadAll = some extracted)
    (hroot : host.bcat_dir = some root)
    (hss : extracted.GetSubdirectory name = some ssub)
    (hts : root.GetSubdirectory name = some tsub)
    (host2 : Host) (p2 : ProgressServiceBackend)
    (hrun : SynchronizeInternal host title p (some name) = .returned (host2, p2))
    (hok : p2.impl.result = .RESULT_SUCCESS) :
    ∃ t1 p1, VfsRawCopyDProgressSingle (some ssub)
        (some (deleteFiles tsub (tsub.GetFiles.map VfsFile.GetName)))
        ((((p.SetNeedHLELock true).StartConnecting).StartProcessingDataList).SetTotalSize
          ssub.GetSize) = some (true, t1, p1) ∧
      host2.bcat_dir = some (root.PutSubdirectory t1) := by
  unfold SynchronizeInternal at hrun
  simp only [hlocal, Bool.false_eq_true, if_false, hfetch, ne_eq, not_true_eq_false, hroot,
    hext, hss, hts] at hrun
  split at hrun
  · simp only [Run.returned.injEq, Prod.mk.injEq] at hrun
    rw [← hrun.2, FinishDownload_result] at hok
    exact absurd hok (by decide)
  · split at hrun
    · exact absurd hrun (by simp)
    · simp only [Run.returned.injEq, Prod.mk.injEq] at hrun
      rw [← hrun.2, FinishDownload_result] at hok
      exact absurd hok (by decide)
    · rename_i t1 p1 heq
      simp only [Run.returned.injEq, Prod.mk.injEq] at hrun
      refine ⟨t1, p1, heq, ?_⟩
      rw [← hrun.1]

/-- A directory-scoped `SynchronizeInternal` for the name `d`, with the local-data
override off, the fetch outcome `Success`, an archive and a cache root that both have
a subdirectory `d`, the archive's `d` listing files of distinct names and of sizes
below 2^64, and no write-protected file in the root's `d`, that returns with the
result `RESULT_SUCCESS` leaves the cache root so that its subdirectory `d` lists
exactly one new file for each file of the archive's `d`, in the same order, with the
same name and the same bytes: each of these names opens a file with the archive's
bytes, every other name opens nothing there, and the subdirectories of `d` are as
before. Every subdirectory of the root under another name is what it was, and so are
the files of the root and the number of its subdirectories. -/
theorem directory_sync_replaces_files (host : Host) (title : TitleIDVersion)
    (p : ProgressServiceBackend) (name : Bytes) (root extracted ssub tsub : VfsDir)
    (host2 : Host) (p2 : ProgressServiceBackend)
    (hlocal : host.bcat_boxcat_local = false)
    (hfetch : (DownloadDataZip host title).1 = .Success)
    (hext : host.ExtractZIP (DownloadDataZip host title).2.ReadAll = some extracted)
    (hroot : host.bcat_dir = some root)
    (hss : extracted.GetSubdirectory name = some ssub)
    (hts : root.GetSubdirectory name = some tsub)
    (hnd : (ssub.GetFiles.map VfsFile.name).Nodup)
    (hsz : ∀ f ∈ ssub.GetFiles, f.GetSize < U64)
    (hdel : ∀ f ∈ tsub.GetFiles, f.IsWritable = true)
    (hrun : SynchronizeInternal host title p (some name) = .returned (host2, p2))
    (hok : p2.impl.result = .RESULT_SUCCESS) :
    ∃ root2 tsub2, host2.bcat_dir = some root2 ∧
      root2.GetSubdirectory name = some tsub2 ∧
      tsub2.GetFiles =
        ssub.GetFiles.map (fun f => { VfsFile.fresh f.name with data := f.data }) ∧
      (∀ f ∈ ssub.GetFiles, ∃ x, tsub2.GetFile f.name = some x ∧ x.data = f.data) ∧
      (∀ g, g ∉ ssub.GetFiles.map VfsFile.name → tsub2.GetFile g = none) ∧
      tsub2.GetSubdirectories = tsub.GetSubdirectories ∧
      (∀ n, n ≠ name → root2.GetSubdirectory n = root.GetSubdirectory n) ∧
      root2.GetFiles = root.GetFiles ∧
      root2.GetSubdirectories.length = root.GetSubdirectories.length := by
  obtain ⟨t1, p1, hsingle, hdir⟩ := SynchronizeInternal_directory host title p name root
    extracted ssub tsub hlocal hfetch hext hroot hss hts host2 p2 hrun hok
  have htn : tsub.GetName = name := GetName_of_GetSubdirectory root tsub name hts
  -- the destination subdirectory is writable, or the copy had failed
  have hw : tsub.IsWritable = true := by
    cases hw : tsub.IsWritable with
    | true => rfl
    | false =>
      rw [deleteFiles_unwritable _ _ hw] at hsingle
      unfold VfsRawCopyDProgressSingle at hsingle
      simp [hw] at hsingle
  rw [deleteFiles_all _ tsub rfl hw hdel] at hsingle
  have hr : ssub.IsReadable = true := by
    cases hr : ssub.IsReadable with
    | true => rfl
    | false =>
      unfold VfsRawCopyDProgressSingle at hsingle
      simp [hr] at hsingle
  rw [VfsRawCopyDProgressSingle_of_loop ssub _ _ _ hr
    (by rw [VfsDir.IsWritable_setFiles]; exact hw)] at hsingle
  cases hloop : VfsRawCopyDProgressSingle.loop ssub.GetName 0x1000 ssub.GetFiles
      (tsub.setFiles [])
      ((((p.SetNeedHLELock true).StartConnecting).StartProcessingDataList).SetTotalSize
        ssub.GetSize) with
  | none => rw [hloop] at hsingle; simp at hsingle
  | some r =>
    obtain ⟨ok, d1, q1⟩ := r
    rw [hloop] at hsingle
    cases ok with
    | false => simp at hsingle
    | true =>
      simp only [Option.some.injEq, Prod.mk.injEq, true_and] at hsingle
      have hd1 := single_loop_files _ _ _ _ _ _ _ hloop hnd hsz
        (by intro f _; unfold VfsDir.GetFile; rw [VfsDir.GetFiles_setFiles]; rfl)
        (by rw [VfsDir.IsWritable_setFiles]; exact hw)
      rw [VfsDir.GetFiles_setFiles, List.nil_append, VfsDir.setFiles_setFiles] at hd1
      have hfiles : d1.GetFiles =
          ssub.GetFiles.map (fun f => { VfsFile.fresh f.name with data := f.data }) := by
        rw [hd1, VfsDir.GetFiles_setFiles]
      have hname : d1.GetName = name := by rw [hd1, VfsDir.GetName_setFiles, htn]
      rw [← hsingle.1] at hdir
      refine ⟨root.PutSubdirectory (some d1), d1, hdir, ?_, hfiles,
        single_loop_content _ _ _ _ _ _ _ hloop hnd hsz, ?_, ?_, ?_, ?_, ?_⟩
      · have := VfsDir.GetSubdirectory_PutSubdirectory_eq root d1
          (by rw [hname, hts]; rfl)
        rw [hname] at this
        exact this
      · intro g hg
        unfold VfsDir.GetFile
        rw [hfiles, List.find?_eq_none]
        intro x hx
        simp only [List.mem_map] at hx
        obtain ⟨f, hf, rfl⟩ := hx
        have : f.name ≠ g := fun he => hg (he ▸ List.mem_map_of_mem VfsFile.name hf)
        simpa [VfsFile.fresh] using this
      · rw [hd1, VfsDir.GetSubdirectories_setFiles]
      · intro n hn
        exact VfsDir.GetSubdirectory_PutSubdirectory_ne root (some d1) n
          (by intro s hs; simp only [Option.some.injEq] at hs; rw [← hs, hname]; exact Ne.symm hn)
      · exact (VfsDir.PutSubdirectory_frame root (some d1)).1
      · unfold VfsDir.PutSubdirectory
        rw [VfsDir.GetSubdirectories_setSubdirs]
        generalize root.GetSubdirectories = l
        induction l with
        | nil => rfl
        | cons a l ih =>
          unfold VfsDir.putDirIn
          split
          · rfl
          · simp only [List.length_cons, ih]

/-- C11: a directory-scoped `SynchronizeInternal` that returns with
`RESULT_SUCCESS` replaces the files of the root's subdirectory `d` by those of the
archive's `d` when every file that was there can be deleted: on `sampleHostDest`,
`d1` held `a` (byte 9) and `keep` (byte 7) and afterwards lists `a` with the bytes
1, 2 and nothing else. But the run does not look at the result of
`VfsDeleteFileWrap`: on `sampleHostLocked`, where the deletion of `keep` is refused,
the run still returns with status `Done` and `RESULT_SUCCESS`, and `d1` lists `keep`
with byte 7 besides the archive's `a`. -/
theorem C11_undeleted_file_survives_sync :
    (∀ (host : Host) (title : TitleIDVersion) (p : ProgressServiceBackend) (name : Bytes)
        (root extracted ssub tsub : VfsDir) (host2 : Host) (p2 : ProgressServiceBackend),
      host.bcat_boxcat_local = false →
      (DownloadDataZip host title).1 = .Success →
      host.ExtractZIP (DownloadDataZip host title).2.ReadAll = some extracted →
      host.bcat_dir = some root →
      extracted.GetSubdirectory name = some ssub →
      root.GetSubdirectory name = some tsub →
      (ssub.GetFiles.map VfsFile.name).Nodup →
      (∀ f ∈ ssub.GetFiles, f.GetSize < U64) →
      (∀ f ∈ tsub.GetFiles, f.IsWritable = true) →
      SynchronizeInternal host title p (some name) = .returned (host2, p2) →
      p2.impl.result = .RESULT_SUCCESS →
      ∃ root2 tsub2, host2.bcat_dir = some root2 ∧
        root2.GetSubdirectory name = some tsub2 ∧
        tsub2.GetFiles =
          ssub.GetFiles.map (fun f => { VfsFile.fresh f.name with data := f.data }) ∧
        (∀ g, g ∉ ssub.GetFiles.map VfsFile.name → tsub2.GetFile g = none) ∧
        (∀ n, n ≠ name → root2.GetSubdirectory n = root.GetSubdirectory n)) ∧
    (∃ s, SynchronizeInternal sampleHostDest ⟨1, 1⟩ idleTracker (some (bytesOf "d1")) =
        .returned s ∧
      s.2.impl.result = .RESULT_SUCCESS ∧
      (s.1.bcat_dir.bind (fun r => r.GetSubdirectory (bytesOf "d1"))).map VfsDir.GetFiles =
        some [{ VfsFile.fresh (bytesOf "a") with data := [1, 2] }]) ∧
    (sampleDestLocked.GetSubdirectory (bytesOf "d1")).map
        (fun d => (VfsDeleteFileWrap d (bytesOf "keep")).1) = some false ∧
    (∃ s, SynchronizeInternal sampleHostLocked ⟨1, 1⟩ idleTracker (some (bytesOf "d1")) =
        .returned s ∧
      s.2.impl.status = .Done ∧ s.2.impl.result = .RESULT_SUCCESS ∧
      (s.1.bcat_dir.bind (fun r => r.GetSubdirectory (bytesOf "d1"))).map VfsDir.GetFiles =
        some [{ VfsFile.fresh (bytesOf "keep") with data := [7], writable := false },
              { VfsFile.fresh (bytesOf "a") with data := [1, 2] }] ∧
      (s.1.bcat_dir.bind (fun r => r.lookup (bytesOf "d1") (bytesOf "keep"))).map
        VfsFile.data = some [7]) := by
  refine ⟨?_, ⟨_, rfl, by decide, by decide⟩, by decide,
    ⟨_, rfl, by decide, by decide, by decide, by decide⟩⟩
  intro host title p name root extracted ssub tsub host2 p2 hlocal hfetch hext hroot hss hts
    hnd hsz hdel hrun hok
  obtain ⟨root2, tsub2, h1, h2, h3, _, h5, _, h7, _⟩ :=
    directory_sync_replaces_files host title p name root extracted ssub tsub host2 p2 hlocal
      hfetch hext hroot hss hts hnd hsz hdel hrun hok
  exact ⟨root2, tsub2, h1, h2, h3, h5, h7⟩

/-! ## Opening by name -/

theorem VerifyNameValidDir_true_ctx (ctx : HLERequestContext) (name : Bytes)
    (h : (VerifyNameValidDir ctx name).1 = true) : (VerifyNameValidDir ctx name).2 = ctx := by
  have := VerifyNameValidInternal_ctx ctx name 45
  unfold VerifyNameValidDir at h ⊢
  rw [this, h]; rfl

theorem VerifyNameValidFile_true_ctx (ctx : HLERequestContext) (name : Bytes)
    (h : (VerifyNameValidFile ctx name).1 = true) : (VerifyNameValidFile ctx name).2 = ctx := by
  have := VerifyNameValidInternal_ctx ctx name 46
  unfold VerifyNameValidFile at h ⊢
  rw [this, h]; rfl

theorem VerifyNameValidDir_false_ctx (ctx : HLERequestContext) (name : Bytes)
    (h : (VerifyNameValidDir ctx name).1 = false) :
    (VerifyNameValidDir ctx name).2 = ctx.respond .ERROR_INVALID_ARGUMENT := by
  have := VerifyNameValidInternal_ctx ctx name 45
  unfold VerifyNameValidDir at h ⊢
  rw [this, h]; rfl

theorem VerifyNameValidFile_false_ctx (ctx : HLERequestContext) (name : Bytes)
    (h : (VerifyNameValidFile ctx name).1 = false) :
    (VerifyNameValidFile ctx name).2 = ctx.respond .ERROR_INVALID_ARGUMENT := by
  have := VerifyNameValidInternal_ctx ctx name 46
  unfold VerifyNameValidFile at h ⊢
  rw [this, h]; rfl

/-- C21: when the directory name or the file name fails validation, `Open` of a
file sub-session returns with the invalid-argument error as its one response and the
session as it was, its open-file slot included; this holds for every session, also
one whose root is null, on which a lookup would not return. `Open` of a directory
sub-session with a name that fails validation does the same with its open-directory
slot. -/
theorem C21_invalid_name_rejected (s : IDeliveryCacheFileService)
    (d : IDeliveryCacheDirectoryService) (ctx : HLERequestContext)
    (dir_name file_name : Bytes)
    (h : (VerifyNameValidDir ctx dir_name).1 = false ∨
      (VerifyNameValidFile ctx file_name).1 = false) :
    s.Open ctx dir_name file_name = .returned s (ctx.respond .ERROR_INVALID_ARGUMENT) ∧
    (s.Open ctx dir_name file_name).state.current_file = s.current_file ∧
    (s.Open ctx dir_name file_name).ctx.responses =
      ctx.responses ++ [⟨.ERROR_INVALID_ARGUMENT, []⟩] ∧
    ((VerifyNameValidDir ctx dir_name).1 = false →
      d.Open ctx dir_name = .returned d (ctx.respond .ERROR_INVALID_ARGUMENT) ∧
      (d.Open ctx dir_name).state.current_dir = d.current_dir) := by
  have hfile : s.Open ctx dir_name file_name =
      .returned s (ctx.respond .ERROR_INVALID_ARGUMENT) := by
    unfold IDeliveryCacheFileService.Open
    by_cases hvd : (VerifyNameValidDir ctx dir_name).1 = true
    · have hvf : (VerifyNameValidFile ctx file_name).1 = false := by
        rcases h with h | h
        · rw [hvd] at h; exact absurd h (by decide)
        · exact h
      simp only [hvd, Bool.not_true, Bool.false_eq_true, if_false,
        VerifyNameValidDir_true_ctx ctx dir_name hvd, hvf, Bool.not_false, if_true,
        VerifyNameValidFile_false_ctx ctx file_name hvf]
    · have hvd2 : (VerifyNameValidDir ctx dir_name).1 = false := by simpa using hvd
      simp only [hvd2, Bool.not_false, if_true,
        VerifyNameValidDir_false_ctx ctx dir_name hvd2]
  refine ⟨hfile, by rw [hfile]; rfl, by rw [hfile]; rfl, ?_⟩
  intro hvd
  have hdir : d.Open ctx dir_name = .returned d (ctx.respond .ERROR_INVALID_ARGUMENT) := by
    unfold IDeliveryCacheDirectoryService.Open
    simp only [hvd, Bool.not_false, if_true]
    rw [VerifyNameValidDir_false_ctx ctx dir_name hvd]
  exact ⟨hdir, by rw [hdir]; rfl⟩

/-- C21, at concrete inputs: a file session holding `a.bin` asked to open
`has space` / `b.bin`, then `dir2` / the buffer of 0x20 letters, and a directory
session holding `dir1` asked to open `has space`. -/
theorem C21_invalid_name_rejected_witness :
    IDeliveryCacheFileService.Open
        ⟨some sampleDest, some (VfsFile.fresh (bytesOf "a.bin"))⟩ ⟨0, [], [], []⟩
        (bytesOf "has space" ++ List.replicate 23 0) (bytesOf "b.bin" ++ List.replicate 27 0) =
      .returned ⟨some sampleDest, some (VfsFile.fresh (bytesOf "a.bin"))⟩
        ((⟨0, [], [], []⟩ : HLERequestContext).respond .ERROR_INVALID_ARGUMENT) ∧
    IDeliveryCacheFileService.Open
        ⟨none, none⟩ ⟨0, [], [], []⟩
        (bytesOf "dir2" ++ List.replicate 28 0) (List.replicate 0x20 97) =
      .returned ⟨none, none⟩
        ((⟨0, [], [], []⟩ : HLERequestContext).respond .ERROR_INVALID_ARGUMENT) ∧
    IDeliveryCacheDirectoryService.Open
        ⟨some sampleDest, some (VfsDir.fresh (bytesOf "dir1"))⟩ ⟨0, [], [], []⟩
        (bytesOf "has space" ++ List.replicate 23 0) =
      .returned ⟨some sampleDest, some (VfsDir.fresh (bytesOf "dir1"))⟩
        ((⟨0, [], [], []⟩ : HLERequestContext).respond .ERROR_INVALID_ARGUMENT) :=
  ⟨(C21_invalid_name_rejected _ ⟨none, none⟩ _ _ _ (Or.inl (by decide))).1,
   (C21_invalid_name_rejected _ ⟨none, none⟩ _ _ _ (Or.inr (by decide))).1,
   ((C21_invalid_name_rejected ⟨none, none⟩ _ _ _ (List.replicate 0x20 0)
      (Or.inl (by decide))).2.2.2 (by decide)).1⟩

/-- C22: on a file sub-session with a root and no file open, `Open` with two valid
names returns; with `d` and `f` the strings the two buffers hold up to their first
null, it answers the failed-open error and leaves no file open when the root has no
subdirectory `d` or that subdirectory has no file `f`, and it answers success with
the slot holding the file `f` of `d` otherwise. The failed-open error is the answer
if and only if the subdirectory or the file is absent. -/
theorem C22_Open_fails_iff_absent (s : IDeliveryCacheFileService) (root : VfsDir)
    (ctx : HLERequestContext) (dir_name file_name : Bytes)
    (hroot : s.root = some root) (hfree : s.current_file = none)
    (hvd : (VerifyNameValidDir ctx dir_name).1 = true)
    (hvf : (VerifyNameValidFile ctx file_name).1 = true) :
    (root.GetSubdirectory
        (StringFromFixedZeroTerminatedBuffer dir_name dir_name.length) = none →
      s.Open ctx dir_name file_name =
        .returned s (ctx.respond .ERROR_FAILED_OPEN_ENTITY)) ∧
    (∀ dir, root.GetSubdirectory
        (StringFromFixedZeroTerminatedBuffer dir_name dir_name.length) = some dir →
      dir.GetFile (StringFromFixedZeroTerminatedBuffer file_name file_name.length) = none →
      s.Open ctx dir_name file_name =
        .returned s (ctx.respond .ERROR_FAILED_OPEN_ENTITY)) ∧
    (∀ dir file, root.GetSubdirectory
        (StringFromFixedZeroTerminatedBuffer dir_name dir_name.length) = some dir →
      dir.GetFile (StringFromFixedZeroTerminatedBuffer file_name file_name.length) =
        some file →
      s.Open ctx dir_name file_name =
        .returned { s with current_file := some file } (ctx.respond .RESULT_SUCCESS)) ∧
    ((s.Open ctx dir_name file_name).ctx =
        ctx.respond .ERROR_FAILED_OPEN_ENTITY ∨
      (s.Open ctx dir_name file_name).ctx = ctx.respond .RESULT_SUCCESS) ∧
    ((s.Open ctx dir_name file_name).ctx = ctx.respond .ERROR_FAILED_OPEN_ENTITY ↔
      root.lookup (StringFromFixedZeroTerminatedBuffer dir_name dir_name.length)
        (StringFromFixedZeroTerminatedBuffer file_name file_name.length) = none) ∧
    (s.Open ctx dir_name file_name).state.current_file =
      root.lookup (StringFromFixedZeroTerminatedBuffer dir_name dir_name.length)
        (StringFromFixedZeroTerminatedBuffer file_name file_name.length) := by
  have hne : ctx.respond .RESULT_SUCCESS ≠ ctx.respond .ERROR_FAILED_OPEN_ENTITY := by
    intro he
    have := congrArg (fun c => c.responses.getLast?) he
    simp [HLERequestContext.respond] at this
    exact absurd this (by decide)
  obtain ⟨r0, c0⟩ := s
  simp only at hroot hfree
  subst hroot hfree
  have hopen : IDeliveryCacheFileService.Open ⟨some root, none⟩ ctx dir_name file_name =
      match root.GetSubdirectory
          (StringFromFixedZeroTerminatedBuffer dir_name dir_name.length) with
      | none => .returned ⟨some root, none⟩ (ctx.respond .ERROR_FAILED_OPEN_ENTITY)
      | some dir =>
        match dir.GetFile (StringFromFixedZeroTerminatedBuffer file_name file_name.length) with
        | none => .returned ⟨some root, none⟩ (ctx.respond .ERROR_FAILED_OPEN_ENTITY)
        | some file =>
          .returned ⟨some root, some file⟩ (ctx.respond .RESULT_SUCCESS) := by
    unfold IDeliveryCacheFileService.Open
    simp only [hvd, hvf, VerifyNameValidDir_true_ctx ctx dir_name hvd,
      VerifyNameValidFile_true_ctx ctx file_name hvf, Bool.not_true, Bool.false_eq_true,
      if_false, Option.isSome_none]
    cases hd : root.GetSubdirectory
        (StringFromFixedZeroTerminatedBuffer dir_name dir_name.length) with
    | none => rfl
    | some dir =>
      simp only
      cases hf : dir.GetFile
          (StringFromFixedZeroTerminatedBuffer file_name file_name.length) with
      | none => simp only [Option.isNone_none, if_true]
      | some file => simp only [Option.isNone_some, Bool.false_eq_true, if_false]
  rw [hopen]
  unfold VfsDir.lookup
  cases hd : root.GetSubdirectory
      (StringFromFixedZeroTerminatedBuffer dir_name dir_name.length) with
  | none =>
    refine ⟨fun _ => rfl, fun dir h => by simp at h, fun dir file h => by simp at h,
      Or.inl rfl, ?_, ?_⟩
    · simp [Handled.ctx]
    · simp [Handled.state]
  | some dir =>
    cases hf : dir.GetFile
        (StringFromFixedZeroTerminatedBuffer file_name file_name.length) with
    | none =>
      refine ⟨fun h => by simp at h, fun dir2 h _ => ?_, fun dir2 file h h2 => ?_,
        Or.inl ?_, ?_, ?_⟩
      · simp only [Option.some.injEq] at h; subst h; simp only [hf]
      · simp only [Option.some.injEq] at h; subst h; rw [hf] at h2; simp at h2
      · simp only [hf, Handled.ctx]
      · simp [hf, Handled.ctx]
      · simp [hf, Handled.state]
    | some file =>
      refine ⟨fun h => by simp at h, fun dir2 h h2 => ?_, fun dir2 file2 h h2 => ?_,
        Or.inr ?_, ?_, ?_⟩
      · simp only [Option.some.injEq] at h; subst h; rw [hf] at h2; simp at h2
      · simp only [Option.some.injEq] at h; subst h; rw [hf] at h2
        simp only [Option.some.injEq] at h2; subst h2; simp only [hf]
      · simp only [hf, Handled.ctx]
      · simp only [hf, Handled.ctx, Option.bind_some]
        constructor
        · intro h; exact absurd h hne
        · intro h
          have h2 : dir.GetFile
              (StringFromFixedZeroTerminatedBuffer file_name file_name.length) = none := h
          rw [hf] at h2
          exact absurd h2 (by simp)
      · simp [hf, Handled.state]

/-- C22, at concrete inputs on the root `sampleDest`: `d1` / `keep` opens the file
`keep`, `d1` / `nofile` and `d9` / `keep` fail and leave no file open. -/
theorem C22_Open_fails_iff_absent_witness :
    IDeliveryCacheFileService.Open ⟨some sampleDest, none⟩ ⟨0, [], [], []⟩
        (bytesOf "d1" ++ List.replicate 30 0) (bytesOf "keep" ++ List.replicate 28 0) =
      .returned ⟨some sampleDest, some { VfsFile.fresh (bytesOf "keep") with data := [7] }⟩
        ((⟨0, [], [], []⟩ : HLERequestContext).respond .RESULT_SUCCESS) ∧
    IDeliveryCacheFileService.Open ⟨some sampleDest, none⟩ ⟨0, [], [], []⟩
        (bytesOf "d1" ++ List.replicate 30 0) (bytesOf "nofile" ++ List.replicate 26 0) =
      .returned ⟨some sampleDest, none⟩
        ((⟨0, [], [], []⟩ : HLERequestContext).respond .ERROR_FAILED_OPEN_ENTITY) ∧
    IDeliveryCacheFileService.Open ⟨some sampleDest, none⟩ ⟨0, [], [], []⟩
        (bytesOf "d9" ++ List.replicate 30 0) (bytesOf "keep" ++ List.replicate 28 0) =
      .returned ⟨some sampleDest, none⟩
        ((⟨0, [], [], []⟩ : HLERequestContext).respond .ERROR_FAILED_OPEN_ENTITY) :=
  ⟨(C22_Open_fails_iff_absent ⟨some sampleDest, none⟩ sampleDest ⟨0, [], [], []⟩
      (bytesOf "d1" ++ List.replicate 30 0) (bytesOf "keep" ++ List.replicate 28 0)
      rfl rfl (by decide) (by decide)).2.2.1 _ _ rfl rfl,
   (C22_Open_fails_iff_absent ⟨some sampleDest, none⟩ sampleDest ⟨0, [], [], []⟩
      (bytesOf "d1" ++ List.replicate 30 0) (bytesOf "nofile" ++ List.replicate 26 0)
      rfl rfl (by decide) (by decide)).2.1 _ rfl rfl,
   (C22_Open_fails_iff_absent ⟨some sampleDest, none⟩ sampleDest ⟨0, [], [], []⟩
      (bytesOf "d9" ++ List.replicate 30 0) (bytesOf "keep" ++ List.replicate 28 0)
      rfl rfl (by decide) (by decide)).1 rfl⟩

/-! ## The requests of `IBcatService` -/

/-- C23: `RequestSyncDeliveryCacheWithDirectoryName` does not apply the name rule.
For every name buffer, valid or not, it calls `SynchronizeDirectory` on the backend
once, with the string the buffer holds up to its first null, and answers success. For
the buffer of 0x20 null bytes and for `has space`, both rejected by
`VerifyNameValidDir`, the backend is asked to synchronize the directories of the
empty name and of `has space`. -/
theorem C23_sync_directory_name_not_validated :
    (∀ (s : IBcatService) (ctx : HLERequestContext) (title : TitleIDVersion)
        (name_raw : Bytes),
      s.RequestSyncDeliveryCacheWithDirectoryName ctx title name_raw =
        .returned
          { s with backend := s.backend ++
              [.SynchronizeDirectory title
                (StringFromFixedZeroTerminatedBuffer name_raw name_raw.length) .Directory] }
          (ctx.respond .RESULT_SUCCESS)) ∧
    (VerifyNameValidDir ⟨0, [], [], []⟩ (List.replicate 0x20 0)).1 = false ∧
    (IBcatService.RequestSyncDeliveryCacheWithDirectoryName ⟨[], fun _ => true⟩
      ⟨0, [], [], []⟩ ⟨1, 1⟩ (List.replicate 0x20 0)).state.backend =
        [.SynchronizeDirectory ⟨1, 1⟩ [] .Directory] ∧
    (IBcatService.RequestSyncDeliveryCacheWithDirectoryName ⟨[], fun _ => true⟩
      ⟨0, [], [], []⟩ ⟨1, 1⟩ (List.replicate 0x20 0)).ctx.responses =
        [⟨.RESULT_SUCCESS, []⟩] ∧
    (VerifyNameValidDir ⟨0, [], [], []⟩ (bytesOf "has space" ++ List.replicate 23 0)).1 =
      false ∧
    (IBcatService.RequestSyncDeliveryCacheWithDirectoryName ⟨[], fun _ => true⟩
      ⟨0, [], [], []⟩ ⟨1, 1⟩ (bytesOf "has space" ++ List.replicate 23 0)).state.backend =
        [.SynchronizeDirectory ⟨1, 1⟩ (bytesOf "has space") .Directory] ∧
    (IBcatService.RequestSyncDeliveryCacheWithDirectoryName ⟨[], fun _ => true⟩
      ⟨0, [], [], []⟩ ⟨1, 1⟩ (bytesOf "has space" ++ List.replicate 23 0)).ctx.responses =
        [⟨.RESULT_SUCCESS, []⟩] :=
  ⟨fun _ _ _ _ => rfl, by decide, by decide, by decide, by decide, by decide, by decide⟩

/-- C26: `SetPassphrase` with a title id other than 0 gives one response: the
invalid-argument error, with no call on the backend, for a passphrase of more than
0x40 bytes, and otherwise success after one `SetPassphrase` call on the backend with
the passphrase copied into a zeroed array of `sizeof(Passphrase)` bytes. With title
id 0 the handler does not stop at the error: for a passphrase of at most 0x40 bytes
it goes on to call the backend and to answer success, and for a longer one it
answers the error a second time; `ClearDeliveryCacheStorage` with title id 0 stops
at the error. -/
theorem C26_SetPassphrase_goes_on_after_zero_title :
    (∀ (n : Nat) (s : IBcatService) (ctx : HLERequestContext) (title_id : Nat),
      title_id ≠ 0 → ctx.read_buffer.length > 0x40 →
      IBcatService.SetPassphrase n s ctx title_id =
        .returned s (ctx.respond .ERROR_INVALID_ARGUMENT)) ∧
    (∀ (n : Nat) (s : IBcatService) (ctx : HLERequestContext) (title_id : Nat),
      title_id ≠ 0 → ctx.read_buffer.length ≤ 0x40 →
      IBcatService.SetPassphrase n s ctx title_id =
        .returned
          { s with backend := s.backend ++
              [.SetPassphrase title_id
                (ctx.read_buffer.take n ++ List.replicate (n - ctx.read_buffer.length) 0)] }
          (ctx.respond .RESULT_SUCCESS)) ∧
    (∀ (n : Nat) (s : IBcatService) (ctx : HLERequestContext),
      ctx.read_buffer.length ≤ 0x40 →
      (IBcatService.SetPassphrase n s ctx 0).ctx.responses =
        ctx.responses ++ [⟨.ERROR_INVALID_ARGUMENT, []⟩, ⟨.RESULT_SUCCESS, []⟩] ∧
      (IBcatService.SetPassphrase n s ctx 0).state.backend =
        s.backend ++ [.SetPassphrase 0
          (ctx.read_buffer.take n ++ List.replicate (n - ctx.read_buffer.length) 0)]) ∧
    (∀ (n : Nat) (s : IBcatService) (ctx : HLERequestContext),
      ctx.read_buffer.length > 0x40 →
      (IBcatService.SetPassphrase n s ctx 0).ctx.responses =
        ctx.responses ++ [⟨.ERROR_INVALID_ARGUMENT, []⟩, ⟨.ERROR_INVALID_ARGUMENT, []⟩] ∧
      (IBcatService.SetPassphrase n s ctx 0).state.backend = s.backend) ∧
    (∀ (s : IBcatService) (ctx : HLERequestContext),
      s.ClearDeliveryCacheStorage ctx 0 =
        .returned s (ctx.respond .ERROR_INVALID_ARGUMENT)) ∧
    (IBcatService.SetPassphrase 0x40 ⟨[], fun _ => true⟩ ⟨0, [1, 2, 3, 4], [], []⟩
      0).ctx.responses = [⟨.ERROR_INVALID_ARGUMENT, []⟩, ⟨.RESULT_SUCCESS, []⟩] ∧
    (IBcatService.SetPassphrase 0x40 ⟨[], fun _ => true⟩ ⟨0, [1, 2, 3, 4], [], []⟩
      0).state.backend = [.SetPassphrase 0 ([1, 2, 3, 4] ++ List.replicate 60 0)] := by
  have hpad : ∀ (n : Nat) (raw : Bytes),
      memcpy (List.replicate n 0) raw (min n raw.length) =
        raw.take n ++ List.replicate (n - raw.length) 0 := by
    intro n raw
    unfold memcpy
    rw [List.drop_replicate]
    rcases Nat.le_total n raw.length with h | h
    · rw [Nat.min_eq_left h, Nat.sub_self, Nat.sub_eq_zero_of_le h]
    · rw [Nat.min_eq_right h, List.take_of_length_le (Nat.le_refl _), List.take_of_length_le h]
  refine ⟨?_, ?_, ?_, ?_, fun _ _ => rfl, by decide, by decide⟩
  · intro n s ctx title_id ht hl
    unfold IBcatService.SetPassphrase
    simp only [HLERequestContext.ReadBuffer, ht, if_false, hl, if_true]
  · intro n s ctx title_id ht hl
    unfold IBcatService.SetPassphrase
    simp only [HLERequestContext.ReadBuffer, ht, if_false, Nat.not_lt.2 hl, hpad]
  · intro n s ctx hl
    unfold IBcatService.SetPassphrase
    simp only [HLERequestContext.ReadBuffer, if_true, Nat.not_lt.2 hl, if_false, hpad,
      Handled.ctx, Handled.state, HLERequestContext.respond, List.append_assoc,
      List.singleton_append, and_self]
  · intro n s ctx hl
    unfold IBcatService.SetPassphrase
    simp only [HLERequestContext.ReadBuffer, if_true, hl, Handled.ctx, Handled.state,
      HLERequestContext.respond, List.append_assoc, List.singleton_append, and_self]

/-! ## `VirtualBinaryFile` -/

/-- C24: `Resize(size)` leaves a storage of `size` bytes whose first
`min(old size, size)` bytes are the old ones; a file that grows gets zero bytes
appended and a file that shrinks loses the bytes from `size` on. The position
afterwards is `size` if it was beyond `size` and is what it was otherwise: it does not
change when the file grows (the position being within the old storage), and when the
file shrinks it is moved only if it was beyond the new end, and then to the end, one
past the last byte. After writing the bytes 1, 2, 3, 4 to an empty file and resetting
the position, `Resize(2)` leaves the position 0, not at the last byte; with the
position left at the end, 4, `Resize(2)` leaves it at 2. -/
theorem C24_Resize_keeps_position_within_storage :
    (∀ (f : VirtualBinaryFile) (size : Nat),
      (f.Resize size).Size = size ∧
      (f.Resize size).m_file_storage.take (min f.Size size) =
        f.m_file_storage.take (min f.Size size) ∧
      (f.Resize size).m_file_storage_current_position =
        min f.m_file_storage_current_position size) ∧
    (∀ (f : VirtualBinaryFile) (size : Nat), f.Size ≤ size →
      (f.Resize size).m_file_storage =
        f.m_file_storage ++ List.replicate (size - f.Size) 0 ∧
      (f.m_file_storage_current_position ≤ f.Size →
        (f.Resize size).m_file_storage_current_position =
          f.m_file_storage_current_position)) ∧
    (∀ (f : VirtualBinaryFile) (size : Nat), size ≤ f.Size →
      (f.Resize size).m_file_storage = f.m_file_storage.take size ∧
      (f.m_file_storage_current_position ≤ size →
        (f.Resize size).m_file_storage_current_position =
          f.m_file_storage_current_position) ∧
      (size < f.m_file_storage_current_position →
        (f.Resize size).m_file_storage_current_position = size)) ∧
    ((VirtualBinaryFile.create 0).WriteArray 1 [1, 2, 3, 4] 4).map
        (fun r => r.2.ResetReadWritePosition.Resize 2) = some ⟨[1, 2], 0⟩ ∧
    ((VirtualBinaryFile.create 0).WriteArray 1 [1, 2, 3, 4] 4).map
        (fun r => r.2.Resize 2) = some ⟨[1, 2], 2⟩ := by
  have hpos : ∀ (f : VirtualBinaryFile) (size : Nat),
      (f.Resize size).m_file_storage_current_position =
        min f.m_file_storage_current_position size := by
    intro f size
    unfold VirtualBinaryFile.Resize
    simp only
    split
    · rename_i h; simp only; omega
    · rename_i h; simp only; omega
  have hsto : ∀ (f : VirtualBinaryFile) (size : Nat),
      (f.Resize size).m_file_storage =
        (f.m_file_storage ++ List.replicate (size - f.m_file_storage.length) 0).take size := by
    intro f size
    unfold VirtualBinaryFile.Resize
    simp only
    split <;> rfl
  refine ⟨?_, ?_, ?_, by decide, by decide⟩
  · intro f size
    refine ⟨?_, ?_, hpos f size⟩
    · unfold VirtualBinaryFile.Size
      rw [hsto, List.length_take, List.length_append, List.length_replicate]
      omega
    · rw [hsto, List.take_take, List.take_append_of_le_length]
      · congr 1
        unfold VirtualBinaryFile.Size
        omega
      · unfold VirtualBinaryFile.Size
        omega
  · intro f size h
    unfold VirtualBinaryFile.Size at h ⊢
    refine ⟨?_, ?_⟩
    · rw [hsto, List.take_of_length_le]
      rw [List.length_append, List.length_replicate]
      omega
    · intro hp
      rw [hpos]
      omega
  · intro f size h
    unfold VirtualBinaryFile.Size at h
    refine ⟨?_, ?_, ?_⟩
    · rw [hsto, Nat.sub_eq_zero_of_le h, List.replicate_zero, List.append_nil]
    · intro hp
      rw [hpos]
      omega
    · intro hp
      rw [hpos]
      omega

/-- C29: on a file whose position is 0, with room for `d` within the range of
`std::size_t`, `WriteArray(d)` returns the number of bytes of `d`; the storage
afterwards is `d` followed by the old storage, the size has grown by that number and
the position is that number. After `ResetReadWritePosition`, `ReadArray` of as many
bytes returns that number, yields `d` and leaves the position behind `d`. A read of
`len` bytes at a position with `position + len` beyond the size (and below 2^64)
returns the largest `std::size_t`, copies nothing and leaves the file as it is. -/
theorem C29_write_then_read_at_front (f : VirtualBinaryFile) (d : Bytes)
    (hpos : f.m_file_storage_current_position = 0) (hroom : f.Size + d.length < U64) :
    ∃ f1 : VirtualBinaryFile, f.WriteArray 1 d d.length = some (d.length, f1) ∧
      f1.m_file_storage = d ++ f.m_file_storage ∧
      f1.Size = f.Size + d.length ∧
      f1.GetCurrentReadWritePosition = d.length ∧
      f1.ResetReadWritePosition.GetCurrentReadWritePosition = 0 ∧
      f1.ResetReadWritePosition.ReadArray 1 d.length = some (d.length, d, f1) ∧
      (∀ (g : VirtualBinaryFile) (len : Nat),
        g.m_file_storage_current_position + len < U64 →
        g.Size < g.m_file_storage_current_position + len →
        g.ReadArray 1 len = some (U64 - 1, [], g)) := by
  have hd : d.length < U64 := by omega
  refine ⟨⟨d ++ f.m_file_storage, d.length⟩, ?_, rfl, ?_, rfl, rfl, ?_, ?_⟩
  · unfold VirtualBinaryFile.WriteArray VirtualBinaryFile.WriteBytes
    simp only [hpos, Nat.zero_le, if_true, one_mul, Nat.mod_eq_of_lt hd, List.take_zero,
      List.nil_append, List.drop_zero, Nat.zero_add, List.take_of_length_le (Nat.le_refl _)]
  · unfold VirtualBinaryFile.Size
    simp only [List.length_append]
    omega
  · unfold VirtualBinaryFile.ReadArray VirtualBinaryFile.ReadBytes
      VirtualBinaryFile.RequestExceedsFileSize VirtualBinaryFile.ResetReadWritePosition
    simp only [one_mul, Nat.mod_eq_of_lt hd, Nat.zero_add, List.length_append, gt_iff_lt,
      decide_eq_true_eq, List.drop_zero]
    rw [if_neg (by omega), if_pos (by omega), List.take_append_of_le_length (Nat.le_refl _),
      List.take_of_length_le (Nat.le_refl _)]
  · intro g len h1 h2
    have hl : len < U64 := by omega
    unfold VirtualBinaryFile.Size at h2
    unfold VirtualBinaryFile.ReadArray VirtualBinaryFile.ReadBytes
      VirtualBinaryFile.RequestExceedsFileSize
    simp only [one_mul, Nat.mod_eq_of_lt hl, Nat.mod_eq_of_lt h1, gt_iff_lt, decide_eq_true_eq]
    rw [if_pos h2]

/-- C29, at a concrete file: the bytes 7, 8, 9 written to a file that holds 1, 2 at
position 0 are read back after a reset, and a read of 3 bytes at position 3 of the
5 bytes is refused. -/
theorem C29_write_then_read_at_front_witness :
    VirtualBinaryFile.WriteArray ⟨[1, 2], 0⟩ 1 [7, 8, 9] 3 = some (3, ⟨[7, 8, 9, 1, 2], 3⟩) ∧
    VirtualBinaryFile.ReadArray ⟨[7, 8, 9, 1, 2], 0⟩ 1 3 =
      some (3, [7, 8, 9], ⟨[7, 8, 9, 1, 2], 3⟩) ∧
    VirtualBinaryFile.ReadArray ⟨[7, 8, 9, 1, 2], 3⟩ 1 3 =
      some (U64 - 1, [], ⟨[7, 8, 9, 1, 2], 3⟩) := by
  obtain ⟨f1, h1, h2, _, h4, _, h6, h7⟩ :=
    C29_write_then_read_at_front ⟨[1, 2], 0⟩ [7, 8, 9] rfl (by decide)
  have hf1 : f1 = ⟨[7, 8, 9, 1, 2], 3⟩ := by
    cases f1
    simp only [VirtualBinaryFile.GetCurrentReadWritePosition] at h2 h4
    subst h2 h4
    rfl
  subst hf1
  exact ⟨h1, h6, h7 ⟨[7, 8, 9, 1, 2], 3⟩ 3 (by decide) (by decide)⟩

/-! ## A directory-scoped run for an absent directory -/

/-- C25: in a directory-scoped `SynchronizeInternal` with the override off, the
fetch outcome `Success` and an archive that is read and extracted, a name that is not
a subdirectory of the archive makes the run dereference the null `source_sub` (for
`source_sub->GetSize()`) right after `StartProcessingDataList`; a name that is a
subdirectory of the archive but not of the cache root makes it dereference the null
`target_sub` (for `target_sub->GetFiles()`) right after `SetTotalSize`. In both cases
the run does not reach the test for null further down, and the tracker is left at
`ProcessingDataList`, not finished. So it is for `zz` on `sampleHostDest` and for `d1`
on `sampleHost`, whose cache root is empty. -/
theorem C25_absent_directory_is_dereferenced :
    (∀ (host : Host) (title : TitleIDVersion) (p : ProgressServiceBackend) (name : Bytes)
        (root extracted : VfsDir),
      host.bcat_boxcat_local = false →
      (DownloadDataZip host title).1 = .Success →
      (DownloadDataZip host title).2.IsOpenRead = true →
      (DownloadDataZip host title).2.GetSize ≠ 0 →
      (DownloadDataZip host title).2.ReadAll.length = (DownloadDataZip host title).2.GetSize →
      host.ExtractZIP (DownloadDataZip host title).2.ReadAll = some extracted →
      host.bcat_dir = some root →
      extracted.GetSubdirectory name = none →
      SynchronizeInternal host title p (some name) =
        .null_deref ({ host with zip := (DownloadDataZip host title).2 },
          ((p.SetNeedHLELock true).StartConnecting).StartProcessingDataList)) ∧
    (∀ (host : Host) (title : TitleIDVersion) (p : ProgressServiceBackend) (name : Bytes)
        (root extracted ssub : VfsDir),
      host.bcat_boxcat_local = false →
      (DownloadDataZip host title).1 = .Success →
      (DownloadDataZip host title).2.IsOpenRead = true →
      (DownloadDataZip host title).2.GetSize ≠ 0 →
      (DownloadDataZip host title).2.ReadAll.length = (DownloadDataZip host title).2.GetSize →
      host.ExtractZIP (DownloadDataZip host title).2.ReadAll = some extracted →
      host.bcat_dir = some root →
      extracted.GetSubdirectory name = some ssub →
      root.GetSubdirectory name = none →
      SynchronizeInternal host title p (some name) =
        .null_deref ({ host with zip := (DownloadDataZip host title).2 },
          ((((p.SetNeedHLELock true).StartConnecting).StartProcessingDataList).SetTotalSize
            ssub.GetSize))) ∧
    sampleArchive.GetSubdirectory (bytesOf "zz") = none ∧
    (∃ s, SynchronizeInternal sampleHostDest ⟨1, 1⟩ idleTracker (some (bytesOf "zz")) =
        .null_deref s ∧
      s.2.impl.status = .ProcessingDataList ∧
      statusesSince idleTracker s.2 = [.Connecting, .ProcessingDataList]) ∧
    (VfsDir.fresh []).GetSubdirectory (bytesOf "d1") = none ∧
    (∃ s, SynchronizeInternal sampleHost ⟨1, 1⟩ idleTracker (some (bytesOf "d1")) =
        .null_deref s ∧
      s.2.impl.status = .ProcessingDataList ∧
      statusesSince idleTracker s.2 =
        [.Connecting, .ProcessingDataList, .ProcessingDataList]) := by
  refine ⟨?_, ?_, rfl, ⟨_, rfl, by decide, by decide⟩, rfl,
    ⟨_, rfl, by decide, by decide⟩⟩
  · intro host title p name root extracted hl hf ho hs hlen hext hroot hss
    unfold SynchronizeInternal
    simp only [hl, Bool.false_eq_true, if_false, hf, ne_eq, not_true_eq_false, ho,
      Bool.not_true, Bool.false_or, hs, decide_False, hlen, decide_True, hext, hroot, hss,
      Bool.or_self, Bool.not_false, decide_not]
  · intro host title p name root extracted ssub hl hf ho hs hlen hext hroot hss hts
    unfold SynchronizeInternal
    simp only [hl, Bool.false_eq_true, if_false, hf, ne_eq, not_true_eq_false, ho,
      Bool.not_true, Bool.false_or, hs, decide_False, hlen, decide_True, hext, hroot, hss,
      hts, Bool.or_self, Bool.not_false, decide_not]

/-! ## The block loop ends -/

theorem ceil_step (n b i : Nat) (hb : 1 ≤ b) (hi : i < n) :
    (n - (i + b) + b - 1) / b + 1 = (n - i + b - 1) / b := by
  have hlen : (offsetsFrom n b i).length = (offsetsFrom n b (i + b)).length + 1 := by
    rw [offsetsFrom_step _ _ _ hb hi]; rfl
  simp only [offsetsFrom, List.length_map, List.length_range] at hlen
  omega

theorem loop_signals_le (src : VfsFile) (b : Nat) (hb : 1 ≤ b)
    (hn : src.GetSize + b ≤ U64) :
    ∀ (fuel i : Nat) (dest : VfsFile) (p : ProgressServiceBackend) (ok : Bool)
      (d2 : VfsFile) (p2 : ProgressServiceBackend),
      VfsRawCopyProgress.loop src b fuel i dest p = some (ok, d2, p2) →
      p2.event.length ≤ p.event.length + (src.GetSize - i + b - 1) / b := by
  intro fuel
  induction fuel with
  | zero => intro i dest p ok d2 p2 h; simp [VfsRawCopyProgress.loop] at h
  | succ fuel ih =>
    intro i dest p ok d2 p2 h
    by_cases hi : i < src.GetSize
    · rcases loop_step src b fuel i dest p hi ok d2 p2 h with ⟨_, hp, _⟩ | ⟨_, _, h3⟩
      · rw [hp]; exact Nat.le_add_right _ _
      · rw [Nat.mod_eq_of_lt (by omega)] at h3
        have := ih _ _ _ _ _ _ h3
        have hs := ceil_step src.GetSize b i hb hi
        have he : (p.UpdateFileProgress i).event.length = p.event.length + 1 := by
          unfold ProgressServiceBackend.UpdateFileProgress
          rw [ProgressServiceBackend.SignalUpdate_event]
          simp
        omega
    · rw [loop_exit src b fuel i dest p hi] at h
      simp only [Option.some.injEq, Prod.mk.injEq] at h
      rw [← h.2.2]; exact Nat.le_add_right _ _

theorem loop_stuck (src : VfsFile) (i : Nat) (hi : i < src.GetSize) (hu : i < U64) :
    ∀ (fuel : Nat) (dest : VfsFile) (p : ProgressServiceBackend),
      VfsRawCopyProgress.loop src 0 fuel i dest p = none := by
  intro fuel
  induction fuel with
  | zero => intro dest p; rfl
  | succ fuel ih =>
    intro dest p
    rw [VfsRawCopyProgress.loop]
    have hrd : src.Read 0 i = [] := by
      unfold VfsFile.Read
      split <;> simp
    have hw : (dest.Write [] i).2 = 0 := by
      unfold VfsFile.Write
      split <;> simp
    simp only [hi, if_true, Nat.zero_min, hrd, List.length_nil, hw, ne_eq, not_true_eq_false,
      if_false, Nat.add_zero, Nat.mod_eq_of_lt hu]
    exact ih _ _

/-- C27: for a source of `n` bytes and a block size `b` with `1 ≤ b` and
`n + b < 2^64`, the block loop of `VfsRawCopyProgress`, entered at index 0 with room
for `ceil(n/b)` iterations and the final test, returns; an iteration at index `i < n`
moves the index to `i + b` without wrapping, so that the remaining count `n - i`
gets smaller and `ceil((n - i)/b)` drops by one, and at an index `i ≥ n` the loop
returns true at once; the iterations that ran to their end, each of which signals
one update, are at most `ceil(n/b)`. With `b = 0` and `n > 0` the index stays 0 and
the loop does not return, whatever room it is given. -/
theorem C27_copy_loop_terminates (src : VfsFile) (b : Nat) (dest : VfsFile)
    (p : ProgressServiceBackend) :
    (1 ≤ b → src.GetSize + b < U64 →
      (∀ fuel, (src.GetSize + b - 1) / b < fuel →
        ∃ r, VfsRawCopyProgress.loop src b fuel 0 dest p = some r) ∧
      (∀ i, i < src.GetSize →
        (i + b) % U64 = i + b ∧ src.GetSize - (i + b) < src.GetSize - i ∧
        (src.GetSize - (i + b) + b - 1) / b + 1 = (src.GetSize - i + b - 1) / b) ∧
      (∀ (fuel i : Nat) (d : VfsFile) (q : ProgressServiceBackend), src.GetSize ≤ i →
        VfsRawCopyProgress.loop src b (fuel + 1) i d q = some (true, d, q)) ∧
      (∀ (fuel : Nat) (ok : Bool) (d2 : VfsFile) (p2 : ProgressServiceBackend),
        VfsRawCopyProgress.loop src b fuel 0 dest p = some (ok, d2, p2) →
        p2.event.length ≤ p.event.length + (src.GetSize + b - 1) / b)) ∧
    (b = 0 → 0 < src.GetSize →
      (0 + b) % U64 = 0 ∧
      ∀ fuel, VfsRawCopyProgress.loop src b fuel 0 dest p = none) := by
  refine ⟨?_, ?_⟩
  · intro hb hn
    refine ⟨?_, ?_, ?_, ?_⟩
    · intro fuel hf
      exact loop_returns src b hb (by omega) fuel 0 dest p (by simpa using hf)
    · intro i hi
      exact ⟨Nat.mod_eq_of_lt (by omega), by omega, ceil_step _ _ _ hb hi⟩
    · intro fuel i d q hi
      exact loop_exit src b fuel i d q (by omega)
    · intro fuel ok d2 p2 h
      have := loop_signals_le src b hb (by omega) fuel 0 dest p ok d2 p2 h
      simpa using this
  · intro hb hn
    subst hb
    exact ⟨by decide, fun fuel => loop_stuck src 0 hn (by decide) fuel dest p⟩

/-- C27, at a concrete source of 5 bytes: with blocks of 2 bytes the loop returns
with room for `ceil(5/2) = 3` iterations and the final test, having signalled 3
updates; with blocks of 0 bytes it does not return with room for 1000. -/
theorem C27_copy_loop_terminates_witness :
    VfsRawCopyProgress.loop { VfsFile.fresh (bytesOf "a") with data := [1, 2, 3, 4, 5] } 2 4 0
        { VfsFile.fresh (bytesOf "a") with data := [0, 0, 0, 0, 0] } idleTracker =
      some (true, { VfsFile.fresh (bytesOf "a") with data := [1, 2, 3, 4, 5] },
        ((idleTracker.UpdateFileProgress 0).UpdateFileProgress 2).UpdateFileProgress 4) ∧
    (∃ r, VfsRawCopyProgress.loop
        { VfsFile.fresh (bytesOf "a") with data := [1, 2, 3, 4, 5] } 2 4 0
        { VfsFile.fresh (bytesOf "a") with data := [0, 0, 0, 0, 0] } idleTracker = some r) ∧
    VfsRawCopyProgress.loop { VfsFile.fresh (bytesOf "a") with data := [1, 2, 3, 4, 5] } 0 1000
        0 { VfsFile.fresh (bytesOf "a") with data := [0, 0, 0, 0, 0] } idleTracker = none :=
  ⟨by decide,
   (C27_copy_loop_terminates { VfsFile.fresh (bytesOf "a") with data := [1, 2, 3, 4, 5] } 2
      { VfsFile.fresh (bytesOf "a") with data := [0, 0, 0, 0, 0] } idleTracker).1
      (by decide) (by decide) |>.1 4 (by decide),
   (C27_copy_loop_terminates { VfsFile.fresh (bytesOf "a") with data := [1, 2, 3, 4, 5] } 0
      { VfsFile.fresh (bytesOf "a") with data := [0, 0, 0, 0, 0] } idleTracker).2
      rfl (by decide) |>.2 1000⟩

/-! ## The string of an accepted name -/

/-- C28: for a name buffer of 0x20 bytes accepted by `VerifyNameValidDir` or
`VerifyNameValidFile`, the string read up to the first null is a beginning of the
buffer, shorter than 0x20, of permitted characters only. But the null bytes of an
accepted buffer need not be at its end: the buffer that holds a null, the letter `a`
and nulls is accepted as a directory name and as a file name and its string is empty,
and the buffer that holds `a`, a null, `b` and nulls is accepted and its string is `a`,
without the `b`. -/
theorem C28_null_inside_accepted_name :
    (∀ (ctx : HLERequestContext) (name : Bytes) (m : Nat), name.length = 0x20 →
      (VerifyNameValidInternal ctx name m).1 = true →
      StringFromFixedZeroTerminatedBuffer name name.length <+: name ∧
      (StringFromFixedZeroTerminatedBuffer name name.length).length < 0x20 ∧
      ∀ c ∈ StringFromFixedZeroTerminatedBuffer name name.length,
        c ≠ 0 ∧ (isalnum c = true ∨ c = 95 ∨ c = m)) ∧
    (VerifyNameValidDir ⟨0, [], [], []⟩ ([0, 97] ++ List.replicate 30 0)).1 = true ∧
    (VerifyNameValidFile ⟨0, [], [], []⟩ ([0, 97] ++ List.replicate 30 0)).1 = true ∧
    StringFromFixedZeroTerminatedBuffer ([0, 97] ++ List.replicate 30 0) 0x20 = [] ∧
    (VerifyNameValidDir ⟨0, [], [], []⟩ ([97, 0, 98] ++ List.replicate 29 0)).1 = true ∧
    (VerifyNameValidFile ⟨0, [], [], []⟩ ([97, 0, 98] ++ List.replicate 29 0)).1 = true ∧
    StringFromFixedZeroTerminatedBuffer ([97, 0, 98] ++ List.replicate 29 0) 0x20 = [97] := by
  refine ⟨?_, by decide, by decide, by decide, by decide, by decide, by decide⟩
  intro ctx name m hlen hv
  obtain ⟨_, hlast, hall⟩ := (VerifyNameValidInternal_iff ctx name m hlen).1 hv
  have hstr : StringFromFixedZeroTerminatedBuffer name name.length =
      name.takeWhile (fun c => c != 0) := by
    unfold StringFromFixedZeroTerminatedBuffer
    rw [List.take_of_length_le (Nat.le_refl _)]
  rw [hstr]
  refine ⟨List.takeWhile_prefix _, ?_, ?_⟩
  · by_contra hge
    have hle : (name.takeWhile (fun c => c != 0)).length ≤ name.length :=
      (List.takeWhile_prefix _).length_le
    have hfull : name.takeWhile (fun c => c != 0) = name :=
      (List.takeWhile_prefix (fun c => c != 0)).eq_of_length (by omega)
    have hmem : name.getD 0x1F 0 ∈ name := by
      rw [List.getD_eq_getElem name 0 (by omega)]
      exact List.getElem_mem _
    have hmem2 : name.getD 0x1F 0 ∈ name.takeWhile (fun c => c != 0) := by
      rw [hfull]; exact hmem
    have := List.mem_takeWhile_imp hmem2
    rw [hlast] at this
    simp at this
  · intro c hc
    have h0 : c ≠ 0 := by
      have := List.mem_takeWhile_imp hc
      simpa using this
    exact ⟨h0, hall c ((List.takeWhile_prefix _).subset hc) h0⟩

end Bcat
